import Mathlib

/-!
# BECA extension: response extractors, request scheduling and task state

A shallow embedding of parts of the BECA VS Code extension:

* `parseDiagnostics` of `src/providers/diagnosticProvider.js`,
* `parseSuggestions` of `src/providers/completionProvider.js`,
* `extractKeyInsights` of `src/watchers/fileWatcher.js`,
* the rate limit of `provideCompletionItems`, the debounce of
  `scheduleAnalysis` with `analyzePendingDocuments`, and the cache of
  `provideHover` in `src/providers/hoverProvider.js`,
* the task and the conversation of `BecaProvider` in
  `src/views/becaProvider.js`, with the message handler of the webview in
  `src/webview-ui/src/App.tsx`.

Time is a parameter: each reading of `Date.now()` is an argument, timers are
records with a deadline, and an `async` method is cut at its `await` where
calls can interleave.

A JavaScript string is modelled as the list of its UTF-16 code units, each a
natural number.  The regular expressions of the source are written out as the
backtracking matchers they denote: one function per quantifier, greedy ones
trying the longer alternative first, lazy ones the shorter.
-/

namespace Beca

/-! ## JavaScript strings -/

/-- A JavaScript string: the sequence of its UTF-16 code units. -/
abbrev JString := List Nat

/-- UTF-16 code units of one Unicode scalar value. -/
def encodeChar (c : Char) : List Nat :=
  if c.toNat < 65536 then [c.toNat]
  else [55296 + (c.toNat - 65536) / 1024, 56320 + (c.toNat - 65536) % 1024]

/-- The JavaScript string written as a Lean string literal. -/
def utf16 (s : String) : JString := s.toList.flatMap encodeChar

/-- Line terminators of ECMAScript: LF, CR, U+2028, U+2029.  The pattern
character `.` (without the `s` flag) matches every code unit but these. -/
def isLineTerminator (c : Nat) : Bool :=
  c == 10 || c == 13 || c == 8232 || c == 8233

/-- The class `\s` of a regular expression, which is also the set of code
units removed by `String.prototype.trim`: white space and line terminators. -/
def isWhiteSpace (c : Nat) : Bool :=
  c == 9 || c == 10 || c == 11 || c == 12 || c == 13 || c == 32 || c == 160 ||
  c == 5760 || (8192 ≤ c && c ≤ 8202) || c == 8232 || c == 8233 || c == 8239 ||
  c == 8287 || c == 12288 || c == 65279

/-- The class `\d`: the ASCII digits. -/
def isDigit (c : Nat) : Bool := 48 ≤ c && c ≤ 57

/-- The class `\w`: ASCII letters, ASCII digits and the underscore. -/
def isWordChar (c : Nat) : Bool :=
  (65 ≤ c && c ≤ 90) || (97 ≤ c && c ≤ 122) || (48 ≤ c && c ≤ 57) || c == 95

/-- `String.prototype.trim`. -/
def trim (s : JString) : JString :=
  ((s.dropWhile isWhiteSpace).reverse.dropWhile isWhiteSpace).reverse

/-- Lower-casing of one code unit: the ASCII capitals `A`..`Z`. -/
def lowerUnit (c : Nat) : Nat := if 65 ≤ c ∧ c ≤ 90 then c + 32 else c

/-- `String.prototype.toLowerCase`, on the ASCII letters.  Code units outside
ASCII are left in place: their lower-case forms are again outside ASCII, but
for U+0130 (which gives `i` followed by U+0307) and U+212A (which gives `k`),
and no keyword tested in the source ends in `i` or contains `k`, so the
`includes` tests on the result are those of the full case mapping. -/
def toLowerCase (s : JString) : JString := s.map lowerUnit

/-- `String.prototype.startsWith`. -/
def startsWith (s p : JString) : Bool := p.isPrefixOf s

/-- `String.prototype.includes`: `p` occurs in `s` at some position. -/
def includes : JString → JString → Bool
  | [], p => p.isPrefixOf []
  | c :: s, p => p.isPrefixOf (c :: s) || includes s p

/-- `String.prototype.split` with the separator `"\n"`. -/
def splitLines : JString → List JString
  | [] => [[]]
  | c :: s =>
    if c = 10 then [] :: splitLines s
    else
      match splitLines s with
      | l :: ls => (c :: l) :: ls
      | [] => [[c]]

/-- `parseInt` of a string of decimal digits.  The value is exact, where the
source has a double: the two agree below 2^53, and above it the double is
still at least 2^53, beyond the line count of any document. -/
def parseInt (ds : JString) : Nat := ds.foldl (fun n d => 10 * n + (d - 48)) 0

/-! ## Diagnostics (`src/providers/diagnosticProvider.js`) -/

/-- `vscode.DiagnosticSeverity`. -/
inductive DiagnosticSeverity where
  | Error
  | Warning
  | Information
  | Hint
  deriving DecidableEq, Repr

/-- `vscode.Range`: start line, start character, end line, end character. -/
structure Range where
  startLine : Int
  startCharacter : Int
  endLine : Int
  endCharacter : Int
  deriving DecidableEq, Repr

/-- `vscode.Diagnostic`, with the fields the provider sets. -/
structure Diagnostic where
  range : Range
  message : JString
  severity : DiagnosticSeverity
  source : JString
  deriving DecidableEq, Repr

/-- What `parseDiagnostics` reads of a `vscode.TextDocument`: the text of its
lines.  An editor document has at least one line (an empty document is one
empty line). -/
structure TextDocument where
  lines : List JString
  hasLine : 0 < lines.length

/-- `document.lineCount`. -/
def TextDocument.lineCount (document : TextDocument) : Nat := document.lines.length

/-- `document.lineAt(n).text`. -/
def TextDocument.lineText (document : TextDocument) (n : Nat) : JString :=
  document.lines.getD n []

/-- A successful match of `linePattern`: the two capture groups, and the
input from `lastIndex` on. -/
structure LineMatch where
  digits : JString
  message : JString
  rest : JString
  deriving DecidableEq, Repr

/-- The end `(.+?)(?:\n|$)` of `linePattern`, after `.+?` has consumed the
code units `acc` (at least one): the lazy quantifier first tries to stop, at
a line feed (which is consumed) or at the end of the input, and otherwise
consumes one more code unit that is not a line terminator. -/
def matchMessageTail (acc : JString) : JString → Option (JString × JString)
  | [] => some (acc, [])
  | c :: s =>
    if c = 10 then some (acc, s)
    else if isLineTerminator c then none
    else matchMessageTail (acc ++ [c]) s

/-- The end `(.+?)(?:\n|$)` of `linePattern`: `.+?` takes at least one code
unit. -/
def matchMessage : JString → Option (JString × JString)
  | [] => none
  | c :: s => if isLineTerminator c then none else matchMessageTail [c] s

/-- The part `\s*(.+?)(?:\n|$)` of `linePattern`: the greedy `\s*` first
takes a further white-space code unit, and gives it back when the rest of the
pattern fails after it. -/
def matchSpacesMessage : JString → Option (JString × JString)
  | [] => matchMessage []
  | c :: s =>
    if isWhiteSpace c then
      match matchSpacesMessage s with
      | some r => some r
      | none => matchMessage (c :: s)
    else matchMessage (c :: s)

/-- The part `:\s*(.+?)(?:\n|$)` of `linePattern`, the first group being
`digits`. -/
def matchColon (digits : JString) : JString → Option LineMatch
  | [] => none
  | c :: s =>
    if c = 58 then
      match matchSpacesMessage s with
      | some (message, rest) => some ⟨digits, message, rest⟩
      | none => none
    else none

/-- The group `(\d+)` after it has consumed the digits `acc` (at least one),
and the rest of `linePattern`: greedy, a further digit is tried first. -/
def matchDigitsTail (acc : JString) : JString → Option LineMatch
  | [] => matchColon acc []
  | c :: s =>
    if isDigit c then
      match matchDigitsTail (acc ++ [c]) s with
      | some r => some r
      | none => matchColon acc (c :: s)
    else matchColon acc (c :: s)

/-- The part `(\d+):\s*(.+?)(?:\n|$)` of `linePattern`. -/
def matchDigits : JString → Option LineMatch
  | [] => none
  | c :: s => if isDigit c then matchDigitsTail [c] s else none

/-- The quantifier `\s+` after it has consumed one white-space code unit, and
the rest of `linePattern`: greedy, a further white-space unit is tried first. -/
def matchSpacesTail : JString → Option LineMatch
  | [] => matchDigits []
  | c :: s =>
    if isWhiteSpace c then
      match matchSpacesTail s with
      | some r => some r
      | none => matchDigits (c :: s)
    else matchDigits (c :: s)

/-- The part `\s+(\d+):\s*(.+?)(?:\n|$)` of `linePattern`. -/
def matchSpaces : JString → Option LineMatch
  | [] => none
  | c :: s => if isWhiteSpace c then matchSpacesTail s else none

/-- The pattern `/(?:line|Line)\s+(\d+):\s*(.+?)(?:\n|$)/` matched at the
start of the input: `l` or `L`, then `ine`, then the rest. -/
def matchLineHere : JString → Option LineMatch
  | c :: 105 :: 110 :: 101 :: s => if c = 108 ∨ c = 76 then matchSpaces s else none
  | _ => none

/-- The call `linePattern.exec(response)` on the input from `lastIndex` on:
the match at the first position that has one. -/
def execLine : JString → Option LineMatch
  | [] => matchLineHere []
  | c :: s =>
    match matchLineHere (c :: s) with
    | some r => some r
    | none => execLine s

/-- The severity chosen for a matched message. -/
def severityOf (message : JString) : DiagnosticSeverity :=
  let lowerMessage := toLowerCase message
  if includes lowerMessage (utf16 "error") || includes lowerMessage (utf16 "bug") then
    DiagnosticSeverity.Error
  else if includes lowerMessage (utf16 "info") || includes lowerMessage (utf16 "suggestion") then
    DiagnosticSeverity.Information
  else DiagnosticSeverity.Warning

/-- The diagnostic pushed for an in-range match. -/
def lineDiagnostic (document : TextDocument) (lineNumber : Int) (message : JString) :
    Diagnostic :=
  { range := ⟨lineNumber, 0, lineNumber, (document.lineText lineNumber.toNat).length⟩
    message := utf16 "BECA: " ++ message
    severity := severityOf message
    source := utf16 "BECA" }

/-- The `while` loop of `parseDiagnostics`: `s` is the response from
`lastIndex` on, `diagnostics` the array so far.  Every match is at least
eight code units long, so `fuel` above the length of `s` is never used up
(`parseLoop_fuel`). -/
def parseLoop (document : TextDocument) :
    Nat → JString → List Diagnostic → List Diagnostic
  | 0, _, diagnostics => diagnostics
  | fuel + 1, s, diagnostics =>
    match execLine s with
    | none => diagnostics
    | some m =>
      let lineNumber : Int := (parseInt m.digits : Int) - 1
      let message := trim m.message
      if 0 ≤ lineNumber ∧ lineNumber < (document.lineCount : Int) then
        parseLoop document fuel m.rest (diagnostics ++ [lineDiagnostic document lineNumber message])
      else parseLoop document fuel m.rest diagnostics

/-- The file-level hint pushed when no line diagnostic was produced. -/
def hintDiagnostic : Diagnostic :=
  { range := ⟨0, 0, 0, 0⟩
    message := utf16
      "BECA: Code quality suggestions available. Right-click and select \"BECA: Review File\" for details."
    severity := DiagnosticSeverity.Hint
    source := utf16 "BECA" }

/-- `BecaDiagnosticProvider.parseDiagnostics(response, document)`. -/
def parseDiagnostics (response : JString) (document : TextDocument) : List Diagnostic :=
  let diagnostics := parseLoop document (response.length + 1) response []
  if diagnostics.length = 0 ∧ includes response (utf16 "improve") = true then
    diagnostics ++ [hintDiagnostic]
  else diagnostics

/-- All matches of `linePattern` in the input, in order of appearance: the
results of calling `exec` until it fails. -/
def lineMatchesFrom : Nat → JString → List LineMatch
  | 0, _ => []
  | fuel + 1, s =>
    match execLine s with
    | none => []
    | some m => m :: lineMatchesFrom fuel m.rest

/-- All matches of `linePattern` in a response. -/
def lineMatches (response : JString) : List LineMatch :=
  lineMatchesFrom (response.length + 1) response

/-- The keyword `p` occurs at the start of `s`, letters compared without
regard to case. -/
def prefixIgnoreCase : JString → JString → Bool
  | [], _ => true
  | _ :: _, [] => false
  | a :: p, b :: s => lowerUnit a == lowerUnit b && prefixIgnoreCase p s

/-- The keyword `p` occurs somewhere in `s`, letters compared without regard
to case. -/
def includesIgnoreCase : JString → JString → Bool
  | [], p => prefixIgnoreCase p []
  | c :: s, p => prefixIgnoreCase p (c :: s) || includesIgnoreCase s p

/-- The severity rule in words: `error` or `bug` gives Error, otherwise `info`
or `suggestion` gives Information, otherwise Warning; case is ignored. -/
def severityByKeywords (message : JString) : DiagnosticSeverity :=
  if includesIgnoreCase message (utf16 "error") || includesIgnoreCase message (utf16 "bug") then
    DiagnosticSeverity.Error
  else if includesIgnoreCase message (utf16 "info") ||
      includesIgnoreCase message (utf16 "suggestion") then
    DiagnosticSeverity.Information
  else DiagnosticSeverity.Warning

/-- The code unit `c` is the small letter `k` or the capital letter of it
(`k` is one of the code units 97 to 122, the letters `a` to `z`). -/
def isLetterOf (k c : Nat) : Bool :=
  c == k || (decide (65 ≤ c ∧ c ≤ 90) && c + 32 == k)

/-- The keyword, given in small letters, stands at the start of `s`, each of
its letters written small or capital. -/
def keywordAtStart : JString → JString → Bool
  | [], _ => true
  | _ :: _, [] => false
  | k :: keyword, c :: s => isLetterOf k c && keywordAtStart keyword s

/-- The keyword, given in small letters, occurs somewhere in `s`, each of its
letters written small or capital. -/
def containsKeyword : JString → JString → Bool
  | [], keyword => keywordAtStart keyword []
  | c :: s, keyword => keywordAtStart keyword (c :: s) || containsKeyword s keyword

/-- The severity rule in words, on the letters themselves: `error` or `bug`
in any mix of small and capital letters gives Error, otherwise `info` or
`suggestion` gives Information, otherwise Warning. -/
def severityInWords (message : JString) : DiagnosticSeverity :=
  if containsKeyword message (utf16 "error") || containsKeyword message (utf16 "bug") then
    DiagnosticSeverity.Error
  else if containsKeyword message (utf16 "info") ||
      containsKeyword message (utf16 "suggestion") then
    DiagnosticSeverity.Information
  else DiagnosticSeverity.Warning

/-- The match names a line of the document: its number, counted from 1, is
between 1 and `lineCount`. -/
def LineMatch.inRange (document : TextDocument) (m : LineMatch) : Bool :=
  decide (1 ≤ parseInt m.digits ∧ parseInt m.digits ≤ document.lineCount)

/-- The diagnostic of a match, as `parseDiagnostics` builds it. -/
def LineMatch.diagnostic (document : TextDocument) (m : LineMatch) : Diagnostic :=
  lineDiagnostic document ((parseInt m.digits : Int) - 1) (trim m.message)

/-- A document of three lines, `a`, `bb` and `ccc`. -/
def threeLineDocument : TextDocument := ⟨[utf16 "a", utf16 "bb", utf16 "ccc"], by decide⟩

/-- A document of four lines, `a`, `bb`, `ccc` and `dddd`. -/
def fourLineDocument : TextDocument :=
  ⟨[utf16 "a", utf16 "bb", utf16 "ccc", utf16 "dddd"], by decide⟩

/-- A response of five items, with keywords in capitals and in small letters;
the item for line 5 names no line of `fourLineDocument`. -/
def mixedCaseResponse : JString :=
  utf16 "Line 1: BUG in loop \nline 2: a Suggestion\nLine 5: far\nLine 3: Info, no ERROR\nline 4:  unused"

/-! ## Completions (`src/providers/completionProvider.js`) -/

/-- An element of the array returned by `parseSuggestions`. -/
structure Suggestion where
  label : JString
  documentation : JString
  insertText : JString
  deriving DecidableEq, Repr

/-- A successful match of `codeBlockRegex`: the capture group, and the input
from `lastIndex` on. -/
structure FenceMatch where
  code : JString
  rest : JString
  deriving DecidableEq, Repr

/-- Three backticks. -/
def fence : JString := [96, 96, 96]

/-- The end of `codeBlockRegex`, the group `([\s\S]+?)` having consumed the
code units `acc` (at least one): the lazy quantifier first tries to stop, at
three backticks, and otherwise consumes one more code unit. -/
def matchFenceBodyTail (acc : JString) : JString → Option FenceMatch
  | [] => none
  | c :: s =>
    if startsWith (c :: s) fence then some ⟨acc, (c :: s).drop 3⟩
    else matchFenceBodyTail (acc ++ [c]) s

/-- The group `([\s\S]+?)` and the closing backticks: the group takes at
least one code unit, whatever it is. -/
def matchFenceBody : JString → Option FenceMatch
  | [] => none
  | c :: s => matchFenceBodyTail [c] s

/-- The line feed after the opening of the fence, and the rest of the
pattern. -/
def matchFenceNewline : JString → Option FenceMatch
  | [] => none
  | c :: s => if c = 10 then matchFenceBody s else none

/-- The part after the opening backticks: the greedy class `[\w]*` first
takes a further word character. -/
def matchFenceTag : JString → Option FenceMatch
  | [] => matchFenceNewline []
  | c :: s =>
    if isWordChar c then
      match matchFenceTag s with
      | some r => some r
      | none => matchFenceNewline (c :: s)
    else matchFenceNewline (c :: s)

/-- The pattern of `codeBlockRegex`, three backticks, `[\w]*`, a line feed,
`([\s\S]+?)` and three backticks, matched at the start of the input. -/
def matchFenceHere (s : JString) : Option FenceMatch :=
  if startsWith s fence then matchFenceTag (s.drop 3) else none

/-- The call `codeBlockRegex.exec(response)` on the input from `lastIndex`
on: the match at the first position that has one. -/
def execFence : JString → Option FenceMatch
  | [] => matchFenceHere []
  | c :: s =>
    match matchFenceHere (c :: s) with
    | some r => some r
    | none => execFence s

/-- The suggestion pushed for a fenced segment, `code` being the trimmed
capture group. -/
def codeSuggestion (code : JString) : Suggestion :=
  { label := ((splitLines code).headD []).take 50 ++ utf16 "..."
    documentation := utf16 "BECA suggested code snippet"
    insertText := code }

/-- The `while` loop of `parseSuggestions`: `exec` is called first, then
`count` is compared with `maxSuggestions`.  Every match is at least eight
code units long, so `fuel` above the length of `s` is never used up
(`suggestLoop_fuel`). -/
def suggestLoop (maxSuggestions : Nat) :
    Nat → JString → Nat → List Suggestion → List Suggestion
  | 0, _, _, suggestions => suggestions
  | fuel + 1, s, count, suggestions =>
    match execFence s with
    | none => suggestions
    | some m =>
      if count < maxSuggestions then
        suggestLoop maxSuggestions fuel m.rest (count + 1)
          (suggestions ++ [codeSuggestion (trim m.code)])
      else suggestions

/-- The suggestion pushed when the loop produced none and the response is
not the empty string. -/
def genericSuggestion (response : JString) : Suggestion :=
  let lines := (splitLines response).filter (fun line => (trim line).length > 0)
  let firstLine :=
    match lines with
    | line :: _ => if line ≠ [] then line else response.take 100
    | [] => response.take 100
  { label := firstLine.take 50
    documentation := response
    insertText := firstLine }

/-- `BecaCompletionProvider.parseSuggestions(response, maxSuggestions)`. -/
def parseSuggestions (response : JString) (maxSuggestions : Nat) : List Suggestion :=
  let suggestions := suggestLoop maxSuggestions (response.length + 1) response 0 []
  if suggestions.length = 0 ∧ response ≠ [] then
    suggestions ++ [genericSuggestion response]
  else suggestions

/-- The trimmed bodies of all fenced code segments of the input, in order of
appearance: the capture groups of calling `exec` until it fails. -/
def fencedCodesFrom : Nat → JString → List JString
  | 0, _ => []
  | fuel + 1, s =>
    match execFence s with
    | none => []
    | some m => trim m.code :: fencedCodesFrom fuel m.rest

/-- The trimmed bodies of all fenced code segments of a response. -/
def fencedCodes (response : JString) : List JString :=
  fencedCodesFrom (response.length + 1) response

/-- A line is blank when it holds white space only. -/
def isBlank (line : JString) : Bool := line.all isWhiteSpace

/-- The first non-blank line of the response, or its first 100 code units
when every line is blank. -/
def firstNonBlankLine (response : JString) : JString :=
  match (splitLines response).find? (fun line => !isBlank line) with
  | some line => line
  | none => response.take 100

/-- The lines joined by line feeds, as `lines.join('\n')` does it. -/
def joinLines : List JString → JString
  | [] => []
  | [l] => l
  | l :: l2 :: ls => l ++ 10 :: joinLines (l2 :: ls)

/-! ## Key insights (`src/watchers/fileWatcher.js`) -/

/-- The first bullet string of `extractKeyInsights` as the source file has
it: the three code units U+201A, U+00C4, U+00A2. -/
def bulletLiteral : JString := [8218, 196, 162]

/-- The test of the `if` in `extractKeyInsights`. -/
def startsWithBullet (trimmed : JString) : Bool :=
  startsWith trimmed bulletLiteral || startsWith trimmed (utf16 "-") ||
    startsWith trimmed (utf16 "*")

/-- The `for` loop of `extractKeyInsights` over the lines still to visit,
`insights` being the array so far. -/
def insightsLoop : List JString → List JString → List JString
  | [], insights => insights
  | line :: lines, insights =>
    let trimmed := trim line
    if startsWithBullet trimmed then
      insightsLoop lines (insights ++ [trim (trimmed.drop 1)])
    else insightsLoop lines insights

/-- `FileWatcher.extractKeyInsights(response)`. -/
def extractKeyInsights (response : JString) : List JString :=
  (insightsLoop (splitLines response) []).take 5

/-! ## The chat provider (`src/views/becaProvider.js`) -/

/-- `Number.prototype.toString` of a non-negative integer: its decimal digits. -/
def decimal (n : Nat) : JString := (Nat.toDigits 10 n).map Char.toNat

/-- The `role` of a conversation entry. -/
inductive Role where
  | user
  | assistant
  | system
  | error
  deriving DecidableEq, Repr

/-- An entry of `conversationHistory`. -/
structure Message where
  id : JString
  role : Role
  content : JString
  timestamp : JString
  deriving DecidableEq, Repr

/-- The `status` of a task step: `pending`, `in-progress`, `completed`,
`failed`. -/
inductive StepStatus where
  | pending
  | inProgress
  | completed
  | failed
  deriving DecidableEq, Repr

/-- The `status` of a task. -/
inductive TaskStatus where
  | active
  | completed
  | failed
  deriving DecidableEq, Repr

/-- An element of `currentTask.steps`. -/
structure TaskStep where
  id : Nat
  title : JString
  status : StepStatus
  deriving DecidableEq, Repr

/-- The object held in `currentTask`. -/
structure Task where
  id : JString
  title : JString
  steps : List TaskStep
  createdAt : JString
  status : TaskStatus
  deriving DecidableEq, Repr

/-- The messages the provider posts to the webview, by their `type`. -/
inductive WebviewMessage where
  | messageAdded (message : Message)
  | taskCreated (task : Task)
  | taskUpdated (task : Task)
  | thinking (value : Bool)
  | fullUpdate (conversationHistory : List Message) (currentTask : Option Task)
      (exploredFiles : List JString)
  deriving DecidableEq, Repr

/-- The attached view, as far as the provider acts on it: the messages passed
to `webview.postMessage`, in order.  A message carries the task as it is when
posted. -/
structure WebviewView where
  posted : List WebviewMessage
  deriving DecidableEq, Repr

/-- The fields of a `BecaProvider` that its methods change: `_view` (`none`
for `null`), `conversationHistory` and `currentTask` (`none` for `null`). -/
structure BecaProvider where
  view : Option WebviewView
  conversationHistory : List Message
  currentTask : Option Task
  deriving DecidableEq, Repr

/-- The state set by the constructor of `BecaProvider`. -/
def BecaProvider.initial : BecaProvider :=
  { view := none, conversationHistory := [], currentTask := none }

/-- `sendToWebview(message)`: posts to the view when there is one. -/
def sendToWebview (p : BecaProvider) (message : WebviewMessage) : BecaProvider :=
  match p.view with
  | some v => { p with view := some { v with posted := v.posted ++ [message] } }
  | none => p

/-- The task built by `createTask`, `now` being the value of `Date.now()` and
`createdAt` that of `new Date().toISOString()`. -/
def newTask (now : Nat) (createdAt userRequest : JString) : Task :=
  { id := decimal now
    title := userRequest.take 100
    steps :=
      [ ⟨1, utf16 "Analyze requirements", StepStatus.inProgress⟩,
        ⟨2, utf16 "Explore codebase", StepStatus.pending⟩,
        ⟨3, utf16 "Make necessary changes", StepStatus.pending⟩,
        ⟨4, utf16 "Test changes", StepStatus.pending⟩,
        ⟨5, utf16 "Summarize and provide next steps", StepStatus.pending⟩ ]
    createdAt := createdAt
    status := TaskStatus.active }

/-- `createTask(userRequest)`. -/
def createTask (p : BecaProvider) (now : Nat) (createdAt userRequest : JString) :
    BecaProvider :=
  let p1 := { p with currentTask := some (newTask now createdAt userRequest) }
  sendToWebview p1 (WebviewMessage.taskCreated (newTask now createdAt userRequest))

/-- The step of `handleUserMessage` that creates the task of a first message:
`if (!this.currentTask) await this.createTask(userMessage)`. -/
def ensureTask (p : BecaProvider) (now : Nat) (createdAt userMessage : JString) :
    BecaProvider :=
  match p.currentTask with
  | none => createTask p now createdAt userMessage
  | some _ => p

/-- The assignment `step.status = status` on the step found by
`steps.find(s => s.id === stepId)`, the first with that id. -/
def setStepStatus (stepId : Nat) (status : StepStatus) : List TaskStep → List TaskStep
  | [] => []
  | s :: steps =>
    if s.id = stepId then { s with status := status } :: steps
    else s :: setStepStatus stepId status steps

/-- `updateTaskStep(stepId, status)`. -/
def updateTaskStep (p : BecaProvider) (stepId : Nat) (status : StepStatus) : BecaProvider :=
  match p.currentTask with
  | none => p
  | some task =>
    match task.steps.find? (fun s => s.id = stepId) with
    | none => p
    | some step =>
      if step.status ≠ status then
        let task1 := { task with steps := setStepStatus stepId status task.steps }
        sendToWebview { p with currentTask := some task1 } (WebviewMessage.taskUpdated task1)
      else p

/-- `updateTaskProgress(responseContent)`, for a response that is a string. -/
def updateTaskProgress (p : BecaProvider) (responseContent : JString) : BecaProvider :=
  match p.currentTask with
  | none => p
  | some _ =>
    let content := toLowerCase responseContent
    let p1 :=
      if includes content (utf16 "analyzing") || includes content (utf16 "understanding") then
        updateTaskStep (updateTaskStep p 1 StepStatus.completed) 2 StepStatus.inProgress
      else p
    let p2 :=
      if includes content (utf16 "exploring") || includes content (utf16 "found") then
        updateTaskStep (updateTaskStep p1 2 StepStatus.completed) 3 StepStatus.inProgress
      else p1
    let p3 :=
      if includes content (utf16 "creating") || includes content (utf16 "modifying") ||
          includes content (utf16 "editing") then
        updateTaskStep (updateTaskStep p2 3 StepStatus.completed) 4 StepStatus.inProgress
      else p2
    let p4 :=
      if includes content (utf16 "testing") || includes content (utf16 "verified") then
        updateTaskStep (updateTaskStep p3 4 StepStatus.completed) 5 StepStatus.inProgress
      else p3
    if includes content (utf16 "summary") || includes content (utf16 "next steps") ||
        includes content (utf16 "completed") then
      updateTaskStep p4 5 StepStatus.completed
    else p4

/-- The calls of `updateTaskStep` that `updateTaskProgress` makes for a
lower-cased response, in order: step id and status. -/
def progressCalls (content : JString) : List (Nat × StepStatus) :=
  (if includes content (utf16 "analyzing") || includes content (utf16 "understanding") then
      [(1, StepStatus.completed), (2, StepStatus.inProgress)] else []) ++
  (if includes content (utf16 "exploring") || includes content (utf16 "found") then
      [(2, StepStatus.completed), (3, StepStatus.inProgress)] else []) ++
  (if includes content (utf16 "creating") || includes content (utf16 "modifying") ||
        includes content (utf16 "editing") then
      [(3, StepStatus.completed), (4, StepStatus.inProgress)] else []) ++
  (if includes content (utf16 "testing") || includes content (utf16 "verified") then
      [(4, StepStatus.completed), (5, StepStatus.inProgress)] else []) ++
  (if includes content (utf16 "summary") || includes content (utf16 "next steps") ||
        includes content (utf16 "completed") then
      [(5, StepStatus.completed)] else [])

/-- The provider after a list of `updateTaskStep` calls. -/
def updateTaskSteps (p : BecaProvider) (calls : List (Nat × StepStatus)) : BecaProvider :=
  calls.foldl (fun q c => updateTaskStep q c.1 c.2) p

/-- The messages posted to the view of a provider; none without a view. -/
def BecaProvider.posted (p : BecaProvider) : List WebviewMessage :=
  match p.view with
  | some v => v.posted
  | none => []

/-- A task whose steps 1 and 2 are completed and whose step 3 is in progress. -/
def taskAtStep3 : Task :=
  { id := utf16 "1"
    title := utf16 "fix it"
    steps :=
      [ ⟨1, utf16 "Analyze requirements", StepStatus.completed⟩,
        ⟨2, utf16 "Explore codebase", StepStatus.completed⟩,
        ⟨3, utf16 "Make necessary changes", StepStatus.inProgress⟩,
        ⟨4, utf16 "Test changes", StepStatus.pending⟩,
        ⟨5, utf16 "Summarize and provide next steps", StepStatus.pending⟩ ]
    createdAt := utf16 "2024-01-01T00:00:00.000Z"
    status := TaskStatus.active }

/-- A provider with a view attached and the task `taskAtStep3`. -/
def providerAtStep3 : BecaProvider :=
  { view := some ⟨[]⟩, conversationHistory := [], currentTask := some taskAtStep3 }

/-- What `updateTaskStep` leaves alone in a task: its id, title, creation
time and status, and the id and title of each step, in order. -/
def Task.frame (task : Task) :
    JString × JString × JString × TaskStatus × List (Nat × JString) :=
  (task.id, task.title, task.createdAt, task.status,
    task.steps.map (fun s => (s.id, s.title)))

/-- The value of `currentTask` after each of a list of `updateTaskStep`
calls. -/
def taskTrace (p : BecaProvider) : List (Nat × StepStatus) → List (Option Task)
  | [] => []
  | c :: calls =>
    (updateTaskStep p c.1 c.2).currentTask :: taskTrace (updateTaskStep p c.1 c.2) calls

/-- A provider with a view attached and a task whose step 1 is completed and
whose step 2 is in progress. -/
def providerAtStep2 : BecaProvider :=
  { view := some ⟨[]⟩
    conversationHistory := []
    currentTask := some
      { id := utf16 "1"
        title := utf16 "fix it"
        steps :=
          [ ⟨1, utf16 "Analyze requirements", StepStatus.completed⟩,
            ⟨2, utf16 "Explore codebase", StepStatus.inProgress⟩,
            ⟨3, utf16 "Make necessary changes", StepStatus.pending⟩,
            ⟨4, utf16 "Test changes", StepStatus.pending⟩,
            ⟨5, utf16 "Summarize and provide next steps", StepStatus.pending⟩ ]
        createdAt := utf16 "2024-01-01T00:00:00.000Z"
        status := TaskStatus.active } }

/-! ## Backend replies -/

/-- The outcome of an awaited call of the BECA client: the object it resolves
to, with `success` and `response` (`none` when the field is missing), or an
exception. -/
inductive BackendReply where
  | result (success : Bool) (response : Option JString)
  | threw
  deriving DecidableEq, Repr

/-- The response when the test `result.success && result.response` holds: the
call succeeded and the response is a string that is not empty. -/
def BackendReply.text : BackendReply → Option JString
  | BackendReply.result true (some response) => if response ≠ [] then some response else none
  | _ => none

/-! ## Hover (`src/providers/hoverProvider.js`) -/

/-- The `vscode.Hover` built by `provideHover`: the value of its markdown
string, the two flags set on it, and the range. -/
structure Hover where
  markdown : JString
  isTrusted : Bool
  supportHtml : Bool
  range : Range
  deriving DecidableEq, Repr

/-- A value of the cache: `{ hover, timestamp }`. -/
structure CacheEntry where
  hover : Hover
  timestamp : Nat
  deriving DecidableEq, Repr

/-- The `Map` held in `this.cache`: its entries in insertion order, keys
distinct. -/
structure HoverCache where
  entries : List (JString × CacheEntry)
  deriving DecidableEq, Repr

/-- `cache.get(key)`, `none` when `cache.has(key)` is false. -/
def HoverCache.get (cache : HoverCache) (key : JString) : Option CacheEntry :=
  (cache.entries.find? (fun e => e.1 = key)).map (fun e => e.2)

/-- `cache.set(key, entry)`: the value of a key already present is replaced,
a new key is added at the end. -/
def HoverCache.set (cache : HoverCache) (key : JString) (entry : CacheEntry) : HoverCache :=
  if cache.entries.any (fun e => e.1 = key) then
    ⟨cache.entries.map (fun e => if e.1 = key then (key, entry) else e)⟩
  else ⟨cache.entries ++ [(key, entry)]⟩

/-- What `provideHover` reads of its arguments: `document.uri.fsPath`, the
result of `document.getWordRangeAtPosition(position)` (`none` for
`undefined`) and the text of the document in that range. -/
structure HoverQuery where
  fsPath : JString
  wordRange : Option Range
  word : JString
  deriving DecidableEq, Repr

/-- The key under which a hover is cached. -/
def HoverQuery.cacheKey (q : HoverQuery) : JString := q.fsPath ++ utf16 ":" ++ q.word

/-- Where `provideHover` stands at its first suspension: it has returned, or
it has called `getHoverInfo` and awaits the reply. -/
inductive HoverStart where
  | returned (hover : Option Hover)
  | awaiting (cacheKey : JString) (wordRange : Range)
  deriving DecidableEq, Repr

/-- The part of `provideHover` before the `await`, `now` being the value of
`Date.now()` in the test of the cache. -/
def provideHoverStart (cache : HoverCache) (now : Nat) (q : HoverQuery) : HoverStart :=
  match q.wordRange with
  | none => HoverStart.returned none
  | some wordRange =>
    if q.word = [] ∨ q.word.length < 3 then HoverStart.returned none
    else
      match cache.get q.cacheKey with
      | some cached =>
        if (now : Int) - (cached.timestamp : Int) < 300000 then
          HoverStart.returned (some cached.hover)
        else HoverStart.awaiting q.cacheKey wordRange
      | none => HoverStart.awaiting q.cacheKey wordRange

/-- The part of `provideHover` after the `await`, `storeTime` being the value
of `Date.now()` when the entry is stored. -/
def provideHoverResume (cache : HoverCache) (storeTime : Nat) (cacheKey : JString)
    (wordRange : Range) (reply : BackendReply) : HoverCache × Option Hover :=
  match reply.text with
  | some response =>
    let hover : Hover :=
      { markdown := utf16 "### 🤖 BECA Insights\n\n" ++ response
        isTrusted := true
        supportHtml := true
        range := wordRange }
    (cache.set cacheKey ⟨hover, storeTime⟩, some hover)
  | none => (cache, none)

/-- The result of a call of `provideHover` that runs to its end with no other
call in between: the cache after, the value returned (`none` for `null`), and
whether the backend was called. -/
structure HoverOutcome where
  cache : HoverCache
  hover : Option Hover
  backendCalled : Bool
  deriving DecidableEq, Repr

/-- `provideHover(document, position, token)`, run to its end. -/
def provideHover (cache : HoverCache) (now : Nat) (q : HoverQuery) (reply : BackendReply)
    (storeTime : Nat) : HoverOutcome :=
  match provideHoverStart cache now q with
  | HoverStart.returned hover => ⟨cache, hover, false⟩
  | HoverStart.awaiting cacheKey wordRange =>
    let r := provideHoverResume cache storeTime cacheKey wordRange reply
    ⟨r.1, r.2, true⟩

/-- A hover provider with calls in flight: the cache, the calls that await a
reply of the backend, oldest first, and the number of backend calls started
so far. -/
structure HoverSession where
  cache : HoverCache
  outstanding : List (JString × Range)
  backendCalls : Nat
  deriving DecidableEq, Repr

/-- A call of `provideHover` arrives at time `now` and runs to its `await`. -/
def HoverSession.call (s : HoverSession) (now : Nat) (q : HoverQuery) : HoverSession :=
  match provideHoverStart s.cache now q with
  | HoverStart.returned _ => s
  | HoverStart.awaiting cacheKey wordRange =>
    { s with
      outstanding := s.outstanding ++ [(cacheKey, wordRange)]
      backendCalls := s.backendCalls + 1 }

/-- The backend replies to the oldest call in flight, which runs to its end. -/
def HoverSession.reply (s : HoverSession) (storeTime : Nat) (reply : BackendReply) :
    HoverSession :=
  match s.outstanding with
  | [] => s
  | (cacheKey, wordRange) :: outstanding =>
    { s with
      cache := (provideHoverResume s.cache storeTime cacheKey wordRange reply).1
      outstanding := outstanding }

/-- A query for the word `count` in the file `/a.js`. -/
def countQuery : HoverQuery :=
  { fsPath := utf16 "/a.js", wordRange := some ⟨0, 4, 0, 9⟩, word := utf16 "count" }

/-- Two calls for the word `count` that overlap: the first arrives at the
time 1000 with the cache empty, the second at 1001 while the first awaits the
backend, and at 1500 the backend answers the first call with `a counter`.  The
second call still awaits its reply. -/
def overlappingCalls : HoverSession :=
  ((HoverSession.call ⟨⟨[]⟩, [], 0⟩ 1000 countQuery).call 1001 countQuery).reply 1500
    (BackendReply.result true (some (utf16 "a counter")))

/-! ## Completion requests (`src/providers/completionProvider.js`) -/

/-- The `vscode.CompletionItem` built for a suggestion. -/
structure CompletionItem where
  label : JString
  detail : JString
  documentation : JString
  insertText : JString
  sortText : JString
  deriving DecidableEq, Repr

/-- The fields of a `BecaCompletionProvider` used by the rate limit. -/
structure CompletionProvider where
  lastRequest : Nat
  minDelay : Nat
  deriving DecidableEq, Repr

/-- The state set by the constructor of `BecaCompletionProvider`. -/
def CompletionProvider.initial : CompletionProvider := { lastRequest := 0, minDelay := 2000 }

/-- The test `now - this.lastRequest < this.minDelay` of the rate limit. -/
def rateLimited (p : CompletionProvider) (now : Nat) : Bool :=
  decide ((now : Int) - (p.lastRequest : Int) < (p.minDelay : Int))

/-- The items mapped from the suggestions, the first of them having the index
`index`. -/
def completionItems (index : Nat) : List Suggestion → List CompletionItem
  | [] => []
  | suggestion :: suggestions =>
    { label := suggestion.label
      detail := utf16 "🤖 BECA Suggestion"
      documentation := suggestion.documentation
      insertText := suggestion.insertText
      sortText := utf16 "0" ++ decimal index } :: completionItems (index + 1) suggestions

/-- The result of a call of `provideCompletionItems`: the provider after,
the items returned, and whether the backend was called. -/
structure CompletionOutcome where
  provider : CompletionProvider
  items : List CompletionItem
  backendCalled : Bool
  deriving DecidableEq, Repr

/-- `provideCompletionItems(document, position, token, context)`: `now` is
the value of `Date.now()`, `configured` the setting `maxSuggestions` (`none`
when it is not set), `linePrefix` the line up to the cursor, and `reply` the
outcome of `getSuggestions` when it is called.  `lastRequest` is assigned
before the `await`, so that calls in flight do not change the test of a later
call. -/
def provideCompletionItems (p : CompletionProvider) (now : Nat) (configured : Option Nat)
    (linePrefix : JString) (reply : BackendReply) : CompletionOutcome :=
  if rateLimited p now then ⟨p, [], false⟩
  else
    let p1 := { p with lastRequest := now }
    let maxSuggestions :=
      match configured with
      | some n => if n = 0 then 3 else n
      | none => 3
    if (trim linePrefix).length < 3 then ⟨p1, [], false⟩
    else
      match reply.text with
      | some response => ⟨p1, completionItems 0 (parseSuggestions response maxSuggestions), true⟩
      | none => ⟨p1, [], true⟩

/-! ## Scheduling of the analysis (`src/providers/diagnosticProvider.js`) -/

/-- What the scheduling reads of a document: `document.uri.toString()`,
`document.uri.scheme` and `document.isDirty`. -/
structure OpenDocument where
  uri : JString
  scheme : JString
  isDirty : Bool
  deriving DecidableEq, Repr

/-- A timer of the host set by `setTimeout` and neither fired nor cleared:
its handle and the time at which it fires. -/
structure Timer where
  id : Nat
  deadline : Nat
  deriving DecidableEq, Repr

/-- The fields of a `BecaDiagnosticProvider` used by the scheduling:
`pendingDocuments`, a `Set` whose elements are kept in insertion order, and
`analysisTimeout`, the handle of the timer set last (`none` for `null`). -/
structure DiagnosticProvider where
  pendingDocuments : List JString
  analysisTimeout : Option Nat
  deriving DecidableEq, Repr

/-- What is recorded of a run: a call of `scheduleAnalysis`, with its time and
whether it passed the guard and set the timer, or a call of
`analyzePendingDocuments` by the timer, with its time and the documents it
analyses, in order. -/
inductive ScheduleRecord where
  | called (time : Nat) (restarted : Bool)
  | dispatched (time : Nat) (documents : List OpenDocument)
  deriving DecidableEq, Repr

/-- The provider in its host: the clock, the timers that are set, the handle
of the next timer, and the record of the run, most recent first. -/
structure Host where
  provider : DiagnosticProvider
  now : Nat
  timers : List Timer
  nextTimer : Nat
  log : List ScheduleRecord
  deriving DecidableEq, Repr

/-- The provider as its constructor sets its fields, at time 0 with no timer
set. -/
def Host.initial : Host :=
  { provider := ⟨[], none⟩, now := 0, timers := [], nextTimer := 1, log := [] }

/-- `pendingDocuments.add(uri)`. -/
def setAdd (pending : List JString) (uri : JString) : List JString :=
  if uri ∈ pending then pending else pending ++ [uri]

/-- `clearTimeout(handle)`. -/
def clearTimeout (timers : List Timer) (handle : Nat) : List Timer :=
  timers.filter (fun timer => timer.id ≠ handle)

/-- `scheduleAnalysis(document)`, called at the time of the clock. -/
def scheduleAnalysis (h : Host) (document : OpenDocument) : Host :=
  if document.scheme ≠ utf16 "file" ∨ document.isDirty = true then
    { h with log := ScheduleRecord.called h.now false :: h.log }
  else
    let timers :=
      match h.provider.analysisTimeout with
      | some handle => clearTimeout h.timers handle
      | none => h.timers
    { provider :=
        { pendingDocuments := setAdd h.provider.pendingDocuments document.uri
          analysisTimeout := some h.nextTimer }
      now := h.now
      timers := timers ++ [⟨h.nextTimer, h.now + 3000⟩]
      nextTimer := h.nextTimer + 1
      log := ScheduleRecord.called h.now true :: h.log }

/-- `analyzePendingDocuments()`, `textDocuments` being
`vscode.workspace.textDocuments`: the provider after, and the documents passed
to `analyzeDocument`, in order. -/
def analyzePendingDocuments (textDocuments : List OpenDocument) (p : DiagnosticProvider) :
    DiagnosticProvider × List OpenDocument :=
  ({ p with pendingDocuments := [] },
    p.pendingDocuments.filterMap (fun uri => textDocuments.find? (fun doc => doc.uri = uri)))

/-- A timer fires: its callback calls `analyzePendingDocuments`. -/
def fireTimer (textDocuments : List OpenDocument) (h : Host) (timer : Timer) : Host :=
  { h with
    provider := (analyzePendingDocuments textDocuments h.provider).1
    log := ScheduleRecord.dispatched timer.deadline
      (analyzePendingDocuments textDocuments h.provider).2 :: h.log }

/-- The clock moves on to time `t`: the timers due by then fire, each at its
deadline. -/
def elapse (textDocuments : List OpenDocument) (h : Host) (t : Nat) : Host :=
  let fired := (h.timers.filter (fun timer => timer.deadline ≤ t)).foldl
    (fireTimer textDocuments)
    { h with timers := h.timers.filter (fun timer => ¬ timer.deadline ≤ t) }
  { fired with now := max h.now t }

/-- What happens to the host: time passes, or `scheduleAnalysis` is called. -/
inductive HostEvent where
  | elapse (t : Nat)
  | schedule (document : OpenDocument)
  deriving DecidableEq, Repr

/-- One event. -/
def Host.step (textDocuments : List OpenDocument) (h : Host) : HostEvent → Host
  | HostEvent.elapse t => elapse textDocuments h t
  | HostEvent.schedule document => scheduleAnalysis h document

/-- A run of events, in order. -/
def Host.run (textDocuments : List OpenDocument) (h : Host) (events : List HostEvent) : Host :=
  events.foldl (Host.step textDocuments) h

/-- The times at which `analyzePendingDocuments` was called, most recent
first. -/
def dispatchTimes : List ScheduleRecord → List Nat
  | [] => []
  | ScheduleRecord.called _ _ :: records => dispatchTimes records
  | ScheduleRecord.dispatched time _ :: records => time :: dispatchTimes records

/-- Calls of `scheduleAnalysis` at given times with no timer firing in
between: the clock is set to the time of each call. -/
def scheduleCalls (h : Host) (calls : List (Nat × OpenDocument)) : Host :=
  calls.foldl (fun h1 call => scheduleAnalysis { h1 with now := call.1 } call.2) h

/-- A saved file. -/
def savedFile : OpenDocument := ⟨utf16 "file:///a.js", utf16 "file", false⟩

/-- Another saved file. -/
def otherFile : OpenDocument := ⟨utf16 "file:///b.js", utf16 "file", false⟩

/-- A file with unsaved changes. -/
def dirtyFile : OpenDocument := ⟨utf16 "file:///c.js", utf16 "file", true⟩

/-- A record of a run is debounced when every call of `analyzePendingDocuments`
in it comes no sooner than 3000 ms after each earlier call of
`scheduleAnalysis` that set the timer. -/
def Debounced (log : List ScheduleRecord) : Prop :=
  ∀ newer time documents older,
    log = newer ++ ScheduleRecord.dispatched time documents :: older →
    ∀ s, ScheduleRecord.called s true ∈ older → s + 3000 ≤ time

/-- What holds of a host in every run: a timer that is set is the one whose
handle the provider holds, and is due 3000 ms or more after every recorded
call that set a timer; no recorded call is in the future; and the record is
debounced. -/
structure HostInvariant (h : Host) : Prop where
  live : ∀ timer ∈ h.timers, h.provider.analysisTimeout = some timer.id ∧
    ∀ s, ScheduleRecord.called s true ∈ h.log → s + 3000 ≤ timer.deadline
  past : ∀ s b, ScheduleRecord.called s b ∈ h.log → s ≤ h.now
  debounced : Debounced h.log

/-- The host has one timer set, due 3000 ms after the time `t` of the clock,
its handle held by the provider, and no dispatch has happened. -/
structure Armed (h : Host) (t : Nat) : Prop where
  timer : ∃ id, h.timers = [⟨id, t + 3000⟩] ∧ h.provider.analysisTimeout = some id
  now : h.now = t
  quiet : dispatchTimes h.log = []

/-! ## The conversation of the chat provider (`src/views/becaProvider.js`) -/

/-- A reading of the clock: the value of `Date.now()` and the string of
`new Date().toISOString()`. -/
structure Stamp where
  now : Nat
  iso : JString
  deriving DecidableEq, Repr

/-- The outcome of `await this.becaClient.sendMessage(...)`: the object it
resolves to, with `success`, `response` and `error` (`none` when a field is
missing), or an exception with its `message`. -/
inductive ChatReply where
  | result (success : Bool) (response : Option JString) (error : Option JString)
  | threw (message : JString)
  deriving DecidableEq, Repr

/-- What a call of `handleMessage` meets outside the provider: the readings
of the clock for the entry of the user, for the task, for the reply and for
the entry of the `catch` block; the outcome of the backend call; the answer
to the warning of `startNewTask` (`none` when it is dismissed); whether a
workspace folder is open; and the outcome of `writeFile` (`none` when it
succeeds, the message of the exception when it fails). -/
structure Environment where
  userStamp : Stamp
  taskStamp : Stamp
  replyStamp : Stamp
  errorStamp : Stamp
  reply : ChatReply
  answer : Option JString
  workspaceOpen : Bool
  writeError : Option JString
  deriving DecidableEq, Repr

/-- `a || b` on strings that may be missing: `a` when it is a string that is
not empty. -/
def orElseText (a : Option JString) (b : JString) : JString :=
  match a with
  | some text => if text ≠ [] then text else b
  | none => b

/-- `addMessage(message)`. -/
def addMessage (p : BecaProvider) (message : Message) : BecaProvider :=
  sendToWebview { p with conversationHistory := p.conversationHistory ++ [message] }
    (WebviewMessage.messageAdded message)

/-- The message of the `TypeError` raised by `responseContent.toLowerCase()`
when `responseContent` is `undefined`, as the engine of the extension host
words it. -/
def toLowerCaseTypeError : JString :=
  utf16 "Cannot read properties of undefined (reading 'toLowerCase')"

/-- The `catch` block of `handleUserMessage`, `message` being
`error.message`. -/
def handleUserMessageCatch (p : BecaProvider) (env : Environment) (message : JString) :
    BecaProvider :=
  addMessage (sendToWebview p (WebviewMessage.thinking false))
    { id := decimal env.errorStamp.now
      role := Role.error
      content := utf16 "Error communicating with BECA: " ++ message
      timestamp := env.errorStamp.iso }

/-- `handleUserMessage(userMessage)`, run to its end with no other call in
between.  A response that is missing makes `updateTaskProgress` throw at
`toLowerCase`, inside the `try`. -/
def handleUserMessage (p : BecaProvider) (env : Environment) (userMessage : JString) :
    BecaProvider :=
  if userMessage = [] ∨ (trim userMessage).length = 0 then p
  else
    let p1 := addMessage p
      { id := decimal env.userStamp.now
        role := Role.user
        content := userMessage
        timestamp := env.userStamp.iso }
    let p2 := sendToWebview p1 (WebviewMessage.thinking true)
    let p3 := ensureTask p2 env.taskStamp.now env.taskStamp.iso userMessage
    match env.reply with
    | ChatReply.threw message => handleUserMessageCatch p3 env message
    | ChatReply.result success response error =>
      let p4 := sendToWebview p3 (WebviewMessage.thinking false)
      if success then
        let p5 := addMessage p4
          { id := decimal env.replyStamp.now
            role := Role.assistant
            content := orElseText response (utf16 "No response from BECA")
            timestamp := env.replyStamp.iso }
        match p5.currentTask with
        | some _ =>
          match response with
          | some responseContent => updateTaskProgress p5 responseContent
          | none => handleUserMessageCatch p5 env toLowerCaseTypeError
        | none => p5
      else
        addMessage p4
          { id := decimal env.replyStamp.now
            role := Role.error
            content := utf16 "Error: " ++ orElseText error (utf16 "Unknown error occurred")
            timestamp := env.replyStamp.iso }

/-- `updateWebview()`. -/
def updateWebview (p : BecaProvider) : BecaProvider :=
  sendToWebview p (WebviewMessage.fullUpdate p.conversationHistory p.currentTask [])

/-- `startNewTask()`, `answer` being the button chosen in the warning. -/
def startNewTask (p : BecaProvider) (answer : Option JString) : BecaProvider :=
  if p.conversationHistory.length > 0 ∧ answer ≠ some (utf16 "Yes") then p
  else updateWebview { p with currentTask := none, conversationHistory := [] }

/-- `applyFileEdit(filePath, content)`: the entry added to the conversation. -/
def applyFileEdit (p : BecaProvider) (env : Environment) (filePath : JString) : BecaProvider :=
  let failure : Option JString :=
    if env.workspaceOpen then env.writeError else some (utf16 "No workspace folder open")
  match failure with
  | none =>
    addMessage p
      { id := decimal env.replyStamp.now
        role := Role.system
        content := utf16 "✅ Applied changes to " ++ filePath
        timestamp := env.replyStamp.iso }
  | some message =>
    addMessage p
      { id := decimal env.errorStamp.now
        role := Role.error
        content := utf16 "❌ Failed to apply changes to " ++ filePath ++ utf16 ": " ++ message
        timestamp := env.errorStamp.iso }

/-- The messages the webview posts to the provider, by their `type`. -/
inductive WebviewRequest where
  | sendMessage (text : JString)
  | newTask
  | approveEdit (filePath : JString) (content : JString)
  | rejectEdit (filePath : JString)
  | other (type : JString)
  deriving DecidableEq, Repr

/-- `handleMessage(message)`. -/
def handleMessage (p : BecaProvider) (env : Environment) : WebviewRequest → BecaProvider
  | WebviewRequest.sendMessage text => handleUserMessage p env text
  | WebviewRequest.newTask => startNewTask p env.answer
  | WebviewRequest.approveEdit filePath _ => applyFileEdit p env filePath
  | WebviewRequest.rejectEdit _ => p
  | WebviewRequest.other _ => p

/-- A sequence of `handleMessage` calls, each with what it meets. -/
def handleMessages (p : BecaProvider) (calls : List (Environment × WebviewRequest)) :
    BecaProvider :=
  calls.foldl (fun q call => handleMessage q call.1 call.2) p

/-- `resolveWebviewView(webviewView)`: the view is kept and the full state is
sent to it. -/
def resolveWebviewView (p : BecaProvider) (webviewView : WebviewView) : BecaProvider :=
  updateWebview { p with view := some webviewView }

/-! ## The webview (`src/webview-ui/src/App.tsx`) -/

/-- The state of the component `App`. -/
structure AppState where
  messages : List Message
  currentTask : Option Task
  inputValue : JString
  isThinking : Bool
  deriving DecidableEq, Repr

/-- The handler `handleMessage` of `App` for a message of the provider. -/
def App.handleMessage (w : AppState) : WebviewMessage → AppState
  | WebviewMessage.messageAdded message => { w with messages := w.messages ++ [message] }
  | WebviewMessage.taskCreated task => { w with currentTask := some task }
  | WebviewMessage.taskUpdated task => { w with currentTask := some task }
  | WebviewMessage.thinking value => { w with isThinking := value }
  | WebviewMessage.fullUpdate conversationHistory currentTask _ =>
    { w with messages := conversationHistory, currentTask := currentTask }

/-! ## Order of strings -/

/-- The comparison `a < b` of two strings: by code units, the first
difference deciding, a proper prefix being smaller. -/
def stringLess : JString → JString → Bool
  | [], [] => false
  | [], _ :: _ => true
  | _ :: _, [] => false
  | a :: s, b :: t => decide (a < b) || (a == b && stringLess s t)

/-- A response with eleven fenced code segments. -/
def elevenSegments : JString := (List.replicate 11 (utf16 "```\nx\n```\n")).flatten

/-- Readings of the clock and outcomes for an example call: the backend
resolves to `{ success: true }` with no `response`. -/
def noResponseEnvironment : Environment :=
  { userStamp := ⟨1700000000000, utf16 "2023-11-14T22:13:20.000Z"⟩
    taskStamp := ⟨1700000000001, utf16 "2023-11-14T22:13:20.001Z"⟩
    replyStamp := ⟨1700000002000, utf16 "2023-11-14T22:13:22.000Z"⟩
    errorStamp := ⟨1700000002001, utf16 "2023-11-14T22:13:22.001Z"⟩
    reply := ChatReply.result true none none
    answer := none
    workspaceOpen := true
    writeError := none }

/-- The steps after a list of status assignments, each on the first step
with the given id. -/
def setStepStatuses (steps : List TaskStep) (calls : List (Nat × StepStatus)) :
    List TaskStep :=
  calls.foldl (fun current c => setStepStatus c.1 c.2 current) steps

/-- A provider with a view attached whose task has just been created, for the
request `fix the bug`. -/
def providerWithNewTask : BecaProvider :=
  { view := some ⟨[]⟩
    conversationHistory := []
    currentTask := some
      (newTask 1700000000001 (utf16 "2023-11-14T22:13:20.001Z") (utf16 "fix the bug")) }

/-- How the status of a step may change in a call of `updateTaskProgress`: the
step keeps its id, does not return to `pending`, and when its id is 1 it does
not leave `completed`. -/
abbrev StepMoves (s s1 : TaskStep) : Prop :=
  s1.id = s.id ∧ (s.status ≠ StepStatus.pending → s1.status ≠ StepStatus.pending) ∧
    (s.id = 1 → s.status = StepStatus.completed → s1.status = StepStatus.completed)

/-! ## Facts about the matchers of `linePattern` -/

theorem matchMessageTail_rest (acc s g r : JString)
    (h : matchMessageTail acc s = some (g, r)) : r.length ≤ s.length := by
  induction s generalizing acc with
  | nil => simp [matchMessageTail] at h; simp [h.2.symm]
  | cons c s ih =>
    simp only [matchMessageTail] at h
    split at h
    · simp at h; simp [h.2.symm]
    · split at h
      · simp at h
      · have := ih _ h; simp; omega

theorem matchMessage_rest (s g r : JString)
    (h : matchMessage s = some (g, r)) : r.length ≤ s.length := by
  cases s with
  | nil => simp [matchMessage] at h
  | cons c s =>
    simp only [matchMessage] at h
    split at h
    · simp at h
    · have := matchMessageTail_rest _ _ _ _ h; simp; omega

theorem matchSpacesMessage_rest (s g r : JString)
    (h : matchSpacesMessage s = some (g, r)) : r.length ≤ s.length := by
  induction s with
  | nil => simp [matchSpacesMessage, matchMessage] at h
  | cons c s ih =>
    simp only [matchSpacesMessage] at h
    split at h
    · split at h
      · rename_i r1 heq
        simp at h; subst h
        have := ih heq; simp; omega
      · exact matchMessage_rest _ _ _ h
    · exact matchMessage_rest _ _ _ h

theorem matchColon_rest (ds s : JString) (m : LineMatch)
    (h : matchColon ds s = some m) : m.rest.length < s.length := by
  cases s with
  | nil => simp [matchColon] at h
  | cons c s =>
    simp only [matchColon] at h
    split at h
    · split at h
      · rename_i message rest heq
        simp at h; subst h
        have := matchSpacesMessage_rest _ _ _ heq; simp; omega
      · simp at h
    · simp at h

theorem matchDigitsTail_rest (acc s : JString) (m : LineMatch)
    (h : matchDigitsTail acc s = some m) : m.rest.length < s.length := by
  induction s generalizing acc with
  | nil => simp [matchDigitsTail, matchColon] at h
  | cons c s ih =>
    simp only [matchDigitsTail] at h
    split at h
    · split at h
      · rename_i r1 heq
        simp at h; subst h
        have := ih _ heq; simp; omega
      · exact matchColon_rest _ _ _ h
    · exact matchColon_rest _ _ _ h

theorem matchDigits_rest (s : JString) (m : LineMatch)
    (h : matchDigits s = some m) : m.rest.length < s.length := by
  cases s with
  | nil => simp [matchDigits] at h
  | cons c s =>
    simp only [matchDigits] at h
    split at h
    · have := matchDigitsTail_rest _ _ _ h; simp; omega
    · simp at h

theorem matchSpacesTail_rest (s : JString) (m : LineMatch)
    (h : matchSpacesTail s = some m) : m.rest.length < s.length := by
  induction s with
  | nil => simp [matchSpacesTail, matchDigits] at h
  | cons c s ih =>
    simp only [matchSpacesTail] at h
    split at h
    · split at h
      · rename_i r1 heq
        simp at h; subst h
        have := ih heq; simp; omega
      · exact matchDigits_rest _ _ h
    · exact matchDigits_rest _ _ h

theorem matchSpaces_rest (s : JString) (m : LineMatch)
    (h : matchSpaces s = some m) : m.rest.length < s.length := by
  cases s with
  | nil => simp [matchSpaces] at h
  | cons c s =>
    simp only [matchSpaces] at h
    split at h
    · have := matchSpacesTail_rest _ _ h; simp; omega
    · simp at h

theorem matchLineHere_rest (s : JString) (m : LineMatch)
    (h : matchLineHere s = some m) : m.rest.length < s.length := by
  unfold matchLineHere at h
  split at h
  · split at h
    · have := matchSpaces_rest _ _ h; simp; omega
    · simp at h
  · simp at h

theorem execLine_rest (s : JString) (m : LineMatch)
    (h : execLine s = some m) : m.rest.length < s.length := by
  induction s with
  | nil => simp [execLine, matchLineHere] at h
  | cons c s ih =>
    simp only [execLine] at h
    split at h
    · rename_i r1 heq
      simp at h; subst h
      exact matchLineHere_rest _ _ heq
    · have := ih h; simp; omega

/-- The loop of `parseDiagnostics` does not depend on its fuel, once the fuel
exceeds the length of the input: the loop ends by a failed `exec`. -/
theorem parseLoop_fuel (document : TextDocument) (fuel fuel2 : Nat) (s : JString)
    (diagnostics : List Diagnostic) (h : s.length < fuel) (h2 : s.length < fuel2) :
    parseLoop document fuel s diagnostics = parseLoop document fuel2 s diagnostics := by
  induction fuel generalizing fuel2 s diagnostics with
  | zero => omega
  | succ fuel ih =>
    cases fuel2 with
    | zero => omega
    | succ fuel2 =>
      simp only [parseLoop]
      cases hm : execLine s with
      | none => rfl
      | some m =>
        have := execLine_rest _ _ hm
        simp only
        split
        · exact ih _ _ _ (by omega) (by omega)
        · exact ih _ _ _ (by omega) (by omega)

/-! ## The loop of `parseDiagnostics` as a filter over the matches -/

theorem lineMatchesFrom_fuel (fuel fuel2 : Nat) (s : JString)
    (h : s.length < fuel) (h2 : s.length < fuel2) :
    lineMatchesFrom fuel s = lineMatchesFrom fuel2 s := by
  induction fuel generalizing fuel2 s with
  | zero => omega
  | succ fuel ih =>
    cases fuel2 with
    | zero => omega
    | succ fuel2 =>
      simp only [lineMatchesFrom]
      cases hm : execLine s with
      | none => rfl
      | some m =>
        have := execLine_rest _ _ hm
        simp only
        rw [ih fuel2 m.rest (by omega) (by omega)]

theorem parseLoop_eq (document : TextDocument) (fuel : Nat) (s : JString)
    (diagnostics : List Diagnostic) :
    parseLoop document fuel s diagnostics =
      diagnostics ++ ((lineMatchesFrom fuel s).filter (LineMatch.inRange document)).map
        (LineMatch.diagnostic document) := by
  induction fuel generalizing s diagnostics with
  | zero => simp [parseLoop, lineMatchesFrom]
  | succ fuel ih =>
    simp only [parseLoop, lineMatchesFrom]
    cases hm : execLine s with
    | none => simp
    | some m =>
      simp only
      by_cases hr : 1 ≤ parseInt m.digits ∧ parseInt m.digits ≤ document.lineCount
      · have h1 : (0 : Int) ≤ (parseInt m.digits : Int) - 1 ∧
            (parseInt m.digits : Int) - 1 < (document.lineCount : Int) := by omega
        have h2 : LineMatch.inRange document m = true := by simp [LineMatch.inRange, hr]
        rw [if_pos h1, ih, List.filter_cons_of_pos h2]
        simp [LineMatch.diagnostic]
      · have h1 : ¬ ((0 : Int) ≤ (parseInt m.digits : Int) - 1 ∧
            (parseInt m.digits : Int) - 1 < (document.lineCount : Int)) := by omega
        have h2 : ¬ LineMatch.inRange document m = true := by simp [LineMatch.inRange, hr]
        rw [if_neg h1, ih, List.filter_cons_of_neg h2]

theorem parseDiagnostics_eq (response : JString) (document : TextDocument) :
    parseDiagnostics response document =
      if (lineMatches response).filter (LineMatch.inRange document) = [] ∧
          includes response (utf16 "improve") = true then [hintDiagnostic]
      else ((lineMatches response).filter (LineMatch.inRange document)).map
        (LineMatch.diagnostic document) := by
  simp only [parseDiagnostics, parseLoop_eq, lineMatches, List.nil_append, List.length_map,
    List.length_eq_zero]
  split
  · rename_i h
    simp [h.1]
  · rfl

/-! ## Case-insensitive keyword tests -/

theorem isPrefixOf_toLowerCase (p s : JString) (hp : ∀ a ∈ p, lowerUnit a = a) :
    p.isPrefixOf (toLowerCase s) = prefixIgnoreCase p s := by
  induction p generalizing s with
  | nil => cases s <;> simp [prefixIgnoreCase, toLowerCase]
  | cons a p ih =>
    cases s with
    | nil => simp [prefixIgnoreCase, toLowerCase]
    | cons b s =>
      have ha : lowerUnit a = a := hp a (by simp)
      have := ih s (fun x hx => hp x (by simp [hx]))
      simp only [toLowerCase] at this
      simp [prefixIgnoreCase, toLowerCase, List.isPrefixOf, ha, this]

theorem includes_toLowerCase (p s : JString) (hp : ∀ a ∈ p, lowerUnit a = a) :
    includes (toLowerCase s) p = includesIgnoreCase s p := by
  induction s with
  | nil =>
    have := isPrefixOf_toLowerCase p [] hp
    simp only [toLowerCase, List.map_nil] at this
    simp [includes, includesIgnoreCase, toLowerCase, this]
  | cons c s ih =>
    have := isPrefixOf_toLowerCase p (c :: s) hp
    simp only [toLowerCase, List.map_cons] at this ih
    simp [includes, includesIgnoreCase, toLowerCase, this, ih]

theorem severityOf_eq (message : JString) : severityOf message = severityByKeywords message := by
  simp only [severityOf, severityByKeywords]
  rw [includes_toLowerCase _ _ (by decide), includes_toLowerCase _ _ (by decide),
    includes_toLowerCase _ _ (by decide), includes_toLowerCase _ _ (by decide)]

theorem lowerUnit_beq_letter (k c : Nat) (hk : 97 ≤ k ∧ k ≤ 122) :
    (k == lowerUnit c) = isLetterOf k c := by
  rw [Bool.eq_iff_iff]
  simp only [lowerUnit, isLetterOf, beq_iff_eq, Bool.or_eq_true, Bool.and_eq_true,
    decide_eq_true_eq]
  split <;> omega

theorem isPrefixOf_toLowerCase_keyword (keyword s : JString)
    (hk : ∀ k ∈ keyword, 97 ≤ k ∧ k ≤ 122) :
    keyword.isPrefixOf (toLowerCase s) = keywordAtStart keyword s := by
  induction keyword generalizing s with
  | nil => cases s <;> simp [keywordAtStart, toLowerCase]
  | cons k keyword ih =>
    cases s with
    | nil => simp [keywordAtStart, toLowerCase]
    | cons c s =>
      have := ih s (fun x hx => hk x (by simp [hx]))
      simp only [toLowerCase] at this
      simp only [toLowerCase, List.map_cons, List.isPrefixOf, keywordAtStart, this,
        lowerUnit_beq_letter k c (hk k (by simp))]

theorem includes_toLowerCase_keyword (keyword s : JString)
    (hk : ∀ k ∈ keyword, 97 ≤ k ∧ k ≤ 122) :
    includes (toLowerCase s) keyword = containsKeyword s keyword := by
  induction s with
  | nil =>
    have := isPrefixOf_toLowerCase_keyword keyword [] hk
    simp only [toLowerCase, List.map_nil] at this
    simp [includes, containsKeyword, toLowerCase, this]
  | cons c s ih =>
    have := isPrefixOf_toLowerCase_keyword keyword (c :: s) hk
    simp only [toLowerCase, List.map_cons] at this ih
    simp [includes, containsKeyword, toLowerCase, this, ih]

theorem severityOf_eq_inWords (message : JString) :
    severityOf message = severityInWords message := by
  simp only [severityOf, severityInWords]
  rw [includes_toLowerCase_keyword _ _ (by decide), includes_toLowerCase_keyword _ _ (by decide),
    includes_toLowerCase_keyword _ _ (by decide), includes_toLowerCase_keyword _ _ (by decide)]

/-! ## A response that is one `Line N: M` item -/

theorem matchMessageTail_line (acc M : JString)
    (h : ∀ c ∈ M, isLineTerminator c = false) :
    matchMessageTail acc M = some (acc ++ M, []) := by
  induction M generalizing acc with
  | nil => simp [matchMessageTail]
  | cons c M ih =>
    have hc : isLineTerminator c = false := h c (by simp)
    have hc10 : c ≠ 10 := by
      intro h10; subst h10; simp [isLineTerminator] at hc
    simp only [matchMessageTail, if_neg hc10, hc]
    rw [ih _ (fun x hx => h x (by simp [hx]))]
    simp

theorem matchMessage_line (M : JString) (hne : M ≠ [])
    (h : ∀ c ∈ M, isLineTerminator c = false) :
    matchMessage M = some (M, []) := by
  cases M with
  | nil => exact absurd rfl hne
  | cons c M =>
    have hc : isLineTerminator c = false := h c (by simp)
    simp only [matchMessage, hc]
    rw [matchMessageTail_line _ _ (fun x hx => h x (by simp [hx]))]
    simp

theorem trim_cons_whiteSpace (c : Nat) (s : JString) (hc : isWhiteSpace c = true) :
    trim (c :: s) = trim s := by
  simp [trim, List.dropWhile, hc]

theorem matchSpacesMessage_line (s : JString) (hne : s ≠ [])
    (h : ∀ c ∈ s, isLineTerminator c = false) :
    ∃ g, matchSpacesMessage s = some (g, []) ∧ trim g = trim s := by
  induction s with
  | nil => exact absurd rfl hne
  | cons c s ih =>
    have hs : ∀ x ∈ s, isLineTerminator x = false := fun x hx => h x (by simp [hx])
    simp only [matchSpacesMessage]
    by_cases hw : isWhiteSpace c = true
    · simp only [hw, if_true]
      by_cases hnil : s = []
      · subst hnil
        refine ⟨[c], ?_, rfl⟩
        simp only [matchSpacesMessage, matchMessage]
        exact matchMessage_line [c] (by simp) h
      · obtain ⟨g, hg, ht⟩ := ih hnil hs
        refine ⟨g, ?_, ?_⟩
        · rw [hg]
        · rw [ht, trim_cons_whiteSpace c s hw]
    · simp only [hw]
      exact ⟨c :: s, matchMessage_line _ hne h, rfl⟩

theorem matchDigitsTail_colon (ds acc t : JString) (r : LineMatch)
    (hd : ∀ d ∈ ds, isDigit d = true)
    (h : matchColon (acc ++ ds) (58 :: t) = some r) :
    matchDigitsTail acc (ds ++ 58 :: t) = some r := by
  induction ds generalizing acc with
  | nil =>
    simp only [List.append_nil] at h
    simp only [List.nil_append, matchDigitsTail]
    simpa [isDigit] using h
  | cons d ds ih =>
    have hd1 : isDigit d = true := hd d (by simp)
    have h2 := ih (acc ++ [d]) (fun x hx => hd x (by simp [hx])) (by simpa using h)
    rw [List.cons_append, matchDigitsTail]
    simp only [hd1, if_true, h2]

theorem matchLineHere_line (w : Nat) (ds M : JString) (hw : w = 108 ∨ w = 76)
    (hne : ds ≠ []) (hd : ∀ d ∈ ds, isDigit d = true)
    (hM : ∀ c ∈ M, isLineTerminator c = false) :
    ∃ g, matchLineHere (w :: 105 :: 110 :: 101 :: 32 :: (ds ++ 58 :: 32 :: M)) =
      some ⟨ds, g, []⟩ ∧ trim g = trim M := by
  obtain ⟨g, hg, ht⟩ := matchSpacesMessage_line (32 :: M) (by simp)
    (by
      intro c hc
      rcases List.mem_cons.1 hc with rfl | hc
      · rfl
      · exact hM c hc)
  refine ⟨g, ?_, by rw [ht, trim_cons_whiteSpace 32 M rfl]⟩
  cases ds with
  | nil => exact absurd rfl hne
  | cons d ds =>
    have hd1 : isDigit d = true := hd d (by simp)
    have hdw : isWhiteSpace d = false := by
      simp only [isDigit, Bool.and_eq_true, decide_eq_true_eq] at hd1
      simp only [isWhiteSpace, Bool.or_eq_false_iff, Bool.and_eq_false_imp, beq_eq_false_iff_ne,
        decide_eq_true_eq, decide_eq_false_iff_not]
      omega
    have hcolon : matchColon ([d] ++ ds) (58 :: 32 :: M) = some ⟨d :: ds, g, []⟩ := by
      simp [matchColon, hg]
    have hdig := matchDigitsTail_colon ds [d] (32 :: M) _
      (fun x hx => hd x (by simp [hx])) hcolon
    have h32 : isWhiteSpace 32 = true := rfl
    have hdig2 : matchDigitsTail [d] (ds ++ 58 :: 32 :: M) = some ⟨d :: ds, g, []⟩ := by
      simpa using hdig
    simp [matchLineHere, hw, matchSpaces, h32, matchSpacesTail, hdw, matchDigits, hd1, hdig2]

theorem parseLoop_nil (document : TextDocument) (fuel : Nat) (diagnostics : List Diagnostic) :
    parseLoop document fuel [] diagnostics = diagnostics := by
  cases fuel <;> simp [parseLoop, execLine, matchLineHere]

theorem parseDiagnostics_line (document : TextDocument) (w : Nat) (ds M : JString)
    (hw : w = 108 ∨ w = 76) (hne : ds ≠ []) (hd : ∀ d ∈ ds, isDigit d = true)
    (h1 : 1 ≤ parseInt ds) (h2 : parseInt ds ≤ document.lineCount)
    (hM : ∀ c ∈ M, isLineTerminator c = false) :
    parseDiagnostics (w :: 105 :: 110 :: 101 :: 32 :: (ds ++ 58 :: 32 :: M)) document =
      [lineDiagnostic document ((parseInt ds : Int) - 1) (trim M)] := by
  obtain ⟨g, hg, ht⟩ := matchLineHere_line w ds M hw hne hd hM
  have hr : (0 : Int) ≤ (parseInt ds : Int) - 1 ∧
      (parseInt ds : Int) - 1 < (document.lineCount : Int) := by omega
  have hloop : ∀ fuel, parseLoop document (fuel + 1)
      (w :: 105 :: 110 :: 101 :: 32 :: (ds ++ 58 :: 32 :: M)) [] =
      [lineDiagnostic document ((parseInt ds : Int) - 1) (trim M)] := by
    intro fuel
    simp only [parseLoop, execLine, hg, if_pos hr, parseLoop_nil, ht, List.nil_append]
  simp [parseDiagnostics, hloop]

/-! ## Keywords in a trimmed message -/

theorem prefixIgnoreCase_append (p s b : JString) (h : prefixIgnoreCase p s = true) :
    prefixIgnoreCase p (s ++ b) = true := by
  induction p generalizing s with
  | nil => simp [prefixIgnoreCase]
  | cons a p ih =>
    cases s with
    | nil => simp [prefixIgnoreCase] at h
    | cons c s =>
      simp only [prefixIgnoreCase, Bool.and_eq_true] at h
      simp only [List.cons_append, prefixIgnoreCase, Bool.and_eq_true]
      exact ⟨h.1, ih s h.2⟩

theorem includesIgnoreCase_nil (s : JString) : includesIgnoreCase s [] = true := by
  cases s <;> simp [includesIgnoreCase, prefixIgnoreCase]

theorem includesIgnoreCase_append_right (p s b : JString)
    (h : includesIgnoreCase s p = true) : includesIgnoreCase (s ++ b) p = true := by
  induction s with
  | nil =>
    cases p with
    | nil => exact includesIgnoreCase_nil _
    | cons a p => simp [includesIgnoreCase, prefixIgnoreCase] at h
  | cons c s ih =>
    simp only [includesIgnoreCase, Bool.or_eq_true] at h
    simp only [List.cons_append, includesIgnoreCase, Bool.or_eq_true]
    rcases h with h | h
    · exact Or.inl (prefixIgnoreCase_append p (c :: s) b h)
    · exact Or.inr (ih h)

theorem includesIgnoreCase_append_left (p a s : JString)
    (h : includesIgnoreCase s p = true) : includesIgnoreCase (a ++ s) p = true := by
  induction a with
  | nil => exact h
  | cons c a ih => simp [includesIgnoreCase, ih]

theorem trim_infix (s : JString) : trim s <:+: s := by
  have h1 : trim s <+: s.dropWhile isWhiteSpace :=
    List.rdropWhile_prefix isWhiteSpace (s.dropWhile isWhiteSpace)
  exact h1.isInfix.trans (List.dropWhile_suffix isWhiteSpace).isInfix

theorem includesIgnoreCase_trim (p s : JString) (h : includesIgnoreCase s p = false) :
    includesIgnoreCase (trim s) p = false := by
  obtain ⟨a, b, hab⟩ := trim_infix s
  cases ht : includesIgnoreCase (trim s) p with
  | false => rfl
  | true =>
    have := includesIgnoreCase_append_right p _ b (includesIgnoreCase_append_left p a _ ht)
    rw [hab, h] at this
    exact absurd this (by simp)

/-! ## Claims on `parseDiagnostics` -/

/-- C1: every diagnostic returned by `parseDiagnostics` is anchored at a line
index `i` of the document, `0 ≤ i < lineCount`, where it starts and ends (the
file-level Hint on line 0, which every document has). -/
theorem parseDiagnostics_line_in_range (response : JString) (document : TextDocument) :
    ∀ d ∈ parseDiagnostics response document,
      0 ≤ d.range.startLine ∧ d.range.startLine < (document.lineCount : Int) ∧
        d.range.endLine = d.range.startLine := by
  intro d hd
  rw [parseDiagnostics_eq] at hd
  split at hd
  · simp only [List.mem_singleton] at hd
    subst hd
    have := document.hasLine
    refine ⟨le_refl _, ?_, rfl⟩
    simp only [hintDiagnostic, TextDocument.lineCount]
    omega
  · simp only [List.mem_map, List.mem_filter] at hd
    obtain ⟨m, ⟨_, hm⟩, rfl⟩ := hd
    simp only [LineMatch.inRange, decide_eq_true_eq] at hm
    dsimp only [LineMatch.diagnostic, lineDiagnostic]
    refine ⟨by omega, by omega, rfl⟩

/-- C1, at the document of three lines and the response
`Line 2: unused variable`, for the diagnostic returned there. -/
theorem parseDiagnostics_line_in_range_witness :
    (⟨⟨1, 0, 1, 2⟩, utf16 "BECA: unused variable", DiagnosticSeverity.Warning, utf16 "BECA"⟩ :
        Diagnostic) ∈ parseDiagnostics (utf16 "Line 2: unused variable") threeLineDocument ∧
    ((0 : Int) ≤ 1 ∧ (1 : Int) < (threeLineDocument.lineCount : Int) ∧ (1 : Int) = 1) :=
  ⟨by decide,
    parseDiagnostics_line_in_range (utf16 "Line 2: unused variable") threeLineDocument
      ⟨⟨1, 0, 1, 2⟩, utf16 "BECA: unused variable", DiagnosticSeverity.Warning, utf16 "BECA"⟩
      (by decide)⟩

/-- C2: on a response in which `linePattern` has no match, `parseDiagnostics`
returns exactly one diagnostic, a Hint at line 0, when the response contains
`improve`, and the empty list when it does not. -/
theorem parseDiagnostics_no_match (response : JString) (document : TextDocument)
    (h : execLine response = none) :
    (includes response (utf16 "improve") = true →
      ∃ d, parseDiagnostics response document = [d] ∧
        d.severity = DiagnosticSeverity.Hint ∧ d.range = ⟨0, 0, 0, 0⟩) ∧
    (includes response (utf16 "improve") = false →
      parseDiagnostics response document = []) := by
  have hl : parseLoop document (response.length + 1) response [] = [] := by
    simp [parseLoop, h]
  constructor
  · intro hi
    exact ⟨hintDiagnostic, by simp [parseDiagnostics, hl, hi], rfl, rfl⟩
  · intro hi
    simp [parseDiagnostics, hl, hi]

/-- C4: the diagnostics of `parseDiagnostics` are those of the in-range
matches of `linePattern`, in order, each with the severity its message has by
the keyword rule stated on the letters themselves (`error` or `bug`, each
letter small or capital: Error; otherwise `info` or `suggestion`, each letter
small or capital: Information; otherwise Warning); the Hint stands in when
there is none and the response contains `improve`. -/
theorem parseDiagnostics_severity_by_keywords (response : JString) (document : TextDocument) :
    parseDiagnostics response document =
      if (lineMatches response).filter (LineMatch.inRange document) = [] ∧
          includes response (utf16 "improve") = true then [hintDiagnostic]
      else ((lineMatches response).filter (LineMatch.inRange document)).map
        (fun m =>
          { range := ⟨(parseInt m.digits : Int) - 1, 0, (parseInt m.digits : Int) - 1,
              (document.lineText (parseInt m.digits - 1)).length⟩
            message := utf16 "BECA: " ++ trim m.message
            severity := severityInWords (trim m.message)
            source := utf16 "BECA" }) := by
  rw [parseDiagnostics_eq]
  congr 1
  apply List.map_congr_left
  intro m hm
  simp only [List.mem_filter, LineMatch.inRange, decide_eq_true_eq] at hm
  have : ((parseInt m.digits : Int) - 1).toNat = parseInt m.digits - 1 := by omega
  simp [LineMatch.diagnostic, lineDiagnostic, severityOf_eq_inWords, this]

/-- C4, at a response of five items on the document of four lines: `BUG` in
capitals gives Error, `Suggestion` with a capital gives Information, `ERROR`
wins over `Info` in the same message, a message without keyword gives
Warning, and the item for line 5, outside the document, is left out. -/
theorem parseDiagnostics_severity_by_keywords_witness :
    parseDiagnostics mixedCaseResponse fourLineDocument =
      [{ range := ⟨0, 0, 0, 1⟩, message := utf16 "BECA: BUG in loop",
         severity := DiagnosticSeverity.Error, source := utf16 "BECA" },
       { range := ⟨1, 0, 1, 2⟩, message := utf16 "BECA: a Suggestion",
         severity := DiagnosticSeverity.Information, source := utf16 "BECA" },
       { range := ⟨2, 0, 2, 3⟩, message := utf16 "BECA: Info, no ERROR",
         severity := DiagnosticSeverity.Error, source := utf16 "BECA" },
       { range := ⟨3, 0, 3, 4⟩, message := utf16 "BECA: unused",
         severity := DiagnosticSeverity.Warning, source := utf16 "BECA" }] ∧
    (parseDiagnostics mixedCaseResponse fourLineDocument).map (fun d => d.severity) =
      [DiagnosticSeverity.Error, DiagnosticSeverity.Information, DiagnosticSeverity.Error,
        DiagnosticSeverity.Warning] :=
  ⟨(parseDiagnostics_severity_by_keywords mixedCaseResponse fourLineDocument).trans (by decide),
   by decide⟩

/-- C2, at the response `please improve this` and at the document of three
lines. -/
theorem parseDiagnostics_no_match_witness :
    execLine (utf16 "please improve this") = none ∧
    ((includes (utf16 "please improve this") (utf16 "improve") = true →
      ∃ d, parseDiagnostics (utf16 "please improve this") threeLineDocument = [d] ∧
        d.severity = DiagnosticSeverity.Hint ∧ d.range = ⟨0, 0, 0, 0⟩) ∧
    (includes (utf16 "please improve this") (utf16 "improve") = false →
      parseDiagnostics (utf16 "please improve this") threeLineDocument = [])) :=
  ⟨by decide, parseDiagnostics_no_match (utf16 "please improve this") threeLineDocument
    (by decide)⟩

/-- C3 as stated fails: for the document of three lines and the response
`Line 2: unused variable`, no diagnostic with the message `unused variable`
is returned (the message is `BECA: unused variable`). -/
theorem parseDiagnostics_message_not_bare :
    ¬ ∃ d, parseDiagnostics (utf16 "Line 2: unused variable") threeLineDocument = [d] ∧
      d.severity = DiagnosticSeverity.Warning ∧ d.range.startLine = 1 ∧
      d.message = utf16 "unused variable" := by
  rintro ⟨d, hd, -, -, hm⟩
  have h : parseDiagnostics (utf16 "Line 2: unused variable") threeLineDocument =
      [⟨⟨1, 0, 1, 2⟩, utf16 "BECA: unused variable", DiagnosticSeverity.Warning,
        utf16 "BECA"⟩] := by decide
  rw [h] at hd
  simp only [List.cons.injEq, and_true] at hd
  subst hd
  revert hm
  decide

/-- C3, amended: for a response `Line N: M`, `N` written with decimal digits
`ds` and `1 ≤ N ≤ lineCount`, `M` without line terminator and without any of
the severity keywords (case ignored), `parseDiagnostics` returns exactly one
diagnostic: severity Warning, on line `N - 1` from character 0 to the length
of that line, with the message `BECA: ` followed by the trimmed `M`. -/
theorem parseDiagnostics_single_line (document : TextDocument) (ds M : JString)
    (hne : ds ≠ []) (hd : ∀ d ∈ ds, isDigit d = true)
    (h1 : 1 ≤ parseInt ds) (h2 : parseInt ds ≤ document.lineCount)
    (hM : ∀ c ∈ M, isLineTerminator c = false)
    (hError : includesIgnoreCase M (utf16 "error") = false)
    (hBug : includesIgnoreCase M (utf16 "bug") = false)
    (hInfo : includesIgnoreCase M (utf16 "info") = false)
    (hSuggestion : includesIgnoreCase M (utf16 "suggestion") = false) :
    parseDiagnostics (utf16 "Line " ++ ds ++ utf16 ": " ++ M) document =
      [{ range := ⟨(parseInt ds : Int) - 1, 0, (parseInt ds : Int) - 1,
            (document.lineText (parseInt ds - 1)).length⟩
         message := utf16 "BECA: " ++ trim M
         severity := DiagnosticSeverity.Warning
         source := utf16 "BECA" }] := by
  have e : utf16 "Line " ++ ds ++ utf16 ": " ++ M =
      76 :: 105 :: 110 :: 101 :: 32 :: (ds ++ 58 :: 32 :: M) := by
    have e1 : utf16 "Line " = [76, 105, 110, 101, 32] := by decide
    have e2 : utf16 ": " = [58, 32] := by decide
    simp [e1, e2]
  rw [e, parseDiagnostics_line document 76 ds M (Or.inr rfl) hne hd h1 h2 hM]
  have hs : severityOf (trim M) = DiagnosticSeverity.Warning := by
    rw [severityOf_eq]
    simp [severityByKeywords, includesIgnoreCase_trim _ _ hError,
      includesIgnoreCase_trim _ _ hBug, includesIgnoreCase_trim _ _ hInfo,
      includesIgnoreCase_trim _ _ hSuggestion]
  have : ((parseInt ds : Int) - 1).toNat = parseInt ds - 1 := by omega
  simp [lineDiagnostic, hs, this]

/-- C3, amended, at the document of three lines and the response
`Line 2: unused variable`. -/
theorem parseDiagnostics_single_line_witness :
    parseDiagnostics (utf16 "Line " ++ utf16 "2" ++ utf16 ": " ++ utf16 "unused variable")
        threeLineDocument =
      [{ range := ⟨(parseInt (utf16 "2") : Int) - 1, 0, (parseInt (utf16 "2") : Int) - 1,
            (threeLineDocument.lineText (parseInt (utf16 "2") - 1)).length⟩
         message := utf16 "BECA: " ++ trim (utf16 "unused variable")
         severity := DiagnosticSeverity.Warning
         source := utf16 "BECA" }] :=
  parseDiagnostics_single_line threeLineDocument (utf16 "2") (utf16 "unused variable")
    (by decide) (by decide) (by decide) (by decide) (by decide) (by decide) (by decide)
    (by decide) (by decide)

/-- C5 as stated fails: `LINE 2: x` gives no diagnostic for the document of
three lines, while `line 2: x` gives one on line 1. -/
theorem parseDiagnostics_upper_case_line :
    parseDiagnostics (utf16 "LINE 2: x") threeLineDocument = [] ∧
    (parseDiagnostics (utf16 "line 2: x") threeLineDocument).map
      (fun d => d.range.startLine) = [1] := by
  constructor <;> decide

/-- C5, amended: the word is recognised in the two casings `line` and `Line`
that `linePattern` lists.  For `N` written with decimal digits `ds`,
`1 ≤ N ≤ lineCount`, and `M` without line terminator, the responses
`line N: M` and `Line N: M` give the same result, one diagnostic on line
`N - 1`. -/
theorem parseDiagnostics_line_casings (document : TextDocument) (ds M : JString)
    (hne : ds ≠ []) (hd : ∀ d ∈ ds, isDigit d = true)
    (h1 : 1 ≤ parseInt ds) (h2 : parseInt ds ≤ document.lineCount)
    (hM : ∀ c ∈ M, isLineTerminator c = false) :
    parseDiagnostics (utf16 "Line " ++ ds ++ utf16 ": " ++ M) document =
      parseDiagnostics (utf16 "line " ++ ds ++ utf16 ": " ++ M) document ∧
    ∃ d, parseDiagnostics (utf16 "line " ++ ds ++ utf16 ": " ++ M) document = [d] ∧
      d.range.startLine = (parseInt ds : Int) - 1 ∧
      d.range.endLine = (parseInt ds : Int) - 1 := by
  have e2 : utf16 ": " = [58, 32] := by decide
  have eU : utf16 "Line " ++ ds ++ utf16 ": " ++ M =
      76 :: 105 :: 110 :: 101 :: 32 :: (ds ++ 58 :: 32 :: M) := by
    have e1 : utf16 "Line " = [76, 105, 110, 101, 32] := by decide
    simp [e1, e2]
  have eL : utf16 "line " ++ ds ++ utf16 ": " ++ M =
      108 :: 105 :: 110 :: 101 :: 32 :: (ds ++ 58 :: 32 :: M) := by
    have e1 : utf16 "line " = [108, 105, 110, 101, 32] := by decide
    simp [e1, e2]
  rw [eU, eL, parseDiagnostics_line document 76 ds M (Or.inr rfl) hne hd h1 h2 hM,
    parseDiagnostics_line document 108 ds M (Or.inl rfl) hne hd h1 h2 hM]
  exact ⟨rfl, _, rfl, rfl, rfl⟩

/-- C5, amended, at the document of three lines, `N = 2` and `M = x`. -/
theorem parseDiagnostics_line_casings_witness :
    parseDiagnostics (utf16 "Line " ++ utf16 "2" ++ utf16 ": " ++ utf16 "x")
        threeLineDocument =
      parseDiagnostics (utf16 "line " ++ utf16 "2" ++ utf16 ": " ++ utf16 "x")
        threeLineDocument ∧
    ∃ d, parseDiagnostics (utf16 "line " ++ utf16 "2" ++ utf16 ": " ++ utf16 "x")
        threeLineDocument = [d] ∧
      d.range.startLine = (parseInt (utf16 "2") : Int) - 1 ∧
      d.range.endLine = (parseInt (utf16 "2") : Int) - 1 :=
  parseDiagnostics_line_casings threeLineDocument (utf16 "2") (utf16 "x")
    (by decide) (by decide) (by decide) (by decide) (by decide)

/-! ## Facts about the matchers of `codeBlockRegex` -/

theorem matchFenceBodyTail_rest (acc s : JString) (m : FenceMatch)
    (h : matchFenceBodyTail acc s = some m) : m.rest.length < s.length := by
  induction s generalizing acc with
  | nil => simp [matchFenceBodyTail] at h
  | cons c s ih =>
    simp only [matchFenceBodyTail] at h
    split at h
    · simp only [Option.some.injEq] at h
      subst h
      simp only [List.length_drop, List.length_cons]
      omega
    · have := ih _ h; simp; omega

theorem matchFenceBody_rest (s : JString) (m : FenceMatch)
    (h : matchFenceBody s = some m) : m.rest.length < s.length := by
  cases s with
  | nil => simp [matchFenceBody] at h
  | cons c s =>
    have := matchFenceBodyTail_rest _ _ _ h; simp; omega

theorem matchFenceNewline_rest (s : JString) (m : FenceMatch)
    (h : matchFenceNewline s = some m) : m.rest.length < s.length := by
  cases s with
  | nil => simp [matchFenceNewline] at h
  | cons c s =>
    simp only [matchFenceNewline] at h
    split at h
    · have := matchFenceBody_rest _ _ h; simp; omega
    · simp at h

theorem matchFenceTag_rest (s : JString) (m : FenceMatch)
    (h : matchFenceTag s = some m) : m.rest.length < s.length := by
  induction s with
  | nil => simp [matchFenceTag, matchFenceNewline] at h
  | cons c s ih =>
    simp only [matchFenceTag] at h
    split at h
    · split at h
      · rename_i r1 heq
        simp at h; subst h
        have := ih heq; simp; omega
      · exact matchFenceNewline_rest _ _ h
    · exact matchFenceNewline_rest _ _ h

theorem matchFenceHere_rest (s : JString) (m : FenceMatch)
    (h : matchFenceHere s = some m) : m.rest.length < s.length := by
  simp only [matchFenceHere] at h
  split at h
  · have := matchFenceTag_rest _ _ h
    simp only [List.length_drop] at this
    omega
  · simp at h

theorem execFence_rest (s : JString) (m : FenceMatch)
    (h : execFence s = some m) : m.rest.length < s.length := by
  induction s with
  | nil => simp [execFence, matchFenceHere, startsWith, fence] at h
  | cons c s ih =>
    simp only [execFence] at h
    split at h
    · rename_i r1 heq
      simp at h; subst h
      exact matchFenceHere_rest _ _ heq
    · have := ih h; simp; omega

/-- The loop of `parseSuggestions` does not depend on its fuel, once the fuel
exceeds the length of the input. -/
theorem suggestLoop_fuel (maxSuggestions fuel fuel2 : Nat) (s : JString) (count : Nat)
    (suggestions : List Suggestion) (h : s.length < fuel) (h2 : s.length < fuel2) :
    suggestLoop maxSuggestions fuel s count suggestions =
      suggestLoop maxSuggestions fuel2 s count suggestions := by
  induction fuel generalizing fuel2 s count suggestions with
  | zero => omega
  | succ fuel ih =>
    cases fuel2 with
    | zero => omega
    | succ fuel2 =>
      simp only [suggestLoop]
      cases hm : execFence s with
      | none => rfl
      | some m =>
        have := execFence_rest _ _ hm
        simp only
        split
        · exact ih _ _ _ _ (by omega) (by omega)
        · rfl

theorem fencedCodesFrom_fuel (fuel fuel2 : Nat) (s : JString)
    (h : s.length < fuel) (h2 : s.length < fuel2) :
    fencedCodesFrom fuel s = fencedCodesFrom fuel2 s := by
  induction fuel generalizing fuel2 s with
  | zero => omega
  | succ fuel ih =>
    cases fuel2 with
    | zero => omega
    | succ fuel2 =>
      simp only [fencedCodesFrom]
      cases hm : execFence s with
      | none => rfl
      | some m =>
        have := execFence_rest _ _ hm
        simp only
        rw [ih fuel2 m.rest (by omega) (by omega)]

/-! ## The loop of `parseSuggestions` as a prefix of the fenced segments -/

theorem suggestLoop_eq (maxSuggestions fuel : Nat) (s : JString) (count : Nat)
    (suggestions : List Suggestion) :
    suggestLoop maxSuggestions fuel s count suggestions =
      suggestions ++ ((fencedCodesFrom fuel s).take (maxSuggestions - count)).map
        codeSuggestion := by
  induction fuel generalizing s count suggestions with
  | zero => simp [suggestLoop, fencedCodesFrom]
  | succ fuel ih =>
    simp only [suggestLoop, fencedCodesFrom]
    cases hm : execFence s with
    | none => simp
    | some m =>
      simp only
      by_cases hc : count < maxSuggestions
      · rw [if_pos hc, ih]
        have : maxSuggestions - count = (maxSuggestions - (count + 1)) + 1 := by omega
        rw [this, List.take_succ_cons]
        simp
      · rw [if_neg hc]
        have : maxSuggestions - count = 0 := by omega
        simp [this]

theorem parseSuggestions_eq (response : JString) (maxSuggestions : Nat) :
    parseSuggestions response maxSuggestions =
      if (fencedCodes response).take maxSuggestions = [] ∧ response ≠ [] then
        [genericSuggestion response]
      else ((fencedCodes response).take maxSuggestions).map codeSuggestion := by
  simp only [parseSuggestions, suggestLoop_eq, fencedCodes, List.nil_append, List.length_map,
    List.length_eq_zero, Nat.sub_zero]
  split
  · rename_i h
    simp [h.1]
  · rfl

/-! ## A response that is one fenced line -/

theorem matchFenceBodyTail_line (acc L rest : JString) (hL : ∀ c ∈ L, c ≠ 96) :
    matchFenceBodyTail acc (L ++ 10 :: 96 :: 96 :: 96 :: rest) =
      some ⟨acc ++ L ++ [10], rest⟩ := by
  induction L generalizing acc with
  | nil => simp [matchFenceBodyTail, startsWith, fence, List.isPrefixOf]
  | cons c L ih =>
    have hc : c ≠ 96 := hL c (by simp)
    have hc2 : (96 == c) = false := by simpa using fun h => hc h.symm
    rw [List.cons_append, matchFenceBodyTail]
    simp only [startsWith, fence, List.isPrefixOf, hc2, Bool.false_and]
    rw [if_neg (by simp), ih _ (fun x hx => hL x (by simp [hx]))]
    simp

theorem matchFenceBody_line (L rest : JString) (hL : ∀ c ∈ L, c ≠ 96) :
    matchFenceBody (L ++ 10 :: 96 :: 96 :: 96 :: rest) = some ⟨L ++ [10], rest⟩ := by
  cases L with
  | nil => simp [matchFenceBody, matchFenceBodyTail, startsWith, fence, List.isPrefixOf]
  | cons c L =>
    rw [List.cons_append, matchFenceBody,
      matchFenceBodyTail_line [c] L rest (fun x hx => hL x (by simp [hx]))]
    simp

theorem matchFenceTag_tag (tag t : JString) (r : FenceMatch)
    (htag : ∀ c ∈ tag, isWordChar c = true)
    (h : matchFenceNewline (10 :: t) = some r) :
    matchFenceTag (tag ++ 10 :: t) = some r := by
  induction tag with
  | nil =>
    have : isWordChar 10 = false := rfl
    simp only [List.nil_append, matchFenceTag, this]
    simpa using h
  | cons c tag ih =>
    have hc : isWordChar c = true := htag c (by simp)
    have h2 := ih (fun x hx => htag x (by simp [hx]))
    rw [List.cons_append, matchFenceTag]
    simp only [hc, if_true, h2]

theorem execFence_line (tag L rest : JString) (htag : ∀ c ∈ tag, isWordChar c = true)
    (hL : ∀ c ∈ L, c ≠ 96) :
    execFence (96 :: 96 :: 96 :: (tag ++ 10 :: (L ++ 10 :: 96 :: 96 :: 96 :: rest))) =
      some ⟨L ++ [10], rest⟩ := by
  have h1 : matchFenceNewline (10 :: (L ++ 10 :: 96 :: 96 :: 96 :: rest)) =
      some ⟨L ++ [10], rest⟩ := by
    simp [matchFenceNewline, matchFenceBody_line L rest hL]
  have h2 := matchFenceTag_tag tag _ _ htag h1
  simp [execFence, matchFenceHere, startsWith, fence, List.isPrefixOf, h2]

theorem trim_append_lineFeed (L : JString) (hL : trim L = L) : trim (L ++ [10]) = L := by
  have hw : isWhiteSpace 10 = true := rfl
  by_cases hnil : L = []
  · subst hnil
    simp [trim, List.dropWhile, hw]
  · have hd : L.dropWhile isWhiteSpace = L := by
      have hp : trim L <+: L.dropWhile isWhiteSpace :=
        List.rdropWhile_prefix isWhiteSpace (L.dropWhile isWhiteSpace)
      have hs : L.dropWhile isWhiteSpace <:+ L := List.dropWhile_suffix isWhiteSpace
      rw [hL] at hp
      have hlen : L.length ≤ (L.dropWhile isWhiteSpace).length := hp.length_le
      exact hs.eq_of_length_le hlen
    have hr : List.rdropWhile isWhiteSpace L = L := by
      have : trim L = List.rdropWhile isWhiteSpace (L.dropWhile isWhiteSpace) := rfl
      rw [hd] at this
      rw [← this, hL]
    have h1 : (L ++ [10]).dropWhile isWhiteSpace = L ++ [10] := by
      rw [List.dropWhile_append, hd]
      cases L with
      | nil => exact absurd rfl hnil
      | cons c L => simp
    have : trim (L ++ [10]) =
        List.rdropWhile isWhiteSpace ((L ++ [10]).dropWhile isWhiteSpace) := rfl
    rw [this, h1, List.rdropWhile_concat_pos isWhiteSpace L 10 hw, hr]

theorem splitLines_line (L : JString) (hL : ∀ c ∈ L, c ≠ 10) : splitLines L = [L] := by
  induction L with
  | nil => rfl
  | cons c L ih =>
    have hc : c ≠ 10 := hL c (by simp)
    simp [splitLines, hc, ih (fun x hx => hL x (by simp [hx]))]

theorem fencedCodesFrom_nil (fuel : Nat) : fencedCodesFrom fuel [] = [] := by
  cases fuel <;> simp [fencedCodesFrom, execFence, matchFenceHere, startsWith, fence]

/-! ## The first non-blank line -/

theorem trim_eq_nil_iff (line : JString) : trim line = [] ↔ isBlank line = true := by
  have h : trim line = List.rdropWhile isWhiteSpace (line.dropWhile isWhiteSpace) := rfl
  rw [h, List.rdropWhile_eq_nil_iff, ← List.dropWhile_eq_nil_iff, List.dropWhile_idempotent,
    List.dropWhile_eq_nil_iff]
  simp [isBlank]

theorem firstLine_eq_find (lines : List JString) (d : JString) :
    (match lines.filter (fun line => decide ((trim line).length > 0)) with
      | line :: _ => if line ≠ [] then line else d
      | [] => d) =
    (match lines.find? (fun line => !isBlank line) with
      | some line => line
      | none => d) := by
  induction lines with
  | nil => rfl
  | cons l lines ih =>
    by_cases hb : isBlank l = true
    · have ht : trim l = [] := (trim_eq_nil_iff l).2 hb
      simp only [List.filter, ht, List.length_nil, gt_iff_lt, lt_self_iff_false, decide_False,
        List.find?, hb, Bool.not_true]
      exact ih
    · have ht : trim l ≠ [] := fun h => hb ((trim_eq_nil_iff l).1 h)
      have hlen : (trim l).length > 0 := List.length_pos.2 ht
      have hl : l ≠ [] := by
        intro h; subst h; exact ht rfl
      simp only [Bool.not_eq_true] at hb
      simp [List.filter, hlen, List.find?, hb, hl]

theorem genericSuggestion_eq (response : JString) :
    genericSuggestion response =
      { label := (firstNonBlankLine response).take 50
        documentation := response
        insertText := firstNonBlankLine response } := by
  simp only [genericSuggestion, firstNonBlankLine, firstLine_eq_find]

/-! ## The loop of `extractKeyInsights` -/

theorem insightsLoop_eq (lines insights : List JString) :
    insightsLoop lines insights =
      insights ++ ((lines.map trim).filter startsWithBullet).map (fun t => trim (t.drop 1)) := by
  induction lines generalizing insights with
  | nil => simp [insightsLoop]
  | cons line lines ih =>
    simp only [insightsLoop, List.map_cons]
    by_cases hb : startsWithBullet (trim line) = true
    · rw [if_pos hb, ih, List.filter_cons_of_pos hb]
      simp
    · rw [if_neg hb, ih, List.filter_cons_of_neg hb]

/-! ## Lines of a response -/

theorem splitLines_ne_nil (s : JString) : splitLines s ≠ [] := by
  induction s with
  | nil => simp [splitLines]
  | cons c s ih =>
    simp only [splitLines]
    split
    · simp
    · split <;> simp

theorem splitLines_append_lineFeed (a b : JString) :
    splitLines (a ++ 10 :: b) = splitLines a ++ splitLines b := by
  induction a with
  | nil => simp [splitLines]
  | cons c a ih =>
    simp only [List.cons_append, splitLines]
    by_cases hc : c = 10
    · simp [hc, ih]
    · rw [if_neg hc, if_neg hc]
      have e : a.append (10 :: b) = a ++ 10 :: b := rfl
      rw [e, ih]
      rcases h : splitLines a with _ | ⟨l, ls⟩
      · exact absurd h (splitLines_ne_nil a)
      · simp

theorem splitLines_no_lineFeed (s : JString) :
    ∀ l ∈ splitLines s, ∀ c ∈ l, c ≠ 10 := by
  induction s with
  | nil => simp [splitLines]
  | cons d s ih =>
    intro l hl c hc
    simp only [splitLines] at hl
    by_cases hd : d = 10
    · rw [if_pos hd] at hl
      rcases List.mem_cons.1 hl with h | h
      · subst h; simp at hc
      · exact ih l h c hc
    · rw [if_neg hd] at hl
      rcases hs : splitLines s with _ | ⟨l0, ls⟩
      · exact absurd hs (splitLines_ne_nil s)
      · rw [hs] at hl ih
        simp only at hl
        rcases List.mem_cons.1 hl with h | h
        · subst h
          rcases List.mem_cons.1 hc with h2 | h2
          · rw [h2]; exact hd
          · exact ih l0 (by simp) c h2
        · exact ih l (by simp [h]) c hc

theorem joinLines_cons_cons (c : Nat) (l : JString) (ls : List JString) :
    joinLines ((c :: l) :: ls) = c :: joinLines (l :: ls) := by
  cases ls <;> simp [joinLines]

theorem joinLines_splitLines (s : JString) : joinLines (splitLines s) = s := by
  induction s with
  | nil => simp [splitLines, joinLines]
  | cons c s ih =>
    simp only [splitLines]
    rcases hs : splitLines s with _ | ⟨l, ls⟩
    · exact absurd hs (splitLines_ne_nil s)
    · rw [hs] at ih
      by_cases hc : c = 10
      · simp [hc, joinLines, ih]
      · simp [hc, joinLines_cons_cons, ih]

theorem splitLines_joinLines (lines : List JString) (hne : lines ≠ [])
    (hlines : ∀ l ∈ lines, ∀ c ∈ l, c ≠ 10) : splitLines (joinLines lines) = lines := by
  induction lines with
  | nil => exact absurd rfl hne
  | cons l ls ih =>
    cases ls with
    | nil => simpa [joinLines] using splitLines_line l (hlines l (by simp))
    | cons l2 ls =>
      simp only [joinLines]
      rw [splitLines_append_lineFeed, splitLines_line l (hlines l (by simp)),
        ih (by simp) (fun x hx => hlines x (List.mem_cons_of_mem _ hx))]
      simp

theorem mem_joinLines (lines : List JString) (c : Nat) (hc : c ∈ joinLines lines) :
    c = 10 ∨ ∃ l ∈ lines, c ∈ l := by
  induction lines with
  | nil => simp [joinLines] at hc
  | cons l ls ih =>
    cases ls with
    | nil => exact Or.inr ⟨l, by simp, by simpa [joinLines] using hc⟩
    | cons l2 ls =>
      simp only [joinLines, List.mem_append, List.mem_cons] at hc
      rcases hc with h | h | h
      · exact Or.inr ⟨l, by simp, h⟩
      · exact Or.inl h
      · rcases ih h with h | ⟨x, hx, hcx⟩
        · exact Or.inl h
        · exact Or.inr ⟨x, List.mem_cons_of_mem _ hx, hcx⟩

theorem mem_of_mem_joinLines (lines : List JString) (l : JString) (c : Nat)
    (hl : l ∈ lines) (hc : c ∈ l) : c ∈ joinLines lines := by
  induction lines with
  | nil => simp at hl
  | cons l0 ls ih =>
    cases ls with
    | nil =>
      simp only [List.mem_singleton] at hl
      subst hl
      simpa [joinLines] using hc
    | cons l2 ls =>
      simp only [joinLines, List.mem_append, List.mem_cons]
      rcases List.mem_cons.1 hl with h | h
      · subst h; exact Or.inl hc
      · exact Or.inr (Or.inr (ih h))


theorem isBlank_of_whiteSpace (l : JString) (h : ∀ c ∈ l, isWhiteSpace c = true) :
    isBlank l = true := by
  simpa [isBlank, List.all_eq_true] using h

theorem isBlank_eq_false (l : JString) (h : ∃ c ∈ l, isWhiteSpace c = false) :
    isBlank l = false := by
  rcases h with ⟨c, hc, hw⟩
  cases hb : isBlank l with
  | false => rfl
  | true =>
    simp only [isBlank, List.all_eq_true] at hb
    rw [hb c hc] at hw
    cases hw

theorem firstNonBlankLine_of_blank (response : JString)
    (h : ∀ c ∈ response, isWhiteSpace c = true) :
    firstNonBlankLine response = response.take 100 := by
  have hf : (splitLines response).find? (fun line => !isBlank line) = none := by
    rw [List.find?_eq_none]
    intro l hl
    have hb : isBlank l = true := by
      apply isBlank_of_whiteSpace
      intro c hc
      have := mem_of_mem_joinLines (splitLines response) l c hl hc
      rw [joinLines_splitLines] at this
      exact h c this
    simp [hb]
  simp only [firstNonBlankLine, hf]

theorem firstNonBlankLine_of_lines (blanks : List JString) (line : JString)
    (rest : List JString)
    (hlines : ∀ l ∈ blanks ++ line :: rest, ∀ c ∈ l, c ≠ 10)
    (hblanks : ∀ l ∈ blanks, ∀ c ∈ l, isWhiteSpace c = true)
    (hline : ∃ c ∈ line, isWhiteSpace c = false) :
    firstNonBlankLine (joinLines (blanks ++ line :: rest)) = line := by
  have h1 : blanks.find? (fun line => !isBlank line) = none := by
    rw [List.find?_eq_none]
    intro l hl
    simp [isBlank_of_whiteSpace l (hblanks l hl)]
  have h2 : isBlank line = false := isBlank_eq_false line hline
  rw [firstNonBlankLine, splitLines_joinLines _ (by simp) hlines, List.find?_append, h1]
  simp [List.find?, h2]

theorem lines_of_response (response : JString) :
    (∀ c ∈ response, isWhiteSpace c = true) ∨
    ∃ blanks line rest, response = joinLines (blanks ++ line :: rest) ∧
      (∀ l ∈ blanks ++ line :: rest, ∀ c ∈ l, c ≠ 10) ∧
      (∀ l ∈ blanks, ∀ c ∈ l, isWhiteSpace c = true) ∧
      (∃ c ∈ line, isWhiteSpace c = false) := by
  cases hf : (splitLines response).find? (fun line => !isBlank line) with
  | none =>
    left
    rw [List.find?_eq_none] at hf
    intro c hc
    rw [← joinLines_splitLines response] at hc
    rcases mem_joinLines _ c hc with h | ⟨l, hl, hcl⟩
    · subst h; decide
    · have := hf l hl
      simp only [Bool.not_eq_true, Bool.not_eq_false_eq_eq_true, isBlank, List.all_eq_true] at this
      exact this c hcl
  | some line =>
    right
    rw [List.find?_eq_some] at hf
    rcases hf with ⟨hp, blanks, rest, hsplit, hbl⟩
    refine ⟨blanks, line, rest, ?_, ?_, ?_, ?_⟩
    · rw [← hsplit, joinLines_splitLines]
    · rw [← hsplit]; exact splitLines_no_lineFeed response
    · intro l hl
      have := hbl l hl
      simpa [isBlank, List.all_eq_true] using this
    · simpa [isBlank] using hp

theorem parseSuggestions_of_no_fence (response : JString) (maxSuggestions : Nat)
    (hne : response ≠ []) (h : execFence response = none) :
    parseSuggestions response maxSuggestions =
      [{ label := (firstNonBlankLine response).take 50
         documentation := response
         insertText := firstNonBlankLine response }] := by
  have hl : suggestLoop maxSuggestions (response.length + 1) response 0 [] = [] := by
    simp [suggestLoop, h]
  simp [parseSuggestions, hl, hne, genericSuggestion_eq]

theorem extractKeyInsights_splitLines (response : JString) :
    extractKeyInsights response =
      ((((splitLines response).map trim).filter startsWithBullet).take 5).map
        (fun t => trim (t.drop 1)) := by
  simp only [extractKeyInsights, insightsLoop_eq, List.nil_append, List.map_take]

theorem extractKeyInsights_nil : extractKeyInsights [] = [] := by decide

/-! ## Claims on `parseSuggestions` -/

/-- C6 as stated fails at `maxCount = 0`: the response holds one fenced
segment, and one candidate is returned, which is more than `maxCount`. -/
theorem parseSuggestions_max_zero :
    (fencedCodes (utf16 "```\nx\n```")).length = 1 ∧
    (parseSuggestions (utf16 "```\nx\n```") 0).length = 1 ∧
    (parseSuggestions (utf16 "```\nx\n```") 0).length ≠
      min (fencedCodes (utf16 "```\nx\n```")).length 0 := by
  refine ⟨by decide, by decide, by decide⟩

/-- C6, amended: for a response with `k ≥ 1` fenced code segments and
`maxCount ≥ 1`, `parseSuggestions` returns the candidates of the first
`min k maxCount` segments, in order of appearance, and no other. -/
theorem parseSuggestions_fenced (response : JString) (maxSuggestions : Nat)
    (hk : 1 ≤ (fencedCodes response).length) (hmax : 1 ≤ maxSuggestions) :
    parseSuggestions response maxSuggestions =
      ((fencedCodes response).take maxSuggestions).map codeSuggestion ∧
    (parseSuggestions response maxSuggestions).length =
      min (fencedCodes response).length maxSuggestions ∧
    (parseSuggestions response maxSuggestions).length ≤ maxSuggestions := by
  have hne : ¬ ((fencedCodes response).take maxSuggestions = [] ∧ response ≠ []) := by
    intro h
    have := congrArg List.length h.1
    simp only [List.length_take, List.length_nil] at this
    omega
  rw [parseSuggestions_eq, if_neg hne]
  simp only [List.length_map, List.length_take, true_and]
  constructor
  · exact Nat.min_comm _ _
  · exact Nat.min_le_left _ _

/-- C6, amended, at a response with two fenced segments and `maxCount = 1`. -/
theorem parseSuggestions_fenced_witness :
    parseSuggestions (utf16 "```\nx\n```\n```js\ny\n```") 1 =
      ((fencedCodes (utf16 "```\nx\n```\n```js\ny\n```")).take 1).map codeSuggestion ∧
    (parseSuggestions (utf16 "```\nx\n```\n```js\ny\n```") 1).length =
      min (fencedCodes (utf16 "```\nx\n```\n```js\ny\n```")).length 1 ∧
    (parseSuggestions (utf16 "```\nx\n```\n```js\ny\n```") 1).length ≤ 1 :=
  parseSuggestions_fenced (utf16 "```\nx\n```\n```js\ny\n```") 1 (by decide) (by decide)

/-- C8 as stated fails: a fenced segment whose line has 51 code units gives a
label of 53 code units. -/
theorem parseSuggestions_label_53 :
    (parseSuggestions (utf16 "```\n" ++ List.replicate 51 120 ++ utf16 "\n```") 3).map
      (fun c => c.label.length) = [53] := by
  decide

/-- C8, amended: every candidate returned by `parseSuggestions` has a label of
at most 53 code units: at most 50 code units, followed for a fenced segment
by the three dots of the marker. -/
theorem parseSuggestions_label_length (response : JString) (maxSuggestions : Nat) :
    ∀ c ∈ parseSuggestions response maxSuggestions,
      c.label.length ≤ 53 ∧
      ∃ pre : JString, pre.length ≤ 50 ∧ (c.label = pre ∨ c.label = pre ++ utf16 "...") := by
  intro c hc
  rw [parseSuggestions_eq] at hc
  split at hc
  · simp only [List.mem_singleton] at hc
    subst hc
    simp only [genericSuggestion]
    refine ⟨?_, _, ?_, Or.inl rfl⟩
    · simp only [List.length_take]; omega
    · simp only [List.length_take]; omega
  · simp only [List.mem_map] at hc
    obtain ⟨code, -, rfl⟩ := hc
    have e : (utf16 "...").length = 3 := by decide
    simp only [codeSuggestion]
    refine ⟨?_, _, ?_, Or.inr rfl⟩
    · simp only [List.length_append, List.length_take, e]; omega
    · simp only [List.length_take]; omega

/-- C8, amended, at the fenced segment `const x = 1;` with `maxCount = 3`,
for the candidate returned there. -/
theorem parseSuggestions_label_length_witness :
    (⟨utf16 "const x = 1;...", utf16 "BECA suggested code snippet", utf16 "const x = 1;"⟩ :
        Suggestion) ∈ parseSuggestions (utf16 "```js\nconst x = 1;\n```") 3 ∧
    ((utf16 "const x = 1;...").length ≤ 53 ∧
      ∃ pre : JString, pre.length ≤ 50 ∧
        (utf16 "const x = 1;..." = pre ∨ utf16 "const x = 1;..." = pre ++ utf16 "...")) :=
  ⟨by decide,
    parseSuggestions_label_length (utf16 "```js\nconst x = 1;\n```") 3
      ⟨utf16 "const x = 1;...", utf16 "BECA suggested code snippet", utf16 "const x = 1;"⟩
      (by decide)⟩

/-- C7 as stated fails: for the response that is the fenced segment
`const x = 1;` and `maxCount = 3`, no candidate with the label `const x = 1;`
is returned (the label is `const x = 1;...`). -/
theorem parseSuggestions_label_not_bare :
    ¬ ∃ c, parseSuggestions (utf16 "```js\nconst x = 1;\n```") 3 = [c] ∧
      c.label = utf16 "const x = 1;" ∧ c.insertText = utf16 "const x = 1;" := by
  rintro ⟨c, hc, hl, -⟩
  have h : parseSuggestions (utf16 "```js\nconst x = 1;\n```") 3 =
      [⟨utf16 "const x = 1;...", utf16 "BECA suggested code snippet",
        utf16 "const x = 1;"⟩] := by decide
  rw [h] at hc
  simp only [List.cons.injEq, and_true] at hc
  subst hc
  revert hl
  decide

/-- C7, amended: for a response that is one fenced code segment, opened by
three backticks and a tag of word characters, whose body is a single line `L`
of at most 50 code units, without backtick and without white space at its
ends, and for `maxCount ≥ 1`, `parseSuggestions` returns exactly one
candidate: its label is `L` followed by three dots, its insertText is `L`. -/
theorem parseSuggestions_single_fence (tag L : JString) (maxSuggestions : Nat)
    (htag : ∀ c ∈ tag, isWordChar c = true)
    (hline : ∀ c ∈ L, c ≠ 10) (htick : ∀ c ∈ L, c ≠ 96) (htrim : trim L = L)
    (hlen : L.length ≤ 50) (hmax : 1 ≤ maxSuggestions) :
    parseSuggestions (utf16 "```" ++ tag ++ utf16 "\n" ++ L ++ utf16 "\n```") maxSuggestions =
      [{ label := L ++ utf16 "..."
         documentation := utf16 "BECA suggested code snippet"
         insertText := L }] := by
  have e : utf16 "```" ++ tag ++ utf16 "\n" ++ L ++ utf16 "\n```" =
      96 :: 96 :: 96 :: (tag ++ 10 :: (L ++ 10 :: 96 :: 96 :: 96 :: [])) := by
    have e1 : utf16 "```" = [96, 96, 96] := by decide
    have e2 : utf16 "\n" = [10] := by decide
    have e3 : utf16 "\n```" = [10, 96, 96, 96] := by decide
    simp [e1, e2, e3]
  have hcodes : fencedCodes
      (96 :: 96 :: 96 :: (tag ++ 10 :: (L ++ 10 :: 96 :: 96 :: 96 :: []))) = [L] := by
    have hfrom : ∀ fuel, fencedCodesFrom (fuel + 1)
        (96 :: 96 :: 96 :: (tag ++ 10 :: (L ++ 10 :: 96 :: 96 :: 96 :: []))) = [L] := by
      intro fuel
      rw [fencedCodesFrom]
      simp only [execFence_line tag L [] htag htick, fencedCodesFrom_nil,
        trim_append_lineFeed L htrim]
    exact hfrom _
  have htake : ([L] : List JString).take maxSuggestions = [L] := by
    apply List.take_of_length_le
    simpa using hmax
  rw [e, parseSuggestions_eq, hcodes, htake, if_neg (by simp)]
  simp [codeSuggestion, splitLines_line L hline, List.take_of_length_le hlen]

/-- C7, amended, at the fenced segment `const x = 1;` with the tag `js` and
`maxCount = 3`. -/
theorem parseSuggestions_single_fence_witness :
    parseSuggestions
        (utf16 "```" ++ utf16 "js" ++ utf16 "\n" ++ utf16 "const x = 1;" ++ utf16 "\n```") 3 =
      [{ label := utf16 "const x = 1;" ++ utf16 "..."
         documentation := utf16 "BECA suggested code snippet"
         insertText := utf16 "const x = 1;" }] :=
  parseSuggestions_single_fence (utf16 "js") (utf16 "const x = 1;") 3
    (by decide) (by decide) (by decide) (by decide) (by decide) (by decide)

/-- C9: for a non-empty response in which `codeBlockRegex` has no match,
`parseSuggestions` returns exactly one candidate, whose documentation is the
whole response.  When the response is made of lines of white space only, then
a line `line` with a code unit that is not white space, then further lines
(all joined by line feeds), the insertText is `line` and the label its first
50 code units.  When the response is white space throughout (every line is
blank), the insertText is the first 100 code units of the response and the
label the first 50 of these.  Every response is of one of the two kinds. -/
theorem parseSuggestions_no_fence (response : JString) (maxSuggestions : Nat)
    (hne : response ≠ []) (h : execFence response = none) :
    (∀ (blanks : List JString) (line : JString) (rest : List JString),
      response = joinLines (blanks ++ line :: rest) →
      (∀ l ∈ blanks ++ line :: rest, ∀ c ∈ l, c ≠ 10) →
      (∀ l ∈ blanks, ∀ c ∈ l, isWhiteSpace c = true) →
      (∃ c ∈ line, isWhiteSpace c = false) →
      parseSuggestions response maxSuggestions =
        [{ label := line.take 50, documentation := response, insertText := line }]) ∧
    ((∀ c ∈ response, isWhiteSpace c = true) →
      parseSuggestions response maxSuggestions =
        [{ label := (response.take 100).take 50, documentation := response,
           insertText := response.take 100 }]) ∧
    ((∀ c ∈ response, isWhiteSpace c = true) ∨
      ∃ blanks line rest, response = joinLines (blanks ++ line :: rest) ∧
        (∀ l ∈ blanks ++ line :: rest, ∀ c ∈ l, c ≠ 10) ∧
        (∀ l ∈ blanks, ∀ c ∈ l, isWhiteSpace c = true) ∧
        (∃ c ∈ line, isWhiteSpace c = false)) := by
  refine ⟨?_, ?_, lines_of_response response⟩
  · intro blanks line rest hr hlines hblanks hline
    rw [parseSuggestions_of_no_fence response maxSuggestions hne h, hr,
      firstNonBlankLine_of_lines blanks line rest hlines hblanks hline]
  · intro hw
    rw [parseSuggestions_of_no_fence response maxSuggestions hne h,
      firstNonBlankLine_of_blank response hw]

/-- C9, at the response of the three lines ` `, `  use a map` and `here`, and
at the response of the two blank lines ` ` and `  `, with `maxCount = 3`. -/
theorem parseSuggestions_no_fence_witness :
    parseSuggestions (utf16 " \n  use a map\nhere") 3 =
      [{ label := utf16 "  use a map"
         documentation := utf16 " \n  use a map\nhere"
         insertText := utf16 "  use a map" }] ∧
    parseSuggestions (utf16 " \n  ") 3 =
      [{ label := utf16 " \n  "
         documentation := utf16 " \n  "
         insertText := utf16 " \n  " }] ∧
    (parseSuggestions (utf16 " \n  use a map\nhere") 3).map (fun s => s.insertText) =
      [utf16 "  use a map"] :=
  ⟨(parseSuggestions_no_fence (utf16 " \n  use a map\nhere") 3 (by decide) (by decide)).1
      [utf16 " "] (utf16 "  use a map") [utf16 "here"] (by decide) (by decide) (by decide)
      (by decide),
   (parseSuggestions_no_fence (utf16 " \n  ") 3 (by decide) (by decide)).2.1 (by decide),
   by decide⟩

/-! ## Claims on `extractKeyInsights` -/

/-- C10: for the response made of the lines `lines` joined by line feeds (no
line holds a line feed; every response is made so), `extractKeyInsights`
returns, for the first 5 lines whose trimmed form begins with a bullet marker
(the bullet string of the source, `-` or `*`), in order of appearance, the
trimmed line without its first code unit, trimmed again. -/
theorem extractKeyInsights_of_lines (lines : List JString)
    (hlines : ∀ l ∈ lines, ∀ c ∈ l, c ≠ 10) :
    extractKeyInsights (joinLines lines) =
      (((lines.map trim).filter startsWithBullet).take 5).map (fun t => trim (t.drop 1)) ∧
    (extractKeyInsights (joinLines lines)).length ≤ 5 ∧
    (∀ t : JString, startsWithBullet t = true ↔
      (bulletLiteral <+: t ∨ [45] <+: t ∨ [42] <+: t)) ∧
    (∀ response : JString, ∃ lines0 : List JString,
      (∀ l ∈ lines0, ∀ c ∈ l, c ≠ 10) ∧ joinLines lines0 = response) := by
  refine ⟨?_, ?_, ?_, ?_⟩
  · cases lines with
    | nil => simp [joinLines, extractKeyInsights_nil]
    | cons l ls =>
      rw [extractKeyInsights_splitLines, splitLines_joinLines _ (by simp) hlines]
  · simp only [extractKeyInsights, List.length_take]
    omega
  · intro t
    have e1 : utf16 "-" = [45] := by decide
    have e2 : utf16 "*" = [42] := by decide
    simp only [startsWithBullet, startsWith, e1, e2, Bool.or_eq_true, List.isPrefixOf_iff_prefix,
      or_assoc]
  · intro response
    exact ⟨splitLines response, splitLines_no_lineFeed response, joinLines_splitLines response⟩

/-- C10, at a response of eight lines, six of them with a bullet marker: the
first five are returned, without marker and trimmed; and at a response whose
second line begins with the bullet string of the source, of which the first
code unit is removed. -/
theorem extractKeyInsights_of_lines_witness :
    extractKeyInsights
        (utf16 "Review:\n - use const \n* avoid var\nplain -x\n-a\n  *  b\n-c\n-d") =
      [utf16 "use const", utf16 "avoid var", utf16 "a", utf16 "b", utf16 "c"] ∧
    extractKeyInsights (utf16 "Notes\n" ++ bulletLiteral ++ utf16 " point") =
      [[196, 162] ++ utf16 " point"] ∧
    (extractKeyInsights
        (utf16 "Review:\n - use const \n* avoid var\nplain -x\n-a\n  *  b\n-c\n-d")).length =
      5 :=
  ⟨(extractKeyInsights_of_lines
      [utf16 "Review:", utf16 " - use const ", utf16 "* avoid var", utf16 "plain -x",
        utf16 "-a", utf16 "  *  b", utf16 "-c", utf16 "-d"] (by decide)).1.trans (by decide),
   (extractKeyInsights_of_lines [utf16 "Notes", bulletLiteral ++ utf16 " point"]
      (by decide)).1.trans (by decide),
   by decide⟩

/-! ## Facts about the task of the chat provider -/

theorem sendToWebview_currentTask (p : BecaProvider) (message : WebviewMessage) :
    (sendToWebview p message).currentTask = p.currentTask := by
  unfold sendToWebview
  split <;> rfl

theorem sendToWebview_conversationHistory (p : BecaProvider) (message : WebviewMessage) :
    (sendToWebview p message).conversationHistory = p.conversationHistory := by
  unfold sendToWebview
  split <;> rfl

theorem sendToWebview_posted (p : BecaProvider) (v : WebviewView) (message : WebviewMessage)
    (hv : p.view = some v) :
    (sendToWebview p message).view = some ⟨v.posted ++ [message]⟩ := by
  simp [sendToWebview, hv]

theorem sendToWebview_no_view (p : BecaProvider) (message : WebviewMessage)
    (hv : p.view = none) : sendToWebview p message = p := by
  simp [sendToWebview, hv]

theorem setStepStatus_frame (stepId : Nat) (status : StepStatus) (steps : List TaskStep) :
    (setStepStatus stepId status steps).map (fun s => (s.id, s.title)) =
      steps.map (fun s => (s.id, s.title)) := by
  induction steps with
  | nil => rfl
  | cons s steps ih =>
    simp only [setStepStatus]
    split
    · simp
    · simp [ih]

theorem setStepStatus_eq_self (stepId : Nat) (status : StepStatus) (steps : List TaskStep)
    (step : TaskStep) (hf : steps.find? (fun s => decide (s.id = stepId)) = some step)
    (h : setStepStatus stepId status steps = steps) : step.status = status := by
  induction steps with
  | nil => simp at hf
  | cons s steps ih =>
    simp only [setStepStatus] at h
    by_cases hs : s.id = stepId
    · simp only [List.find?, hs, decide_True, Option.some.injEq] at hf
      subst hf
      simp only [hs, if_true, List.cons.injEq, and_true] at h
      rw [← h]
    · simp only [List.find?, hs, decide_False] at hf
      simp only [hs, if_false, List.cons.injEq, true_and] at h
      exact ih hf h

theorem updateTaskStep_frame (p : BecaProvider) (stepId : Nat) (status : StepStatus) :
    (updateTaskStep p stepId status).currentTask.map Task.frame =
      p.currentTask.map Task.frame := by
  unfold updateTaskStep
  split
  · rfl
  · rename_i task ht
    split
    · rfl
    · split
      · rw [sendToWebview_currentTask, ht]
        simp [Task.frame, setStepStatus_frame]
      · rfl

theorem updateTaskStep_conversationHistory (p : BecaProvider) (stepId : Nat)
    (status : StepStatus) :
    (updateTaskStep p stepId status).conversationHistory = p.conversationHistory := by
  unfold updateTaskStep
  split
  · rfl
  · split
    · rfl
    · split
      · rw [sendToWebview_conversationHistory]
      · rfl

theorem updateTaskStep_eq_self (p : BecaProvider) (stepId : Nat) (status : StepStatus)
    (h : (updateTaskStep p stepId status).currentTask = p.currentTask) :
    updateTaskStep p stepId status = p := by
  unfold updateTaskStep at h ⊢
  split
  · rfl
  · rename_i task ht
    simp only [ht] at h
    split
    · rfl
    · rename_i step hf
      simp only [hf] at h
      split
      · rename_i hne
        rw [if_pos hne, sendToWebview_currentTask] at h
        simp only [Option.some.injEq] at h
        have hsteps : setStepStatus stepId status task.steps = task.steps := by
          have := congrArg Task.steps h
          simpa using this
        exact absurd (setStepStatus_eq_self stepId status task.steps step hf hsteps) hne
      · rfl

theorem updateTaskSteps_frame (p : BecaProvider) (calls : List (Nat × StepStatus)) :
    (updateTaskSteps p calls).currentTask.map Task.frame = p.currentTask.map Task.frame := by
  induction calls generalizing p with
  | nil => rfl
  | cons c calls ih =>
    simp only [updateTaskSteps, List.foldl_cons] at ih ⊢
    rw [ih, updateTaskStep_frame]

theorem updateTaskSteps_no_task (p : BecaProvider) (calls : List (Nat × StepStatus))
    (h : p.currentTask = none) : updateTaskSteps p calls = p := by
  induction calls with
  | nil => rfl
  | cons c calls ih =>
    have : updateTaskStep p c.1 c.2 = p := by simp [updateTaskStep, h]
    simp only [updateTaskSteps, List.foldl_cons, this] at ih ⊢
    exact ih

theorem updateTaskProgress_eq_steps (p : BecaProvider) (responseContent : JString) :
    updateTaskProgress p responseContent =
      updateTaskSteps p (progressCalls (toLowerCase responseContent)) := by
  cases ht : p.currentTask with
  | none => rw [updateTaskSteps_no_task p _ ht]; simp [updateTaskProgress, ht]
  | some task =>
    simp only [updateTaskProgress, ht, progressCalls, updateTaskSteps, List.foldl_append]
    split_ifs <;> rfl

theorem updateTaskSteps_eq_self (p : BecaProvider) (calls : List (Nat × StepStatus))
    (h : ∀ t ∈ taskTrace p calls, t = p.currentTask) : updateTaskSteps p calls = p := by
  induction calls generalizing p with
  | nil => rfl
  | cons c calls ih =>
    have h1 : updateTaskStep p c.1 c.2 = p :=
      updateTaskStep_eq_self p c.1 c.2 (h _ (by simp [taskTrace]))
    simp only [updateTaskSteps, List.foldl_cons, h1] at ih ⊢
    apply ih
    intro t ht
    apply h
    simp only [taskTrace, h1, List.mem_cons]
    exact Or.inr ht

/-! ## Claims on the task of the chat provider -/

/-! ## The view stays attached

`createTask` and `startNewTask` are called from `handleMessage` only, and
`handleMessage` runs only as the handler that `resolveWebviewView` registers
after it has set `_view`; no method resets `_view`.  So every call of these
methods finds a view attached. -/

theorem sendToWebview_view_isSome (p : BecaProvider) (message : WebviewMessage)
    (h : p.view.isSome = true) : (sendToWebview p message).view.isSome = true := by
  unfold sendToWebview
  cases hv : p.view with
  | none => rw [hv] at h; cases h
  | some v => rfl

theorem addMessage_view_isSome (p : BecaProvider) (message : Message)
    (h : p.view.isSome = true) : (addMessage p message).view.isSome = true :=
  sendToWebview_view_isSome _ _ h

theorem createTask_view_isSome (p : BecaProvider) (now : Nat) (createdAt userRequest : JString)
    (h : p.view.isSome = true) :
    (createTask p now createdAt userRequest).view.isSome = true :=
  sendToWebview_view_isSome _ _ h

theorem ensureTask_view_isSome (p : BecaProvider) (now : Nat) (createdAt userMessage : JString)
    (h : p.view.isSome = true) :
    (ensureTask p now createdAt userMessage).view.isSome = true := by
  unfold ensureTask
  split
  · exact createTask_view_isSome _ _ _ _ h
  · exact h

theorem updateTaskStep_view_isSome (p : BecaProvider) (stepId : Nat) (status : StepStatus)
    (h : p.view.isSome = true) : (updateTaskStep p stepId status).view.isSome = true := by
  unfold updateTaskStep
  split
  · exact h
  · split
    · exact h
    · split
      · exact sendToWebview_view_isSome _ _ h
      · exact h

theorem updateTaskSteps_view_isSome (p : BecaProvider) (calls : List (Nat × StepStatus))
    (h : p.view.isSome = true) : (updateTaskSteps p calls).view.isSome = true := by
  induction calls generalizing p with
  | nil => exact h
  | cons c calls ih =>
    simp only [updateTaskSteps, List.foldl_cons] at ih ⊢
    exact ih _ (updateTaskStep_view_isSome p c.1 c.2 h)

theorem updateTaskProgress_view_isSome (p : BecaProvider) (responseContent : JString)
    (h : p.view.isSome = true) : (updateTaskProgress p responseContent).view.isSome = true := by
  rw [updateTaskProgress_eq_steps]
  exact updateTaskSteps_view_isSome _ _ h

theorem handleUserMessageCatch_view_isSome (p : BecaProvider) (env : Environment)
    (message : JString) (h : p.view.isSome = true) :
    (handleUserMessageCatch p env message).view.isSome = true :=
  addMessage_view_isSome _ _ (sendToWebview_view_isSome _ _ h)

theorem handleUserMessage_view_isSome (p : BecaProvider) (env : Environment)
    (userMessage : JString) (h : p.view.isSome = true) :
    (handleUserMessage p env userMessage).view.isSome = true := by
  unfold handleUserMessage
  split
  · exact h
  · have h3 := ensureTask_view_isSome _ env.taskStamp.now env.taskStamp.iso userMessage
      (sendToWebview_view_isSome _ (WebviewMessage.thinking true)
        (addMessage_view_isSome p
          { id := decimal env.userStamp.now
            role := Role.user
            content := userMessage
            timestamp := env.userStamp.iso } h))
    simp only
    split
    · exact handleUserMessageCatch_view_isSome _ _ _ h3
    · have h4 := sendToWebview_view_isSome _ (WebviewMessage.thinking false) h3
      split
      · split
        · split
          · exact updateTaskProgress_view_isSome _ _ (addMessage_view_isSome _ _ h4)
          · exact handleUserMessageCatch_view_isSome _ _ _ (addMessage_view_isSome _ _ h4)
        · exact addMessage_view_isSome _ _ h4
      · exact addMessage_view_isSome _ _ h4

theorem startNewTask_view_isSome (p : BecaProvider) (answer : Option JString)
    (h : p.view.isSome = true) : (startNewTask p answer).view.isSome = true := by
  unfold startNewTask
  split
  · exact h
  · exact sendToWebview_view_isSome _ _ h

theorem applyFileEdit_view_isSome (p : BecaProvider) (env : Environment) (filePath : JString)
    (h : p.view.isSome = true) : (applyFileEdit p env filePath).view.isSome = true := by
  unfold applyFileEdit
  simp only
  split
  · exact addMessage_view_isSome _ _ h
  · exact addMessage_view_isSome _ _ h

theorem handleMessage_view_isSome (p : BecaProvider) (env : Environment)
    (request : WebviewRequest) (h : p.view.isSome = true) :
    (handleMessage p env request).view.isSome = true := by
  cases request with
  | sendMessage text => exact handleUserMessage_view_isSome p env text h
  | newTask => exact startNewTask_view_isSome p env.answer h
  | approveEdit filePath content => exact applyFileEdit_view_isSome p env filePath h
  | rejectEdit filePath => exact h
  | other type => exact h

theorem handleMessages_view_isSome (p : BecaProvider)
    (calls : List (Environment × WebviewRequest)) (h : p.view.isSome = true) :
    (handleMessages p calls).view.isSome = true := by
  induction calls generalizing p with
  | nil => exact h
  | cons call calls ih =>
    simp only [handleMessages, List.foldl_cons] at ih ⊢
    exact ih _ (handleMessage_view_isSome p call.1 call.2 h)

/-- In every state in which the handler of the webview messages runs, that is
after `resolveWebviewView` and any sequence of `handleMessage` calls, a view
is attached. -/
theorem handleMessages_view_attached (p : BecaProvider) (webviewView : WebviewView)
    (calls : List (Environment × WebviewRequest)) :
    ∃ v, (handleMessages (resolveWebviewView p webviewView) calls).view = some v := by
  have h : (resolveWebviewView p webviewView).view.isSome = true := by
    unfold resolveWebviewView updateWebview
    exact sendToWebview_view_isSome _ _ rfl
  exact Option.isSome_iff_exists.1 (handleMessages_view_isSome _ calls h)

/-- Were `createTask` run on a provider without a view (the state the
constructor leaves, in which the handler that calls `createTask` is not yet
registered), it would set the task and post no `taskCreated` message. -/
theorem createTask_without_view :
    (createTask BecaProvider.initial 1700000000000 (utf16 "2023-11-14T22:13:20.000Z")
      (utf16 "fix the bug")).currentTask =
      some (newTask 1700000000000 (utf16 "2023-11-14T22:13:20.000Z") (utf16 "fix the bug")) ∧
    (createTask BecaProvider.initial 1700000000000 (utf16 "2023-11-14T22:13:20.000Z")
      (utf16 "fix the bug")).view = none ∧
    (createTask BecaProvider.initial 1700000000000 (utf16 "2023-11-14T22:13:20.000Z")
      (utf16 "fix the bug")).posted = [] := by
  refine ⟨rfl, rfl, rfl⟩

/-- C17: `createTask`, in a state in which it is called (a view is attached,
see `handleMessages_view_attached`), sets the current task to one with status
`active`, the first 100 code units of the request as title and the five steps
with ids 1 to 5 in order, step 1 `in-progress` and steps 2 to 5 `pending`, and
posts exactly one message more to the view, `taskCreated` with that task; the
conversation is unchanged. -/
theorem createTask_with_view (p : BecaProvider) (v : WebviewView) (now : Nat)
    (createdAt userRequest : JString) (hv : p.view = some v) :
    ∃ task, (createTask p now createdAt userRequest).currentTask = some task ∧
      task.status = TaskStatus.active ∧
      task.title = userRequest.take 100 ∧
      task.steps.map (fun s => (s.id, s.status)) =
        [(1, StepStatus.inProgress), (2, StepStatus.pending), (3, StepStatus.pending),
          (4, StepStatus.pending), (5, StepStatus.pending)] ∧
      (createTask p now createdAt userRequest).view =
        some ⟨v.posted ++ [WebviewMessage.taskCreated task]⟩ ∧
      (createTask p now createdAt userRequest).conversationHistory =
        p.conversationHistory := by
  refine ⟨newTask now createdAt userRequest, ?_, rfl, rfl, rfl, ?_, ?_⟩
  · simp [createTask, sendToWebview_currentTask]
  · simp [createTask, sendToWebview, hv]
  · simp [createTask, sendToWebview_conversationHistory]

/-- C17, at a provider with a view to which nothing was posted yet and the
request `fix the bug`. -/
theorem createTask_with_view_witness :
    ∃ task, (createTask ⟨some ⟨[]⟩, [], none⟩ 1700000000000
        (utf16 "2023-11-14T22:13:20.000Z") (utf16 "fix the bug")).currentTask = some task ∧
      task.status = TaskStatus.active ∧
      task.title = (utf16 "fix the bug").take 100 ∧
      task.steps.map (fun s => (s.id, s.status)) =
        [(1, StepStatus.inProgress), (2, StepStatus.pending), (3, StepStatus.pending),
          (4, StepStatus.pending), (5, StepStatus.pending)] ∧
      (createTask ⟨some ⟨[]⟩, [], none⟩ 1700000000000
        (utf16 "2023-11-14T22:13:20.000Z") (utf16 "fix the bug")).view =
        some ⟨([] : List WebviewMessage) ++ [WebviewMessage.taskCreated task]⟩ ∧
      (createTask ⟨some ⟨[]⟩, [], none⟩ 1700000000000
        (utf16 "2023-11-14T22:13:20.000Z") (utf16 "fix the bug")).conversationHistory = [] :=
  createTask_with_view ⟨some ⟨[]⟩, [], none⟩ ⟨[]⟩ 1700000000000
    (utf16 "2023-11-14T22:13:20.000Z") (utf16 "fix the bug") rfl

/-- C18: with a current task present, the step of `handleUserMessage` that
creates the task leaves the provider as it is: the task, with its id and
steps, is the same, and nothing is posted to the view. -/
theorem ensureTask_idempotent (p : BecaProvider) (task : Task) (now : Nat)
    (createdAt userMessage : JString) (ht : p.currentTask = some task) :
    ensureTask p now createdAt userMessage = p ∧
    (ensureTask p now createdAt userMessage).currentTask = some task ∧
    (ensureTask p now createdAt userMessage).posted = p.posted := by
  have h : ensureTask p now createdAt userMessage = p := by simp [ensureTask, ht]
  rw [h]
  exact ⟨rfl, ht, rfl⟩

/-- C18, at the provider whose task is at step 3. -/
theorem ensureTask_idempotent_witness :
    ensureTask providerAtStep3 1700000000000 (utf16 "2023-11-14T22:13:20.000Z")
        (utf16 "and now the tests") = providerAtStep3 ∧
    (ensureTask providerAtStep3 1700000000000 (utf16 "2023-11-14T22:13:20.000Z")
        (utf16 "and now the tests")).currentTask = providerAtStep3.currentTask ∧
    (ensureTask providerAtStep3 1700000000000 (utf16 "2023-11-14T22:13:20.000Z")
        (utf16 "and now the tests")).posted = providerAtStep3.posted :=
  ensureTask_idempotent providerAtStep3 _ 1700000000000 (utf16 "2023-11-14T22:13:20.000Z")
    (utf16 "and now the tests") rfl

/-- C19: `updateTaskProgress` changes nothing of the current task but step
statuses: the id, title, creation time and status of the task are the same
after as before, and so are the number of steps, their order, their ids and
their titles. -/
theorem updateTaskProgress_frame (p : BecaProvider) (task : Task) (responseContent : JString)
    (ht : p.currentTask = some task) :
    ∃ task1, (updateTaskProgress p responseContent).currentTask = some task1 ∧
      task1.id = task.id ∧ task1.title = task.title ∧ task1.createdAt = task.createdAt ∧
      task1.status = task.status ∧ task1.steps.length = task.steps.length ∧
      task1.steps.map (fun s => s.id) = task.steps.map (fun s => s.id) ∧
      task1.steps.map (fun s => s.title) = task.steps.map (fun s => s.title) := by
  have h := updateTaskSteps_frame p (progressCalls (toLowerCase responseContent))
  rw [← updateTaskProgress_eq_steps, ht] at h
  cases h1 : (updateTaskProgress p responseContent).currentTask with
  | none => simp [h1] at h
  | some task1 =>
    simp only [h1, Option.map_some', Option.some.injEq, Task.frame, Prod.mk.injEq] at h
    obtain ⟨hid, htitle, hcreated, hstatus, hsteps⟩ := h
    refine ⟨task1, rfl, hid, htitle, hcreated, hstatus, ?_, ?_, ?_⟩
    · have := congrArg List.length hsteps
      simpa using this
    · have := congrArg (List.map Prod.fst) hsteps
      simpa [List.map_map, Function.comp_def] using this
    · have := congrArg (List.map Prod.snd) hsteps
      simpa [List.map_map, Function.comp_def] using this

/-- C19, at the provider whose task is at step 3 and a response that matches
two rules. -/
theorem updateTaskProgress_frame_witness :
    ∃ task1, (updateTaskProgress providerAtStep3
        (utf16 "Creating the file, then testing")).currentTask = some task1 ∧
      task1.id = utf16 "1" ∧ task1.title = utf16 "fix it" ∧
      task1.createdAt = utf16 "2024-01-01T00:00:00.000Z" ∧
      task1.status = TaskStatus.active ∧ task1.steps.length = 5 ∧
      task1.steps.map (fun s => s.id) = [1, 2, 3, 4, 5] ∧
      task1.steps.map (fun s => s.title) =
        [utf16 "Analyze requirements", utf16 "Explore codebase",
          utf16 "Make necessary changes", utf16 "Test changes",
          utf16 "Summarize and provide next steps"] :=
  updateTaskProgress_frame providerAtStep3 _ (utf16 "Creating the file, then testing") rfl

/-- C20 as stated fails: for the task with steps 1 and 2 completed and step 3
in progress, the response `Analyzing and exploring` leaves every step's
status as it was (step 2 goes to `in-progress` and back to `completed`), and
two `taskUpdated` messages are posted. -/
theorem updateTaskProgress_round_trip :
    (updateTaskProgress providerAtStep3 (utf16 "Analyzing and exploring")).currentTask =
      some taskAtStep3 ∧
    (updateTaskProgress providerAtStep3 (utf16 "Analyzing and exploring")).posted =
      [WebviewMessage.taskUpdated
          { taskAtStep3 with
            steps := setStepStatus 2 StepStatus.inProgress taskAtStep3.steps },
        WebviewMessage.taskUpdated taskAtStep3] := by
  constructor <;> decide

/-- C20, amended: if none of the `updateTaskStep` calls that
`updateTaskProgress` makes changes the status of its step (the task is the
same after each call), then `updateTaskProgress` posts nothing: the provider,
its view included, is as before. -/
theorem updateTaskProgress_no_change (p : BecaProvider) (responseContent : JString)
    (h : ∀ t ∈ taskTrace p (progressCalls (toLowerCase responseContent)),
      t = p.currentTask) :
    updateTaskProgress p responseContent = p ∧
    (updateTaskProgress p responseContent).posted = p.posted := by
  have e : updateTaskProgress p responseContent = p := by
    rw [updateTaskProgress_eq_steps]
    exact updateTaskSteps_eq_self p _ h
  rw [e]
  exact ⟨rfl, rfl⟩

/-- C20, amended, at the task with step 1 completed and step 2 in progress
and the response `Still analyzing`, whose rule finds both steps as it sets
them. -/
theorem updateTaskProgress_no_change_witness :
    updateTaskProgress providerAtStep2 (utf16 "Still analyzing") = providerAtStep2 ∧
    (updateTaskProgress providerAtStep2 (utf16 "Still analyzing")).posted =
      providerAtStep2.posted :=
  updateTaskProgress_no_change providerAtStep2 (utf16 "Still analyzing") (by decide)

/-! ## Facts about the hover cache -/

theorem provideHoverStart_returned (cache : HoverCache) (now : Nat) (q : HoverQuery)
    (hover : Hover) (h : provideHoverStart cache now q = HoverStart.returned (some hover)) :
    ∃ entry, cache.get q.cacheKey = some entry ∧ entry.hover = hover ∧
      (now : Int) - (entry.timestamp : Int) < 300000 := by
  unfold provideHoverStart at h
  split at h
  · simp at h
  · split at h
    · simp at h
    · split at h
      · rename_i cached hc
        split at h
        · rename_i hfresh
          simp only [HoverStart.returned.injEq, Option.some.injEq] at h
          exact ⟨cached, hc, h, hfresh⟩
        · simp at h
      · simp at h

theorem provideHoverStart_awaiting_iff (cache : HoverCache) (now : Nat) (q : HoverQuery) :
    (∃ cacheKey wordRange, provideHoverStart cache now q =
        HoverStart.awaiting cacheKey wordRange) ↔
      (q.wordRange ≠ none ∧ 3 ≤ q.word.length ∧
        ∀ entry, cache.get q.cacheKey = some entry →
          (300000 : Int) ≤ (now : Int) - (entry.timestamp : Int)) := by
  unfold provideHoverStart
  cases hr : q.wordRange with
  | none => simp
  | some wordRange =>
    by_cases hw : q.word = [] ∨ q.word.length < 3
    · simp only [hw, if_true]
      have : ¬ 3 ≤ q.word.length := by
        rcases hw with hw | hw
        · simp [hw]
        · omega
      simp [this]
    · have h3 : 3 ≤ q.word.length := by
        by_contra hlt
        exact hw (Or.inr (by omega))
      simp only [hw, if_false]
      cases hc : cache.get q.cacheKey with
      | none => simp [h3]
      | some cached =>
        by_cases hfresh : (now : Int) - (cached.timestamp : Int) < 300000
        · simp only [hfresh, if_true]
          constructor
          · rintro ⟨_, _, h⟩
            simp at h
          · rintro ⟨_, _, h⟩
            have := h cached rfl
            omega
        · simp only [hfresh, if_false]
          constructor
          · intro _
            refine ⟨by simp, h3, ?_⟩
            intro entry he
            simp only [Option.some.injEq] at he
            subst he
            omega
          · intro _
            exact ⟨_, _, rfl⟩

theorem provideHover_backendCalled_iff (cache : HoverCache) (now : Nat) (q : HoverQuery)
    (reply : BackendReply) (storeTime : Nat) :
    (provideHover cache now q reply storeTime).backendCalled = true ↔
      ∃ cacheKey wordRange, provideHoverStart cache now q =
        HoverStart.awaiting cacheKey wordRange := by
  unfold provideHover
  cases h : provideHoverStart cache now q with
  | returned hover => simp
  | awaiting cacheKey wordRange => simp

/-! ## Claims on `provideHover` -/

/-- C14: when `provideHover` returns a hover without calling the backend, the
hover is that of the cache entry of the key, and `now - timestamp < 300000`
for that entry; when the entry of the key has `now - timestamp ≥ 300000`, the
call does not return from the cache: it returns `null` before the lookup (no
word, or a word of fewer than 3 code units) or calls the backend. -/
theorem provideHover_cached_is_fresh (cache : HoverCache) (now : Nat) (q : HoverQuery)
    (reply : BackendReply) (storeTime : Nat) :
    (∀ hover, (provideHover cache now q reply storeTime).backendCalled = false →
      (provideHover cache now q reply storeTime).hover = some hover →
      ∃ entry, cache.get q.cacheKey = some entry ∧ entry.hover = hover ∧
        (now : Int) - (entry.timestamp : Int) < 300000) ∧
    (∀ entry, cache.get q.cacheKey = some entry →
      (300000 : Int) ≤ (now : Int) - (entry.timestamp : Int) →
      provideHoverStart cache now q = HoverStart.returned none ∨
        (provideHover cache now q reply storeTime).backendCalled = true) := by
  constructor
  · intro hover hb hh
    unfold provideHover at hb hh
    cases h : provideHoverStart cache now q with
    | returned hv =>
      simp only [h] at hh
      subst hh
      exact provideHoverStart_returned cache now q hover h
    | awaiting cacheKey wordRange => simp [h] at hb
  · intro entry he hstale
    cases h : provideHoverStart cache now q with
    | returned hv =>
      cases hv with
      | none => exact Or.inl rfl
      | some hover =>
        obtain ⟨e, he2, -, hfresh⟩ := provideHoverStart_returned cache now q hover h
        rw [he] at he2
        simp only [Option.some.injEq] at he2
        subst he2
        omega
    | awaiting cacheKey wordRange =>
      exact Or.inr ((provideHover_backendCalled_iff cache now q reply storeTime).2 ⟨_, _, h⟩)

/-- C14, at a cache whose entry for the key is 299999 ms old, which is
returned. -/
theorem provideHover_cached_is_fresh_witness :
    (provideHover ⟨[(countQuery.cacheKey, ⟨⟨utf16 "a counter", true, true, ⟨0, 4, 0, 9⟩⟩, 1000⟩)]⟩
      300999 countQuery BackendReply.threw 301000).backendCalled = false ∧
    (provideHover ⟨[(countQuery.cacheKey, ⟨⟨utf16 "a counter", true, true, ⟨0, 4, 0, 9⟩⟩, 1000⟩)]⟩
      300999 countQuery BackendReply.threw 301000).hover =
      some ⟨utf16 "a counter", true, true, ⟨0, 4, 0, 9⟩⟩ ∧
    ∃ entry, HoverCache.get
        ⟨[(countQuery.cacheKey, ⟨⟨utf16 "a counter", true, true, ⟨0, 4, 0, 9⟩⟩, 1000⟩)]⟩
        countQuery.cacheKey = some entry ∧
      entry.hover = ⟨utf16 "a counter", true, true, ⟨0, 4, 0, 9⟩⟩ ∧
      ((300999 : Nat) : Int) - (entry.timestamp : Int) < 300000 :=
  ⟨by decide, by decide,
    (provideHover_cached_is_fresh
      ⟨[(countQuery.cacheKey, ⟨⟨utf16 "a counter", true, true, ⟨0, 4, 0, 9⟩⟩, 1000⟩)]⟩
      300999 countQuery BackendReply.threw 301000).1
      ⟨utf16 "a counter", true, true, ⟨0, 4, 0, 9⟩⟩ (by decide) (by decide)⟩

theorem provideHoverStart_awaiting_later (cache : HoverCache) (now later : Nat) (q : HoverQuery)
    (hle : now ≤ later)
    (h : ∃ cacheKey wordRange, provideHoverStart cache now q =
      HoverStart.awaiting cacheKey wordRange) :
    ∃ cacheKey wordRange, provideHoverStart cache later q =
      HoverStart.awaiting cacheKey wordRange := by
  rw [provideHoverStart_awaiting_iff] at h ⊢
  obtain ⟨h1, h2, h3⟩ := h
  refine ⟨h1, h2, ?_⟩
  intro entry he
  have := h3 entry he
  omega

theorem HoverSession.call_awaiting (s : HoverSession) (now : Nat) (q : HoverQuery)
    (h : ∃ cacheKey wordRange, provideHoverStart s.cache now q =
      HoverStart.awaiting cacheKey wordRange) :
    (s.call now q).cache = s.cache ∧ (s.call now q).backendCalls = s.backendCalls + 1 ∧
      (s.call now q).outstanding.length = s.outstanding.length + 1 := by
  obtain ⟨cacheKey, wordRange, h⟩ := h
  simp [HoverSession.call, h]

theorem HoverSession.calls_awaiting (s : HoverSession) (now : Nat) (q : HoverQuery)
    (times : List Nat) (hts : ∀ t ∈ times, now ≤ t)
    (h : ∃ cacheKey wordRange, provideHoverStart s.cache now q =
      HoverStart.awaiting cacheKey wordRange) :
    (times.foldl (fun s1 t => s1.call t q) s).cache = s.cache ∧
    (times.foldl (fun s1 t => s1.call t q) s).backendCalls = s.backendCalls + times.length ∧
    (times.foldl (fun s1 t => s1.call t q) s).outstanding.length =
      s.outstanding.length + times.length := by
  induction times generalizing s with
  | nil => simp
  | cons t times ih =>
    have hlater := provideHoverStart_awaiting_later s.cache now t q (hts t (by simp)) h
    obtain ⟨hc, hb, ho⟩ := HoverSession.call_awaiting s t q hlater
    have ih2 := ih (s.call t q) (fun x hx => hts x (by simp [hx])) (by rw [hc]; exact h)
    simp only [List.foldl_cons, List.length_cons]
    refine ⟨by rw [ih2.1, hc], by rw [ih2.2.1, hb]; omega, by rw [ih2.2.2, ho]; omega⟩

theorem BackendReply.text_of_failed (reply : BackendReply)
    (hfail : reply = BackendReply.threw ∨ (∃ response, reply = BackendReply.result false response) ∨
      reply = BackendReply.result true none ∨ reply = BackendReply.result true (some [])) :
    reply.text = none := by
  rcases hfail with h | ⟨r, h⟩ | h | h <;> subst h <;> simp [BackendReply.text]

/-- C15 as stated fails: of two calls for the same key that overlap, the first
succeeds and the second fails, at the time 1600.  The second call returns
`null` and stores nothing, the cache being after it as it was before; and the
next call for the key, at the time 2000, is answered from the entry of the
first call and does not contact the backend. -/
theorem provideHover_failure_after_overlap :
    overlappingCalls.outstanding = [(countQuery.cacheKey, ⟨0, 4, 0, 9⟩)] ∧
    overlappingCalls.backendCalls = 2 ∧
    provideHoverResume overlappingCalls.cache 1600 countQuery.cacheKey ⟨0, 4, 0, 9⟩
      BackendReply.threw = (overlappingCalls.cache, none) ∧
    (overlappingCalls.reply 1600 BackendReply.threw).cache = overlappingCalls.cache ∧
    (overlappingCalls.reply 1600 BackendReply.threw).outstanding = [] ∧
    ((overlappingCalls.reply 1600 BackendReply.threw).call 2000 countQuery).backendCalls = 2 ∧
    (provideHover (overlappingCalls.reply 1600 BackendReply.threw).cache 2000 countQuery
      BackendReply.threw 2100).backendCalled = false ∧
    (provideHover (overlappingCalls.reply 1600 BackendReply.threw).cache 2000 countQuery
      BackendReply.threw 2100).hover =
      some { markdown := utf16 "### 🤖 BECA Insights\n\n" ++ utf16 "a counter"
             isTrusted := true
             supportHtml := true
             range := ⟨0, 4, 0, 9⟩ } := by
  refine ⟨by decide, by decide, by decide, by decide, by decide, by decide, by decide, by decide⟩

/-- C15, amended: when the backend call made by `provideHover` fails (it
throws, or `success` is false, or the response is missing or empty),
`provideHover` returns `null` and leaves the cache as it was, and so does the
part of it that runs after the reply whatever the cache holds by then; the
next `provideHover` for the same query calls the backend again if and only if
the cache then holds no entry for the key younger than the TTL; and it always
does so when it starts from the cache the failed call left, at a time not
before that call. -/
theorem provideHover_failure_not_cached (cache : HoverCache) (now : Nat) (q : HoverQuery)
    (reply : BackendReply) (storeTime : Nat)
    (hcalled : (provideHover cache now q reply storeTime).backendCalled = true)
    (hfail : reply = BackendReply.threw ∨
      (∃ response, reply = BackendReply.result false response) ∨
      reply = BackendReply.result true none ∨ reply = BackendReply.result true (some [])) :
    (provideHover cache now q reply storeTime).hover = none ∧
    (provideHover cache now q reply storeTime).cache = cache ∧
    (∀ (cache2 : HoverCache) (storeTime2 : Nat) (cacheKey : JString) (wordRange : Range),
      provideHoverResume cache2 storeTime2 cacheKey wordRange reply = (cache2, none)) ∧
    (∀ (cache2 : HoverCache) (later : Nat) (reply2 : BackendReply) (storeTime2 : Nat),
      (provideHover cache2 later q reply2 storeTime2).backendCalled = true ↔
        ∀ entry, cache2.get q.cacheKey = some entry →
          (300000 : Int) ≤ (later : Int) - (entry.timestamp : Int)) ∧
    ∀ (later : Nat) (reply2 : BackendReply) (storeTime2 : Nat), now ≤ later →
      (provideHover (provideHover cache now q reply storeTime).cache later q reply2
        storeTime2).backendCalled = true := by
  have htext := BackendReply.text_of_failed reply hfail
  have hstart := (provideHover_backendCalled_iff cache now q reply storeTime).1 hcalled
  have hq := (provideHoverStart_awaiting_iff cache now q).1 hstart
  have hcache : (provideHover cache now q reply storeTime).cache = cache := by
    obtain ⟨cacheKey, wordRange, h⟩ := hstart
    simp [provideHover, h, provideHoverResume, htext]
  refine ⟨?_, hcache, ?_, ?_, ?_⟩
  · obtain ⟨cacheKey, wordRange, h⟩ := hstart
    simp [provideHover, h, provideHoverResume, htext]
  · intro cache2 storeTime2 cacheKey wordRange
    simp [provideHoverResume, htext]
  · intro cache2 later reply2 storeTime2
    rw [provideHover_backendCalled_iff, provideHoverStart_awaiting_iff]
    exact ⟨fun h => h.2.2, fun h => ⟨hq.1, hq.2.1, h⟩⟩
  · intro later reply2 storeTime2 hle
    rw [hcache, provideHover_backendCalled_iff]
    exact provideHoverStart_awaiting_later cache now later q hle hstart

/-- C15, amended, at the empty cache and a backend call that throws: `null`
is returned, the cache is still empty, and a call at the time 1300 calls the
backend again. -/
theorem provideHover_failure_not_cached_witness :
    (provideHover ⟨[]⟩ 1000 countQuery BackendReply.threw 1200).hover = none ∧
    (provideHover ⟨[]⟩ 1000 countQuery BackendReply.threw 1200).cache = ⟨[]⟩ ∧
    (provideHover (provideHover ⟨[]⟩ 1000 countQuery BackendReply.threw 1200).cache 1300
      countQuery (BackendReply.result true (some (utf16 "a counter"))) 1400).backendCalled =
      true :=
  ⟨(provideHover_failure_not_cached ⟨[]⟩ 1000 countQuery BackendReply.threw 1200 (by decide)
      (Or.inl rfl)).1,
   (provideHover_failure_not_cached ⟨[]⟩ 1000 countQuery BackendReply.threw 1200 (by decide)
      (Or.inl rfl)).2.1,
   (provideHover_failure_not_cached ⟨[]⟩ 1000 countQuery BackendReply.threw 1200 (by decide)
      (Or.inl rfl)).2.2.2.2 1300 (BackendReply.result true (some (utf16 "a counter"))) 1400
      (by decide)⟩

/-- C16 as stated fails: with an empty cache, a second `provideHover` for the
same key that arrives while the first awaits the backend starts a second
backend call. -/
theorem provideHover_second_call_in_flight :
    (HoverSession.call ⟨⟨[]⟩, [], 0⟩ 1000 countQuery).outstanding =
      [(countQuery.cacheKey, ⟨0, 4, 0, 9⟩)] ∧
    (HoverSession.call ⟨⟨[]⟩, [], 0⟩ 1000 countQuery).backendCalls = 1 ∧
    ((HoverSession.call ⟨⟨[]⟩, [], 0⟩ 1000 countQuery).call 1001 countQuery).outstanding =
      [(countQuery.cacheKey, ⟨0, 4, 0, 9⟩), (countQuery.cacheKey, ⟨0, 4, 0, 9⟩)] ∧
    ((HoverSession.call ⟨⟨[]⟩, [], 0⟩ 1000 countQuery).call 1001 countQuery).backendCalls = 2 := by
  refine ⟨by decide, by decide, by decide, by decide⟩

/-- C16, amended: `provideHover` keeps no record of the calls in flight.  When
a call for a key starts a backend call at time `now`, every further call for
the same query that arrives before any reply, at a time not before `now`,
starts a backend call of its own: `n` such calls start `n` more backend
calls, and the cache is not touched. -/
theorem provideHover_calls_in_flight (s : HoverSession) (now : Nat) (q : HoverQuery)
    (times : List Nat)
    (hfirst : (s.call now q).backendCalls = s.backendCalls + 1)
    (hts : ∀ t ∈ times, now ≤ t) :
    (times.foldl (fun s1 t => s1.call t q) (s.call now q)).backendCalls =
      s.backendCalls + 1 + times.length ∧
    (times.foldl (fun s1 t => s1.call t q) (s.call now q)).outstanding.length =
      s.outstanding.length + 1 + times.length ∧
    (times.foldl (fun s1 t => s1.call t q) (s.call now q)).cache = s.cache := by
  have hstart : ∃ cacheKey wordRange, provideHoverStart s.cache now q =
      HoverStart.awaiting cacheKey wordRange := by
    cases h : provideHoverStart s.cache now q with
    | returned hover =>
      simp [HoverSession.call, h] at hfirst
    | awaiting cacheKey wordRange => exact ⟨_, _, rfl⟩
  obtain ⟨hc, hb, ho⟩ := HoverSession.call_awaiting s now q hstart
  obtain ⟨h1, h2, h3⟩ := HoverSession.calls_awaiting (s.call now q) now q times hts
    (by rw [hc]; exact hstart)
  exact ⟨by rw [h2, hb], by rw [h3, ho], by rw [h1, hc]⟩

/-- C16, amended, at the empty cache with three calls in the window. -/
theorem provideHover_calls_in_flight_witness :
    ([1001, 1002, 1500].foldl (fun s1 t => HoverSession.call s1 t countQuery)
        (HoverSession.call ⟨⟨[]⟩, [], 0⟩ 1000 countQuery)).backendCalls =
      0 + 1 + [1001, 1002, 1500].length ∧
    ([1001, 1002, 1500].foldl (fun s1 t => HoverSession.call s1 t countQuery)
        (HoverSession.call ⟨⟨[]⟩, [], 0⟩ 1000 countQuery)).outstanding.length =
      ([] : List (JString × Range)).length + 1 + [1001, 1002, 1500].length ∧
    ([1001, 1002, 1500].foldl (fun s1 t => HoverSession.call s1 t countQuery)
        (HoverSession.call ⟨⟨[]⟩, [], 0⟩ 1000 countQuery)).cache = ⟨[]⟩ :=
  provideHover_calls_in_flight ⟨⟨[]⟩, [], 0⟩ 1000 countQuery [1001, 1002, 1500] (by decide)
    (by decide)

/-! ## Claims on the rate limit of `provideCompletionItems` -/

/-- On a new provider `lastRequest` is 0, so the first call is measured against
the time 0: were the clock to read 1000, the call would be refused.  The
clock, `Date.now()`, counts the milliseconds since 1970 and reads far more
than `minDelay`. -/
theorem provideCompletionItems_early_clock :
    rateLimited CompletionProvider.initial 1000 = true ∧
    (provideCompletionItems CompletionProvider.initial 1000 none (utf16 "const x")
      (BackendReply.result true (some (utf16 "```\nx\n```")))).provider =
      CompletionProvider.initial ∧
    rateLimited CompletionProvider.initial 2500 = false ∧
    (provideCompletionItems CompletionProvider.initial 2500 none (utf16 "const x")
      (BackendReply.result true (some (utf16 "```\nx\n```")))).backendCalled = true := by
  refine ⟨by decide, by decide, by decide, by decide⟩

/-- C11: for two calls on a new provider at times `t1 ≤ t2`, readings of
`Date.now()` (milliseconds since 1970, hence `t1 ≥ minDelay`): the first call
passes the rate limit and records `t1`; if `t2 - t1 < minDelay` the second
call is refused, returning the empty list without calling the backend and
without changing the provider; if `t2 - t1 ≥ minDelay` the second call passes
too and records `t2`. -/
theorem provideCompletionItems_rate_limit (t1 t2 : Nat) (configured1 configured2 : Option Nat)
    (linePrefix1 linePrefix2 : JString) (reply1 reply2 : BackendReply)
    (h12 : t1 ≤ t2) (hclock : CompletionProvider.initial.minDelay ≤ t1) :
    rateLimited CompletionProvider.initial t1 = false ∧
    (provideCompletionItems CompletionProvider.initial t1 configured1 linePrefix1
      reply1).provider = ⟨t1, 2000⟩ ∧
    (t2 - t1 < 2000 →
      rateLimited ⟨t1, 2000⟩ t2 = true ∧
      provideCompletionItems ⟨t1, 2000⟩ t2 configured2 linePrefix2 reply2 =
        ⟨⟨t1, 2000⟩, [], false⟩) ∧
    (2000 ≤ t2 - t1 →
      rateLimited ⟨t1, 2000⟩ t2 = false ∧
      (provideCompletionItems ⟨t1, 2000⟩ t2 configured2 linePrefix2 reply2).provider =
        ⟨t2, 2000⟩) := by
  have hc : 2000 ≤ t1 := hclock
  have passes : ∀ (p : CompletionProvider) (now : Nat) (configured : Option Nat)
      (linePrefix : JString) (reply : BackendReply), rateLimited p now = false →
      (provideCompletionItems p now configured linePrefix reply).provider =
        ⟨now, p.minDelay⟩ := by
    intro p now configured linePrefix reply h
    simp only [provideCompletionItems, h, Bool.false_eq_true, if_false]
    split
    · rfl
    · cases reply.text <;> rfl
  have h1 : rateLimited CompletionProvider.initial t1 = false := by
    simp only [rateLimited, CompletionProvider.initial, decide_eq_false_iff_not]
    omega
  refine ⟨h1, passes _ _ _ _ _ h1, ?_, ?_⟩
  · intro hlt
    have h2 : rateLimited ⟨t1, 2000⟩ t2 = true := by
      simp only [rateLimited, decide_eq_true_eq]
      omega
    exact ⟨h2, by simp [provideCompletionItems, h2]⟩
  · intro hge
    have h2 : rateLimited ⟨t1, 2000⟩ t2 = false := by
      simp only [rateLimited, decide_eq_false_iff_not]
      omega
    exact ⟨h2, passes _ _ _ _ _ h2⟩

/-- C11, at a first call at the time 1700000000000: a second call 1999 ms
later is refused and does not reach the backend, a second call 2000 ms later
passes and is recorded. -/
theorem provideCompletionItems_rate_limit_witness :
    rateLimited CompletionProvider.initial 1700000000000 = false ∧
    (provideCompletionItems CompletionProvider.initial 1700000000000 none (utf16 "const x")
      BackendReply.threw).provider = ⟨1700000000000, 2000⟩ ∧
    provideCompletionItems ⟨1700000000000, 2000⟩ 1700000001999 none (utf16 "const xy")
      (BackendReply.result true (some (utf16 "```\nx\n```"))) =
      ⟨⟨1700000000000, 2000⟩, [], false⟩ ∧
    rateLimited ⟨1700000000000, 2000⟩ 1700000002000 = false ∧
    (provideCompletionItems ⟨1700000000000, 2000⟩ 1700000002000 none (utf16 "const xy")
      (BackendReply.result true (some (utf16 "```\nx\n```")))).provider =
      ⟨1700000002000, 2000⟩ :=
  ⟨(provideCompletionItems_rate_limit 1700000000000 1700000001999 none none (utf16 "const x")
      (utf16 "const xy") BackendReply.threw
      (BackendReply.result true (some (utf16 "```\nx\n```"))) (by decide) (by decide)).1,
   (provideCompletionItems_rate_limit 1700000000000 1700000001999 none none (utf16 "const x")
      (utf16 "const xy") BackendReply.threw
      (BackendReply.result true (some (utf16 "```\nx\n```"))) (by decide) (by decide)).2.1,
   ((provideCompletionItems_rate_limit 1700000000000 1700000001999 none none (utf16 "const x")
      (utf16 "const xy") BackendReply.threw
      (BackendReply.result true (some (utf16 "```\nx\n```"))) (by decide)
      (by decide)).2.2.1 (by decide)).2,
   ((provideCompletionItems_rate_limit 1700000000000 1700000002000 none none (utf16 "const x")
      (utf16 "const xy") BackendReply.threw
      (BackendReply.result true (some (utf16 "```\nx\n```"))) (by decide)
      (by decide)).2.2.2 (by decide)).1,
   ((provideCompletionItems_rate_limit 1700000000000 1700000002000 none none (utf16 "const x")
      (utf16 "const xy") BackendReply.threw
      (BackendReply.result true (some (utf16 "```\nx\n```"))) (by decide)
      (by decide)).2.2.2 (by decide)).2⟩

/-! ## Facts about the debounce of `scheduleAnalysis` -/

theorem Debounced.cons (record : ScheduleRecord) (log : List ScheduleRecord)
    (h : Debounced log)
    (hr : ∀ time documents, record = ScheduleRecord.dispatched time documents →
      ∀ s, ScheduleRecord.called s true ∈ log → s + 3000 ≤ time) :
    Debounced (record :: log) := by
  intro newer time documents older heq s hs
  cases newer with
  | nil =>
    simp only [List.nil_append, List.cons.injEq] at heq
    obtain ⟨h1, h2⟩ := heq
    subst h2
    exact hr time documents h1 s hs
  | cons x newer =>
    simp only [List.cons_append, List.cons.injEq] at heq
    exact h newer time documents older heq.2 s hs

theorem HostInvariant.initial : HostInvariant Host.initial :=
  { live := by simp [Host.initial]
    past := by simp [Host.initial]
    debounced := by
      intro newer time documents older heq
      simp [Host.initial] at heq }

theorem HostInvariant.scheduleAnalysis (h : Host) (document : OpenDocument)
    (inv : HostInvariant h) : HostInvariant (scheduleAnalysis h document) := by
  unfold Beca.scheduleAnalysis
  split
  · refine ⟨?_, ?_, ?_⟩
    · intro timer ht
      refine ⟨(inv.live timer ht).1, ?_⟩
      intro s hs
      simp only [List.mem_cons, ScheduleRecord.called.injEq, Bool.true_eq_false, and_false,
        false_or] at hs
      exact (inv.live timer ht).2 s hs
    · intro s b hs
      simp only [List.mem_cons, ScheduleRecord.called.injEq] at hs
      rcases hs with ⟨h1, _⟩ | hs
      · exact Nat.le_of_eq h1
      · exact inv.past s b hs
    · exact Debounced.cons _ _ inv.debounced (by intro time documents h1; simp at h1)
  · have hcleared : (match h.provider.analysisTimeout with
        | some handle => clearTimeout h.timers handle
        | none => h.timers) = [] := by
      cases ha : h.provider.analysisTimeout with
      | none =>
        cases ht : h.timers with
        | nil => rfl
        | cons timer timers =>
          have := (inv.live timer (by simp [ht])).1
          simp [ha] at this
      | some handle =>
        simp only [clearTimeout, List.filter_eq_nil_iff]
        intro timer ht
        have := (inv.live timer ht).1
        simp only [ha, Option.some.injEq] at this
        simp [this]
    refine ⟨?_, ?_, ?_⟩
    · intro timer ht
      simp only [hcleared, List.nil_append, List.mem_singleton] at ht
      subst ht
      refine ⟨rfl, ?_⟩
      intro s hs
      simp only [List.mem_cons, ScheduleRecord.called.injEq, and_true] at hs
      rcases hs with h1 | hs
      · simp only; omega
      · have := inv.past s true hs
        simp only; omega
    · intro s b hs
      simp only [List.mem_cons, ScheduleRecord.called.injEq] at hs
      rcases hs with ⟨h1, _⟩ | hs
      · exact Nat.le_of_eq h1
      · exact inv.past s b hs
    · exact Debounced.cons _ _ inv.debounced (by intro time documents h1; simp at h1)

theorem fireTimers_invariant (textDocuments : List OpenDocument) (h : Host)
    (inv : HostInvariant h) (due : List Timer) (hdue : ∀ timer ∈ due, timer ∈ h.timers)
    (g : Host) (hg1 : g.provider.analysisTimeout = h.provider.analysisTimeout)
    (hg2 : ∀ s b, ScheduleRecord.called s b ∈ g.log ↔ ScheduleRecord.called s b ∈ h.log)
    (hg3 : Debounced g.log) :
    (due.foldl (fireTimer textDocuments) g).provider.analysisTimeout =
        h.provider.analysisTimeout ∧
    (∀ s b, ScheduleRecord.called s b ∈ (due.foldl (fireTimer textDocuments) g).log ↔
        ScheduleRecord.called s b ∈ h.log) ∧
    Debounced (due.foldl (fireTimer textDocuments) g).log ∧
    (due.foldl (fireTimer textDocuments) g).timers = g.timers := by
  induction due generalizing g with
  | nil => exact ⟨hg1, hg2, hg3, rfl⟩
  | cons timer due ih =>
    have ht := hdue timer (by simp)
    have step := ih (fun x hx => hdue x (by simp [hx])) (fireTimer textDocuments g timer)
      (by simpa [fireTimer, analyzePendingDocuments] using hg1)
      (by
        intro s b
        simp only [fireTimer, List.mem_cons, reduceCtorEq, false_or]
        exact hg2 s b)
      (by
        apply Debounced.cons _ _ hg3
        intro time documents h1 s hs
        simp only [ScheduleRecord.dispatched.injEq] at h1
        have := (inv.live timer ht).2 s ((hg2 s true).1 hs)
        omega)
    simpa [fireTimer] using step

theorem HostInvariant.elapse (textDocuments : List OpenDocument) (h : Host) (t : Nat)
    (inv : HostInvariant h) : HostInvariant (elapse textDocuments h t) := by
  obtain ⟨h1, h2, h3, h4⟩ := fireTimers_invariant textDocuments h inv
    (h.timers.filter (fun timer => timer.deadline ≤ t))
    (fun timer ht => (List.mem_filter.1 ht).1)
    { h with timers := h.timers.filter (fun timer => ¬ timer.deadline ≤ t) }
    rfl (fun s b => Iff.rfl) inv.debounced
  refine ⟨?_, ?_, ?_⟩
  · intro timer ht
    simp only [Beca.elapse] at ht
    rw [h4] at ht
    have hmem : timer ∈ h.timers := (List.mem_filter.1 ht).1
    refine ⟨?_, ?_⟩
    · simp only [Beca.elapse]
      rw [h1]
      exact (inv.live timer hmem).1
    · intro s hs
      simp only [Beca.elapse] at hs
      exact (inv.live timer hmem).2 s ((h2 s true).1 hs)
  · intro s b hs
    simp only [Beca.elapse] at hs ⊢
    have := inv.past s b ((h2 s b).1 hs)
    omega
  · simpa [Beca.elapse] using h3

theorem HostInvariant.run (textDocuments : List OpenDocument) (h : Host)
    (events : List HostEvent) (inv : HostInvariant h) :
    HostInvariant (Host.run textDocuments h events) := by
  induction events generalizing h with
  | nil => exact inv
  | cons event events ih =>
    simp only [Host.run, List.foldl_cons] at ih ⊢
    apply ih
    cases event with
    | elapse t => exact HostInvariant.elapse textDocuments h t inv
    | schedule document => exact HostInvariant.scheduleAnalysis h document inv

theorem elapse_idle (textDocuments : List OpenDocument) (h : Host) (t : Nat)
    (hidle : ∀ timer ∈ h.timers, t < timer.deadline) :
    elapse textDocuments h t = { h with now := max h.now t } := by
  have h1 : h.timers.filter (fun timer => decide (timer.deadline ≤ t)) = [] := by
    simp only [List.filter_eq_nil_iff, decide_eq_true_eq]
    intro timer ht
    have := hidle timer ht
    omega
  have h2 : h.timers.filter (fun timer => decide (¬ timer.deadline ≤ t)) = h.timers := by
    simp only [List.filter_eq_self, decide_eq_true_eq]
    intro timer ht
    have := hidle timer ht
    omega
  simpa [elapse, h1, h2] using hidle

theorem Armed.first (textDocuments : List OpenDocument) (h : Host) (t : Nat)
    (document : OpenDocument) (hfile : document.scheme = utf16 "file")
    (hsaved : document.isDirty = false) (htimers : h.timers = [])
    (hquiet : dispatchTimes h.log = []) :
    Armed (scheduleAnalysis (elapse textDocuments h t) document) (max h.now t) := by
  rw [elapse_idle textDocuments h t (by simp [htimers])]
  refine ⟨⟨h.nextTimer, ?_, ?_⟩, ?_, ?_⟩
  · cases ha : h.provider.analysisTimeout <;>
      simp [scheduleAnalysis, hfile, hsaved, htimers, ha, clearTimeout]
  · simp [scheduleAnalysis, hfile, hsaved]
  · simp [scheduleAnalysis, hfile, hsaved]
  · simp [scheduleAnalysis, hfile, hsaved, dispatchTimes, hquiet]

theorem Armed.again (textDocuments : List OpenDocument) (h : Host) (t t2 : Nat)
    (document : OpenDocument) (hfile : document.scheme = utf16 "file")
    (hsaved : document.isDirty = false) (armed : Armed h t) (hle : t ≤ t2)
    (hlt : t2 < t + 3000) :
    Armed (scheduleAnalysis (elapse textDocuments h t2) document) t2 := by
  obtain ⟨id, htimers, hhandle⟩ := armed.timer
  rw [elapse_idle textDocuments h t2 (by simp [htimers]; omega)]
  have hnow : max h.now t2 = t2 := by rw [armed.now]; omega
  refine ⟨⟨h.nextTimer, ?_, ?_⟩, ?_, ?_⟩
  · simp [scheduleAnalysis, hfile, hsaved, htimers, hhandle, clearTimeout, hnow]
  · simp [scheduleAnalysis, hfile, hsaved]
  · simp [scheduleAnalysis, hfile, hsaved, hnow]
  · simp [scheduleAnalysis, hfile, hsaved, dispatchTimes, armed.quiet]

theorem Armed.dispatch (textDocuments : List OpenDocument) (h : Host) (t horizon : Nat)
    (armed : Armed h t) :
    dispatchTimes (elapse textDocuments h horizon).log =
      if t + 3000 ≤ horizon then [t + 3000] else [] := by
  obtain ⟨id, htimers, hhandle⟩ := armed.timer
  by_cases hdue : t + 3000 ≤ horizon
  · simp [elapse, htimers, hdue, fireTimer, dispatchTimes, armed.quiet]
  · rw [elapse_idle textDocuments h horizon (by simp [htimers]; omega)]
    simp [hdue, armed.quiet]

/-! ## Claims on the scheduling of the analysis -/

/-- C12 as stated fails in its general part: a saved file is scheduled at
time 0 and a file with unsaved changes at time 2000; the second call returns
at its guard, and the dispatch comes at time 3000, which is 1000 ms after the
most recent call of `scheduleAnalysis`. -/
theorem scheduleAnalysis_dirty_call :
    (Host.run [savedFile, dirtyFile] Host.initial
      [HostEvent.schedule savedFile, HostEvent.elapse 2000, HostEvent.schedule dirtyFile,
        HostEvent.elapse 3000]).log =
      [ScheduleRecord.dispatched 3000 [savedFile], ScheduleRecord.called 2000 false,
        ScheduleRecord.called 0 true] ∧
    3000 < 2000 + 3000 := by
  constructor <;> decide

/-- C12, amended: three calls of `scheduleAnalysis` for saved files at times
`t1 ≤ t2 ≤ t3` with `t3 - t1 < 3000`, on a new provider and with no other
call, lead to exactly one call of `analyzePendingDocuments`, at time
`t3 + 3000` (none before the clock reaches it); and in every run, a call of
`analyzePendingDocuments` comes no sooner than 3000 ms after each earlier
call of `scheduleAnalysis` that passed the guard, the most recent of them
included. -/
theorem scheduleAnalysis_debounce (textDocuments : List OpenDocument)
    (d1 d2 d3 : OpenDocument) (t1 t2 t3 horizon : Nat)
    (hfile1 : d1.scheme = utf16 "file") (hsaved1 : d1.isDirty = false)
    (hfile2 : d2.scheme = utf16 "file") (hsaved2 : d2.isDirty = false)
    (hfile3 : d3.scheme = utf16 "file") (hsaved3 : d3.isDirty = false)
    (h12 : t1 ≤ t2) (h23 : t2 ≤ t3) (hwindow : t3 - t1 < 3000) :
    dispatchTimes (Host.run textDocuments Host.initial
      [HostEvent.elapse t1, HostEvent.schedule d1, HostEvent.elapse t2, HostEvent.schedule d2,
        HostEvent.elapse t3, HostEvent.schedule d3, HostEvent.elapse horizon]).log =
      (if t3 + 3000 ≤ horizon then [t3 + 3000] else []) ∧
    ∀ (events : List HostEvent) (newer : List ScheduleRecord) (time : Nat)
      (documents : List OpenDocument) (older : List ScheduleRecord),
      (Host.run textDocuments Host.initial events).log =
        newer ++ ScheduleRecord.dispatched time documents :: older →
      ∀ s, ScheduleRecord.called s true ∈ older → s + 3000 ≤ time := by
  constructor
  · have a1 := Armed.first textDocuments Host.initial t1 d1 hfile1 hsaved1 rfl rfl
    have e1 : max Host.initial.now t1 = t1 := by simp [Host.initial]
    rw [e1] at a1
    have a2 := Armed.again textDocuments _ t1 t2 d2 hfile2 hsaved2 a1 h12 (by omega)
    have a3 := Armed.again textDocuments _ t2 t3 d3 hfile3 hsaved3 a2 h23 (by omega)
    exact Armed.dispatch textDocuments _ t3 horizon a3
  · intro events newer time documents older heq s hs
    exact (HostInvariant.run textDocuments Host.initial events HostInvariant.initial).debounced
      newer time documents older heq s hs

/-- C12, amended, at the times 100, 1000 and 2900 and the horizon 10000. -/
theorem scheduleAnalysis_debounce_witness :
    dispatchTimes (Host.run [savedFile, otherFile] Host.initial
      [HostEvent.elapse 100, HostEvent.schedule savedFile, HostEvent.elapse 1000,
        HostEvent.schedule otherFile, HostEvent.elapse 2900, HostEvent.schedule savedFile,
        HostEvent.elapse 10000]).log =
      (if 2900 + 3000 ≤ 10000 then [2900 + 3000] else []) ∧
    ∀ (events : List HostEvent) (newer : List ScheduleRecord) (time : Nat)
      (documents : List OpenDocument) (older : List ScheduleRecord),
      (Host.run [savedFile, otherFile] Host.initial events).log =
        newer ++ ScheduleRecord.dispatched time documents :: older →
      ∀ s, ScheduleRecord.called s true ∈ older → s + 3000 ≤ time :=
  scheduleAnalysis_debounce [savedFile, otherFile] savedFile otherFile savedFile 100 1000 2900
    10000 (by decide) (by decide) (by decide) (by decide) (by decide) (by decide) (by decide)
    (by decide) (by decide)

theorem setAdd_nodup (pending : List JString) (uri : JString) (h : pending.Nodup) :
    (setAdd pending uri).Nodup := by
  unfold setAdd
  split
  · exact h
  · rename_i hmem
    rw [List.nodup_append]
    refine ⟨h, List.nodup_singleton uri, ?_⟩
    intro a ha hb
    simp only [List.mem_singleton] at hb
    subst hb
    exact hmem ha

theorem mem_setAdd (pending : List JString) (uri x : JString) :
    x ∈ setAdd pending uri ↔ x ∈ pending ∨ x = uri := by
  unfold setAdd
  split
  · rename_i hmem
    constructor
    · exact Or.inl
    · rintro (h | h)
      · exact h
      · subst h; exact hmem
  · simp

theorem scheduleCalls_pending (h : Host) (calls : List (Nat × OpenDocument))
    (hn : h.provider.pendingDocuments.Nodup) :
    (scheduleCalls h calls).provider.pendingDocuments.Nodup ∧
    ∀ uri, uri ∈ (scheduleCalls h calls).provider.pendingDocuments ↔
      uri ∈ h.provider.pendingDocuments ∨
      ∃ call ∈ calls, call.2.scheme = utf16 "file" ∧ call.2.isDirty = false ∧
        call.2.uri = uri := by
  induction calls generalizing h with
  | nil => simp [scheduleCalls, hn]
  | cons call calls ih =>
    simp only [scheduleCalls, List.foldl_cons] at ih ⊢
    by_cases hg : call.2.scheme ≠ utf16 "file" ∨ call.2.isDirty = true
    · have e : (scheduleAnalysis { h with now := call.1 } call.2).provider = h.provider := by
        simp [scheduleAnalysis, hg]
      obtain ⟨ih1, ih2⟩ := ih (scheduleAnalysis { h with now := call.1 } call.2)
        (by rw [e]; exact hn)
      refine ⟨ih1, ?_⟩
      intro uri
      rw [ih2 uri, e]
      constructor
      · rintro (h1 | ⟨c, hc, h2⟩)
        · exact Or.inl h1
        · exact Or.inr ⟨c, by simp [hc], h2⟩
      · rintro (h1 | ⟨c, hc, h2, h3, h4⟩)
        · exact Or.inl h1
        · rcases List.mem_cons.1 hc with rfl | hc
          · rcases hg with hg | hg
            · exact absurd h2 hg
            · rw [h3] at hg; exact absurd hg (by simp)
          · exact Or.inr ⟨c, hc, h2, h3, h4⟩
    · have hfile : call.2.scheme = utf16 "file" := by
        by_contra hne; exact hg (Or.inl hne)
      have hsaved : call.2.isDirty = false := by
        cases hd : call.2.isDirty with
        | false => rfl
        | true => exact absurd (Or.inr hd) hg
      have e : (scheduleAnalysis { h with now := call.1 } call.2).provider.pendingDocuments =
          setAdd h.provider.pendingDocuments call.2.uri := by
        simp [scheduleAnalysis, hfile, hsaved]
      obtain ⟨ih1, ih2⟩ := ih (scheduleAnalysis { h with now := call.1 } call.2)
        (by rw [e]; exact setAdd_nodup _ _ hn)
      refine ⟨ih1, ?_⟩
      intro uri
      rw [ih2 uri, e, mem_setAdd]
      constructor
      · rintro ((h1 | h1) | ⟨c, hc, h2⟩)
        · exact Or.inl h1
        · exact Or.inr ⟨call, by simp, hfile, hsaved, h1.symm⟩
        · exact Or.inr ⟨c, by simp [hc], h2⟩
      · rintro (h1 | ⟨c, hc, h2, h3, h4⟩)
        · exact Or.inl (Or.inl h1)
        · rcases List.mem_cons.1 hc with rfl | hc
          · exact Or.inl (Or.inr h4.symm)
          · exact Or.inr ⟨c, hc, h2, h3, h4⟩

theorem find_open_document (textDocuments : List OpenDocument) (document : OpenDocument)
    (hopen : (textDocuments.map (fun doc => doc.uri)).Nodup) (hmem : document ∈ textDocuments) :
    textDocuments.find? (fun doc => decide (doc.uri = document.uri)) = some document := by
  induction textDocuments with
  | nil => simp at hmem
  | cons doc docs ih =>
    simp only [List.map_cons, List.nodup_cons, List.mem_map, not_exists, not_and] at hopen
    rcases List.mem_cons.1 hmem with rfl | hmem
    · simp [List.find?]
    · have hne : doc.uri ≠ document.uri := fun he => hopen.1 document hmem he.symm
      simp only [List.find?, hne, decide_False]
      exact ih hopen.2 hmem

theorem find_some_open_document (textDocuments : List OpenDocument) (uri : JString)
    (document : OpenDocument)
    (h : textDocuments.find? (fun doc => decide (doc.uri = uri)) = some document) :
    document ∈ textDocuments ∧ document.uri = uri := by
  have h1 := List.find?_some h
  have h2 := List.mem_of_find?_eq_some h
  exact ⟨h2, by simpa using h1⟩

/-- C13: when the timer fires after calls of `scheduleAnalysis` made since the
pending set was last emptied, `analyzePendingDocuments` passes to
`analyzeDocument` every open document whose URI was added by one of the
calls (a call for a saved file), each exactly once however often it was
scheduled, and no other document, and the pending set is empty afterwards. -/
theorem analyzePendingDocuments_drains (textDocuments : List OpenDocument) (h : Host)
    (calls : List (Nat × OpenDocument)) (timer : Timer)
    (hempty : h.provider.pendingDocuments = [])
    (hopen : (textDocuments.map (fun doc => doc.uri)).Nodup) :
    ∃ documents,
      (fireTimer textDocuments (scheduleCalls h calls) timer).log =
        ScheduleRecord.dispatched timer.deadline documents :: (scheduleCalls h calls).log ∧
      (fireTimer textDocuments (scheduleCalls h calls) timer).provider.pendingDocuments = [] ∧
      documents.Nodup ∧
      (∀ document, document ∈ documents ↔
        document ∈ textDocuments ∧
          ∃ call ∈ calls, call.2.scheme = utf16 "file" ∧ call.2.isDirty = false ∧
            call.2.uri = document.uri) ∧
      ∀ document ∈ textDocuments,
        (∃ call ∈ calls, call.2.scheme = utf16 "file" ∧ call.2.isDirty = false ∧
          call.2.uri = document.uri) → documents.count document = 1 := by
  obtain ⟨hn, hmem⟩ := scheduleCalls_pending h calls (by simp [hempty])
  have hdocs : ∀ document,
      document ∈ (analyzePendingDocuments textDocuments (scheduleCalls h calls).provider).2 ↔
        document ∈ textDocuments ∧
          ∃ call ∈ calls, call.2.scheme = utf16 "file" ∧ call.2.isDirty = false ∧
            call.2.uri = document.uri := by
    intro document
    simp only [analyzePendingDocuments, List.mem_filterMap]
    constructor
    · rintro ⟨uri, hu, hf⟩
      obtain ⟨h1, h2⟩ := find_some_open_document textDocuments uri document hf
      have := (hmem uri).1 hu
      simp only [hempty, List.not_mem_nil, false_or] at this
      subst h2
      exact ⟨h1, this⟩
    · rintro ⟨h1, h2⟩
      refine ⟨document.uri, (hmem _).2 (Or.inr h2), ?_⟩
      exact find_open_document textDocuments document hopen h1
  have hnodup : (analyzePendingDocuments textDocuments (scheduleCalls h calls).provider).2.Nodup := by
    simp only [analyzePendingDocuments]
    apply List.Nodup.filterMap _ hn
    intro a a2 b hb hb2
    simp only [Option.mem_def] at hb hb2
    rw [← (find_some_open_document textDocuments a b hb).2,
      ← (find_some_open_document textDocuments a2 b hb2).2]
  refine ⟨_, rfl, rfl, hnodup, hdocs, ?_⟩
  intro document h1 h2
  exact List.count_eq_one_of_mem hnodup ((hdocs document).2 ⟨h1, h2⟩)

/-- C13, at two open files, of which one is scheduled twice, and a file with
unsaved changes. -/
theorem analyzePendingDocuments_drains_witness :
    ∃ documents,
      (fireTimer [savedFile, otherFile] (scheduleCalls Host.initial
        [(100, savedFile), (200, dirtyFile), (300, otherFile), (400, savedFile)])
        ⟨3, 3400⟩).log =
        ScheduleRecord.dispatched (Timer.deadline ⟨3, 3400⟩) documents ::
          (scheduleCalls Host.initial
            [(100, savedFile), (200, dirtyFile), (300, otherFile), (400, savedFile)]).log ∧
      (fireTimer [savedFile, otherFile] (scheduleCalls Host.initial
        [(100, savedFile), (200, dirtyFile), (300, otherFile), (400, savedFile)])
        ⟨3, 3400⟩).provider.pendingDocuments = [] ∧
      documents.Nodup ∧
      (∀ document, document ∈ documents ↔
        document ∈ [savedFile, otherFile] ∧
          ∃ call ∈ [(100, savedFile), (200, dirtyFile), (300, otherFile), (400, savedFile)],
            call.2.scheme = utf16 "file" ∧ call.2.isDirty = false ∧
              call.2.uri = document.uri) ∧
      ∀ document ∈ [savedFile, otherFile],
        (∃ call ∈ [(100, savedFile), (200, dirtyFile), (300, otherFile), (400, savedFile)],
          call.2.scheme = utf16 "file" ∧ call.2.isDirty = false ∧
            call.2.uri = document.uri) → documents.count document = 1 :=
  analyzePendingDocuments_drains [savedFile, otherFile] Host.initial
    [(100, savedFile), (200, dirtyFile), (300, otherFile), (400, savedFile)] ⟨3, 3400⟩
    rfl (by decide)

/-! ## Status assignments on the steps of a task -/

theorem setStepStatus_of_find_none (stepId : Nat) (status : StepStatus)
    (steps : List TaskStep)
    (h : steps.find? (fun s => decide (s.id = stepId)) = none) :
    setStepStatus stepId status steps = steps := by
  induction steps with
  | nil => rfl
  | cons s steps ih =>
    by_cases hs : s.id = stepId
    · simp [List.find?, hs] at h
    · simp only [List.find?, hs, decide_False] at h
      simp [setStepStatus, hs, ih h]

theorem setStepStatus_of_find_same (stepId : Nat) (status : StepStatus)
    (steps : List TaskStep) (step : TaskStep)
    (h : steps.find? (fun s => decide (s.id = stepId)) = some step)
    (hs : step.status = status) :
    setStepStatus stepId status steps = steps := by
  induction steps with
  | nil => rfl
  | cons s steps ih =>
    by_cases hid : s.id = stepId
    · simp only [List.find?, hid, decide_True, Option.some.injEq] at h
      subst h
      cases s
      simp_all [setStepStatus]
    · simp only [List.find?, hid, decide_False] at h
      simp [setStepStatus, hid, ih h]

theorem updateTaskStep_task (p : BecaProvider) (stepId : Nat) (status : StepStatus) :
    (updateTaskStep p stepId status).currentTask =
      p.currentTask.map (fun task =>
        { task with steps := setStepStatus stepId status task.steps }) := by
  unfold updateTaskStep
  cases ht : p.currentTask with
  | none => simp [ht]
  | some task =>
    simp only [Option.map_some']
    cases hf : task.steps.find? (fun s => decide (s.id = stepId)) with
    | none => simp [ht, setStepStatus_of_find_none stepId status task.steps hf]
    | some step =>
      by_cases hs : step.status = status
      · simp [ht, hs, setStepStatus_of_find_same stepId status task.steps step hf hs]
      · simp [hs, sendToWebview_currentTask]

theorem updateTaskSteps_task (p : BecaProvider) (calls : List (Nat × StepStatus)) :
    (updateTaskSteps p calls).currentTask =
      p.currentTask.map (fun task => { task with steps := setStepStatuses task.steps calls }) := by
  induction calls generalizing p with
  | nil => cases h : p.currentTask <;> simp [updateTaskSteps, setStepStatuses, h]
  | cons c calls ih =>
    simp only [updateTaskSteps, setStepStatuses, List.foldl_cons] at ih ⊢
    rw [ih, updateTaskStep_task]
    cases h : p.currentTask <;> simp

theorem setStepStatus_absorb (stepId : Nat) (status earlier : StepStatus)
    (steps : List TaskStep) :
    setStepStatus stepId status (setStepStatus stepId earlier steps) =
      setStepStatus stepId status steps := by
  induction steps with
  | nil => rfl
  | cons s steps ih =>
    by_cases hs : s.id = stepId
    · simp [setStepStatus, hs]
    · simp [setStepStatus, hs, ih]

theorem setStepStatus_comm (i j : Nat) (a b : StepStatus) (steps : List TaskStep)
    (hij : i ≠ j) :
    setStepStatus i a (setStepStatus j b steps) =
      setStepStatus j b (setStepStatus i a steps) := by
  induction steps with
  | nil => rfl
  | cons s steps ih =>
    by_cases hi : s.id = i
    · have hj : s.id ≠ j := fun h => hij (hi ▸ h)
      simp [setStepStatus, hi, hj, hij]
    · by_cases hj : s.id = j
      · simp [setStepStatus, hi, hj, Ne.symm hij]
      · simp [setStepStatus, hi, hj, ih]

theorem setStepStatuses_absorb (calls : List (Nat × StepStatus)) (stepId : Nat)
    (status : StepStatus) (steps : List TaskStep)
    (h : ∃ c ∈ calls, c.1 = stepId) :
    setStepStatuses (setStepStatus stepId status steps) calls = setStepStatuses steps calls := by
  induction calls generalizing steps with
  | nil => simp at h
  | cons c calls ih =>
    simp only [setStepStatuses, List.foldl_cons] at ih ⊢
    by_cases hc : c.1 = stepId
    · rw [hc, setStepStatus_absorb]
    · rw [setStepStatus_comm c.1 stepId c.2 status steps hc]
      apply ih
      obtain ⟨d, hd, hd2⟩ := h
      rcases List.mem_cons.1 hd with rfl | hd
      · exact absurd hd2 hc
      · exact ⟨d, hd, hd2⟩

theorem setStepStatuses_twice (calls earlier : List (Nat × StepStatus))
    (steps : List TaskStep) (h : ∀ c ∈ earlier, ∃ d ∈ calls, d.1 = c.1) :
    setStepStatuses (setStepStatuses steps earlier) calls = setStepStatuses steps calls := by
  induction earlier generalizing steps with
  | nil => rfl
  | cons c earlier ih =>
    have h1 := ih (setStepStatus c.1 c.2 steps) (fun x hx => h x (by simp [hx]))
    simp only [setStepStatuses, List.foldl_cons] at h1 ⊢
    rw [h1]
    exact setStepStatuses_absorb calls c.1 c.2 steps (h c (by simp))

/-! ## Claims on the progress of the task -/

/-- C28: applying `updateTaskProgress` twice with the same response leaves the
task, with the status of each step, as applying it once does. -/
theorem updateTaskProgress_idempotent (p : BecaProvider) (responseContent : JString) :
    (updateTaskProgress (updateTaskProgress p responseContent) responseContent).currentTask =
      (updateTaskProgress p responseContent).currentTask := by
  simp only [updateTaskProgress_eq_steps, updateTaskSteps_task]
  cases h : p.currentTask with
  | none => rfl
  | some task =>
    simp only [Option.map_some', Option.some.injEq]
    rw [setStepStatuses_twice _ _ _ (fun c hc => ⟨c, hc, rfl⟩)]

/-- C27: for a task with the five steps of ids 1 to 5, whatever their
statuses, and a response whose lower-cased text holds a keyword of each of the
five rules, all five steps are `completed` after `updateTaskProgress`. -/
theorem updateTaskProgress_all_rules (p : BecaProvider) (task : Task)
    (responseContent : JString) (ht : p.currentTask = some task)
    (hids : task.steps.map (fun s => s.id) = [1, 2, 3, 4, 5])
    (h1 : (includes (toLowerCase responseContent) (utf16 "analyzing") ||
      includes (toLowerCase responseContent) (utf16 "understanding")) = true)
    (h2 : (includes (toLowerCase responseContent) (utf16 "exploring") ||
      includes (toLowerCase responseContent) (utf16 "found")) = true)
    (h3 : (includes (toLowerCase responseContent) (utf16 "creating") ||
      includes (toLowerCase responseContent) (utf16 "modifying") ||
      includes (toLowerCase responseContent) (utf16 "editing")) = true)
    (h4 : (includes (toLowerCase responseContent) (utf16 "testing") ||
      includes (toLowerCase responseContent) (utf16 "verified")) = true)
    (h5 : (includes (toLowerCase responseContent) (utf16 "summary") ||
      includes (toLowerCase responseContent) (utf16 "next steps") ||
      includes (toLowerCase responseContent) (utf16 "completed")) = true) :
    ∃ task1, (updateTaskProgress p responseContent).currentTask = some task1 ∧
      task1.steps.map (fun s => (s.id, s.status)) =
        [(1, StepStatus.completed), (2, StepStatus.completed), (3, StepStatus.completed),
          (4, StepStatus.completed), (5, StepStatus.completed)] := by
  rw [updateTaskProgress_eq_steps, updateTaskSteps_task, ht]
  refine ⟨_, rfl, ?_⟩
  simp only [progressCalls, h1, h2, h3, h4, h5, if_true]
  rcases hs : task.steps with _ | ⟨a, _ | ⟨b, _ | ⟨c, _ | ⟨d, _ | ⟨e, _ | ⟨f, rest⟩⟩⟩⟩⟩⟩ <;>
    simp only [hs, List.map_cons, List.map_nil, List.cons.injEq, and_true, reduceCtorEq,
      and_false] at hids
  obtain ⟨ha, hb, hc, hd, he⟩ := hids
  simp [setStepStatuses, setStepStatus, ha, hb, hc, hd, he]

/-- C27, at the task whose step 3 is in progress. -/
theorem updateTaskProgress_all_rules_witness :
    ∃ task1, (updateTaskProgress providerAtStep3
        (utf16 "Analyzing, exploring, editing, testing: summary")).currentTask = some task1 ∧
      task1.steps.map (fun s => (s.id, s.status)) =
        [(1, StepStatus.completed), (2, StepStatus.completed), (3, StepStatus.completed),
          (4, StepStatus.completed), (5, StepStatus.completed)] :=
  updateTaskProgress_all_rules providerAtStep3 taskAtStep3
    (utf16 "Analyzing, exploring, editing, testing: summary") rfl (by decide) (by decide)
    (by decide) (by decide) (by decide) (by decide)

theorem stepMoves_refl (steps : List TaskStep) : List.Forall₂ StepMoves steps steps := by
  induction steps with
  | nil => exact List.Forall₂.nil
  | cons s steps ih => exact List.Forall₂.cons ⟨rfl, fun h => h, fun _ h => h⟩ ih

theorem stepMoves_trans (a b c : List TaskStep) (hab : List.Forall₂ StepMoves a b)
    (hbc : List.Forall₂ StepMoves b c) : List.Forall₂ StepMoves a c := by
  induction hab generalizing c with
  | nil => cases hbc; exact List.Forall₂.nil
  | cons h1 _ ih =>
    cases hbc with
    | cons h2 t2 =>
      refine List.Forall₂.cons ⟨?_, ?_, ?_⟩ (ih _ t2)
      · rw [h2.1, h1.1]
      · exact fun h => h2.2.1 (h1.2.1 h)
      · intro hid hst
        exact h2.2.2 (by rw [h1.1]; exact hid) (h1.2.2 hid hst)

theorem setStepStatus_moves (stepId : Nat) (status : StepStatus) (steps : List TaskStep)
    (hp : status ≠ StepStatus.pending) (h1 : stepId = 1 → status = StepStatus.completed) :
    List.Forall₂ StepMoves steps (setStepStatus stepId status steps) := by
  induction steps with
  | nil => exact List.Forall₂.nil
  | cons s steps ih =>
    by_cases hs : s.id = stepId
    · simp only [setStepStatus, hs, if_true]
      exact List.Forall₂.cons ⟨hs.symm, fun _ => hp, fun hid _ => h1 (hs ▸ hid)⟩
        (stepMoves_refl steps)
    · simp only [setStepStatus, hs, if_false]
      exact List.Forall₂.cons ⟨rfl, fun h => h, fun _ h => h⟩ ih

theorem progressCalls_forward (content : JString) :
    ∀ c ∈ progressCalls content,
      c.2 ≠ StepStatus.pending ∧ (c.1 = 1 → c.2 = StepStatus.completed) := by
  have hall : (progressCalls content).all
      (fun c => decide (c.2 ≠ StepStatus.pending ∧ (c.1 = 1 → c.2 = StepStatus.completed))) =
        true := by
    unfold progressCalls
    split_ifs <;> decide
  intro c hc
  have := List.all_eq_true.1 hall c hc
  exact of_decide_eq_true this

theorem setStepStatuses_moves (calls : List (Nat × StepStatus)) (steps : List TaskStep)
    (h : ∀ c ∈ calls, c.2 ≠ StepStatus.pending ∧ (c.1 = 1 → c.2 = StepStatus.completed)) :
    List.Forall₂ StepMoves steps (setStepStatuses steps calls) := by
  induction calls generalizing steps with
  | nil => exact stepMoves_refl steps
  | cons c calls ih =>
    simp only [setStepStatuses, List.foldl_cons] at ih ⊢
    exact stepMoves_trans _ _ _
      (setStepStatus_moves c.1 c.2 steps (h c (by simp)).1 (h c (by simp)).2)
      (ih _ (fun x hx => h x (by simp [hx])))

theorem updateTaskProgress_task (p : BecaProvider) (responseContent : JString) :
    (updateTaskProgress p responseContent).currentTask =
      p.currentTask.map (fun task =>
        { task with
          steps := setStepStatuses task.steps (progressCalls (toLowerCase responseContent)) }) := by
  rw [updateTaskProgress_eq_steps, updateTaskSteps_task]

theorem updateTaskProgress_fold_some (p : BecaProvider) (task : Task)
    (responses : List JString) (ht : p.currentTask = some task) :
    ∃ task1, (responses.foldl updateTaskProgress p).currentTask = some task1 := by
  induction responses generalizing p task with
  | nil => exact ⟨task, ht⟩
  | cons r responses ih =>
    simp only [List.foldl_cons]
    exact ih (updateTaskProgress p r) _ (by rw [updateTaskProgress_task, ht]; rfl)

/-- C21 as stated fails: for a task just created, on a provider with a view,
the response `I am exploring the codebase and found the bug` leads to two
`taskUpdated` messages, one for step 2 and one for step 3. -/
theorem updateTaskProgress_exploring_two_messages :
    (updateTaskProgress providerWithNewTask
      (utf16 "I am exploring the codebase and found the bug")).posted =
      [WebviewMessage.taskUpdated
          { newTask 1700000000001 (utf16 "2023-11-14T22:13:20.001Z") (utf16 "fix the bug") with
            steps := setStepStatuses
              (newTask 1700000000001 (utf16 "2023-11-14T22:13:20.001Z")
                (utf16 "fix the bug")).steps [(2, StepStatus.completed)] },
        WebviewMessage.taskUpdated
          { newTask 1700000000001 (utf16 "2023-11-14T22:13:20.001Z") (utf16 "fix the bug") with
            steps := setStepStatuses
              (newTask 1700000000001 (utf16 "2023-11-14T22:13:20.001Z")
                (utf16 "fix the bug")).steps
              [(2, StepStatus.completed), (3, StepStatus.inProgress)] }] ∧
    (updateTaskProgress providerWithNewTask
      (utf16 "I am exploring the codebase and found the bug")).posted.length = 2 := by
  constructor <;> decide

/-- C21, amended: for a task just created by `createTask`, on a provider with
a view, and a response whose lower-cased text matches the rule of `exploring`
and `found` and no other rule, `updateTaskProgress` makes step 2 `completed`
and step 3 `in-progress`, leaves steps 1, 4 and 5 as they are, and posts two
`taskUpdated` messages: the task with step 2 completed, then the task with
step 3 in progress as well. -/
theorem updateTaskProgress_exploring (p : BecaProvider) (v : WebviewView) (now : Nat)
    (createdAt userRequest responseContent : JString) (hv : p.view = some v)
    (ht : p.currentTask = some (newTask now createdAt userRequest))
    (h1 : (includes (toLowerCase responseContent) (utf16 "analyzing") ||
      includes (toLowerCase responseContent) (utf16 "understanding")) = false)
    (h2 : (includes (toLowerCase responseContent) (utf16 "exploring") ||
      includes (toLowerCase responseContent) (utf16 "found")) = true)
    (h3 : (includes (toLowerCase responseContent) (utf16 "creating") ||
      includes (toLowerCase responseContent) (utf16 "modifying") ||
      includes (toLowerCase responseContent) (utf16 "editing")) = false)
    (h4 : (includes (toLowerCase responseContent) (utf16 "testing") ||
      includes (toLowerCase responseContent) (utf16 "verified")) = false)
    (h5 : (includes (toLowerCase responseContent) (utf16 "summary") ||
      includes (toLowerCase responseContent) (utf16 "next steps") ||
      includes (toLowerCase responseContent) (utf16 "completed")) = false) :
    ∃ task1 task2,
      (updateTaskProgress p responseContent).currentTask = some task2 ∧
      task1.steps.map (fun s => (s.id, s.status)) =
        [(1, StepStatus.inProgress), (2, StepStatus.completed), (3, StepStatus.pending),
          (4, StepStatus.pending), (5, StepStatus.pending)] ∧
      task2.steps.map (fun s => (s.id, s.status)) =
        [(1, StepStatus.inProgress), (2, StepStatus.completed), (3, StepStatus.inProgress),
          (4, StepStatus.pending), (5, StepStatus.pending)] ∧
      (updateTaskProgress p responseContent).view =
        some ⟨v.posted ++ [WebviewMessage.taskUpdated task1, WebviewMessage.taskUpdated task2]⟩ ∧
      (updateTaskProgress p responseContent).conversationHistory = p.conversationHistory := by
  have hcalls : progressCalls (toLowerCase responseContent) =
      [(2, StepStatus.completed), (3, StepStatus.inProgress)] := by
    simp [progressCalls, h1, h2, h3, h4, h5]
  rw [updateTaskProgress_eq_steps, hcalls]
  refine ⟨{ newTask now createdAt userRequest with
      steps := setStepStatuses (newTask now createdAt userRequest).steps
        [(2, StepStatus.completed)] },
    { newTask now createdAt userRequest with
      steps := setStepStatuses (newTask now createdAt userRequest).steps
        [(2, StepStatus.completed), (3, StepStatus.inProgress)] }, ?_, rfl, rfl, ?_, ?_⟩
  · simp [updateTaskSteps, updateTaskStep, ht, newTask, setStepStatus, setStepStatuses,
      sendToWebview_currentTask]
  · simp [updateTaskSteps, updateTaskStep, ht, hv, newTask, setStepStatus, setStepStatuses,
      sendToWebview]
  · simp [updateTaskSteps, updateTaskStep_conversationHistory]

/-- C21, amended, at the provider with a task just created and the response
`I am exploring the codebase and found the bug`. -/
theorem updateTaskProgress_exploring_witness :
    ∃ task1 task2,
      (updateTaskProgress providerWithNewTask
        (utf16 "I am exploring the codebase and found the bug")).currentTask = some task2 ∧
      task1.steps.map (fun s => (s.id, s.status)) =
        [(1, StepStatus.inProgress), (2, StepStatus.completed), (3, StepStatus.pending),
          (4, StepStatus.pending), (5, StepStatus.pending)] ∧
      task2.steps.map (fun s => (s.id, s.status)) =
        [(1, StepStatus.inProgress), (2, StepStatus.completed), (3, StepStatus.inProgress),
          (4, StepStatus.pending), (5, StepStatus.pending)] ∧
      (updateTaskProgress providerWithNewTask
        (utf16 "I am exploring the codebase and found the bug")).view =
        some ⟨([] : List WebviewMessage) ++
          [WebviewMessage.taskUpdated task1, WebviewMessage.taskUpdated task2]⟩ ∧
      (updateTaskProgress providerWithNewTask
        (utf16 "I am exploring the codebase and found the bug")).conversationHistory = [] :=
  updateTaskProgress_exploring providerWithNewTask ⟨[]⟩ 1700000000001
    (utf16 "2023-11-14T22:13:20.001Z") (utf16 "fix the bug")
    (utf16 "I am exploring the codebase and found the bug") rfl rfl (by decide) (by decide)
    (by decide) (by decide) (by decide)

/-- C22 as stated fails: from a task just created, the response `exploring`
completes step 2, and the response `analyzing` after it moves step 2 from
`completed` back to `in-progress`. -/
theorem updateTaskProgress_step_back :
    ((updateTaskProgress providerWithNewTask (utf16 "exploring")).currentTask.map
      (fun task => task.steps.map (fun s => s.status))) =
      some [StepStatus.inProgress, StepStatus.completed, StepStatus.inProgress,
        StepStatus.pending, StepStatus.pending] ∧
    ((updateTaskProgress (updateTaskProgress providerWithNewTask (utf16 "exploring"))
      (utf16 "analyzing")).currentTask.map
      (fun task => task.steps.map (fun s => s.status))) =
      some [StepStatus.completed, StepStatus.inProgress, StepStatus.inProgress,
        StepStatus.pending, StepStatus.pending] := by
  constructor <;> decide

/-- C22, amended: from a task just created (and from any task), over every
sequence of `updateTaskProgress` calls, no call moves a step back to
`pending`, and no call moves step 1 out of `completed`; the steps keep their
ids and their order.  (Steps 2 to 5 can move from `completed` back to
`in-progress`.) -/
theorem updateTaskProgress_never_pending_again (p : BecaProvider) (task : Task)
    (responses : List JString) (responseContent : JString)
    (ht : p.currentTask = some task) :
    ∃ before after,
      (responses.foldl updateTaskProgress p).currentTask = some before ∧
      (updateTaskProgress (responses.foldl updateTaskProgress p) responseContent).currentTask =
        some after ∧
      List.Forall₂
        (fun s s1 => s1.id = s.id ∧
          (s.status ≠ StepStatus.pending → s1.status ≠ StepStatus.pending) ∧
          (s.id = 1 → s.status = StepStatus.completed → s1.status = StepStatus.completed))
        before.steps after.steps := by
  obtain ⟨before, hb⟩ := updateTaskProgress_fold_some p task responses ht
  refine ⟨before, _, hb, by rw [updateTaskProgress_task, hb]; rfl, ?_⟩
  exact setStepStatuses_moves _ before.steps (progressCalls_forward _)

/-- C22, amended, at the task just created, after the response `exploring`,
for the response `analyzing`. -/
theorem updateTaskProgress_never_pending_again_witness :
    ∃ before after,
      ([utf16 "exploring"].foldl updateTaskProgress providerWithNewTask).currentTask =
        some before ∧
      (updateTaskProgress ([utf16 "exploring"].foldl updateTaskProgress providerWithNewTask)
        (utf16 "analyzing")).currentTask = some after ∧
      List.Forall₂
        (fun s s1 => s1.id = s.id ∧
          (s.status ≠ StepStatus.pending → s1.status ≠ StepStatus.pending) ∧
          (s.id = 1 → s.status = StepStatus.completed → s1.status = StepStatus.completed))
        before.steps after.steps :=
  updateTaskProgress_never_pending_again providerWithNewTask _ [utf16 "exploring"]
    (utf16 "analyzing") rfl

/-! ## Facts about the conversation of the chat provider -/

theorem addMessage_conversationHistory (p : BecaProvider) (message : Message) :
    (addMessage p message).conversationHistory = p.conversationHistory ++ [message] := by
  simp [addMessage, sendToWebview_conversationHistory]

theorem addMessage_currentTask (p : BecaProvider) (message : Message) :
    (addMessage p message).currentTask = p.currentTask := by
  simp [addMessage, sendToWebview_currentTask]

theorem ensureTask_conversationHistory (p : BecaProvider) (now : Nat)
    (createdAt userMessage : JString) :
    (ensureTask p now createdAt userMessage).conversationHistory = p.conversationHistory := by
  unfold ensureTask
  split
  · simp [createTask, sendToWebview_conversationHistory]
  · rfl

theorem updateTaskProgress_conversationHistory (p : BecaProvider) (responseContent : JString) :
    (updateTaskProgress p responseContent).conversationHistory = p.conversationHistory := by
  rw [updateTaskProgress_eq_steps]
  generalize progressCalls (toLowerCase responseContent) = calls
  induction calls generalizing p with
  | nil => rfl
  | cons c calls ih =>
    simp only [updateTaskSteps, List.foldl_cons] at ih ⊢
    rw [ih, updateTaskStep_conversationHistory]

theorem handleUserMessageCatch_conversationHistory (p : BecaProvider) (env : Environment)
    (message : JString) :
    (handleUserMessageCatch p env message).conversationHistory =
      p.conversationHistory ++
        [⟨decimal env.errorStamp.now, Role.error,
          utf16 "Error communicating with BECA: " ++ message, env.errorStamp.iso⟩] := by
  simp [handleUserMessageCatch, addMessage_conversationHistory,
    sendToWebview_conversationHistory]

/-- The conversation after `handleUserMessage`, for a message that is not
blank: the entry of the user and one reply for every outcome of the backend
but a success without a response, which has two. -/
theorem handleUserMessage_conversationHistory (p : BecaProvider) (env : Environment)
    (userMessage : JString) (hne : userMessage ≠ []) (hblank : (trim userMessage).length ≠ 0) :
    (handleUserMessage p env userMessage).conversationHistory =
      p.conversationHistory ++
        ⟨decimal env.userStamp.now, Role.user, userMessage, env.userStamp.iso⟩ ::
        (match env.reply with
          | ChatReply.threw message =>
            [⟨decimal env.errorStamp.now, Role.error,
              utf16 "Error communicating with BECA: " ++ message, env.errorStamp.iso⟩]
          | ChatReply.result true (some responseContent) _ =>
            [⟨decimal env.replyStamp.now, Role.assistant,
              orElseText (some responseContent) (utf16 "No response from BECA"),
              env.replyStamp.iso⟩]
          | ChatReply.result true none _ =>
            [⟨decimal env.replyStamp.now, Role.assistant, utf16 "No response from BECA",
                env.replyStamp.iso⟩,
              ⟨decimal env.errorStamp.now, Role.error,
                utf16 "Error communicating with BECA: " ++ toLowerCaseTypeError,
                env.errorStamp.iso⟩]
          | ChatReply.result false _ error =>
            [⟨decimal env.replyStamp.now, Role.error,
              utf16 "Error: " ++ orElseText error (utf16 "Unknown error occurred"),
              env.replyStamp.iso⟩]) := by
  have hguard : ¬ (userMessage = [] ∨ (trim userMessage).length = 0) := by
    rintro (h | h)
    · exact hne h
    · exact hblank h
  have htask : ∀ q : BecaProvider,
      ∃ task, (ensureTask q env.taskStamp.now env.taskStamp.iso userMessage).currentTask =
        some task := by
    intro q
    unfold ensureTask
    cases hq : q.currentTask with
    | none =>
      exact ⟨newTask env.taskStamp.now env.taskStamp.iso userMessage,
        by simp [createTask, sendToWebview_currentTask]⟩
    | some task => exact ⟨task, hq⟩
  unfold handleUserMessage
  rw [if_neg hguard]
  cases hr : env.reply with
  | threw message =>
    simp [handleUserMessageCatch_conversationHistory, ensureTask_conversationHistory,
      sendToWebview_conversationHistory, addMessage_conversationHistory]
  | result success response error =>
    cases success with
    | false =>
      simp [ensureTask_conversationHistory, sendToWebview_conversationHistory,
        addMessage_conversationHistory]
    | true =>
      obtain ⟨task, htask⟩ := htask (sendToWebview (addMessage p
        ⟨decimal env.userStamp.now, Role.user, userMessage, env.userStamp.iso⟩)
        (WebviewMessage.thinking true))
      simp only [if_true, addMessage_currentTask, sendToWebview_currentTask, htask]
      cases response with
      | none =>
        simp [handleUserMessageCatch_conversationHistory, ensureTask_conversationHistory,
          sendToWebview_conversationHistory, addMessage_conversationHistory, orElseText]
      | some responseContent =>
        simp [updateTaskProgress_conversationHistory, ensureTask_conversationHistory,
          sendToWebview_conversationHistory, addMessage_conversationHistory]

theorem handleUserMessage_task_history (p : BecaProvider) (env : Environment)
    (userMessage : JString)
    (inv : p.currentTask ≠ none → p.conversationHistory ≠ []) :
    (handleUserMessage p env userMessage).currentTask ≠ none →
      (handleUserMessage p env userMessage).conversationHistory ≠ [] := by
  by_cases hguard : userMessage = [] ∨ (trim userMessage).length = 0
  · have e : handleUserMessage p env userMessage = p := by
      unfold handleUserMessage
      rw [if_pos hguard]
    rw [e]
    exact inv
  · intro _
    rw [handleUserMessage_conversationHistory p env userMessage
      (fun h => hguard (Or.inl h)) (fun h => hguard (Or.inr h))]
    simp

theorem handleMessage_task_history (p : BecaProvider) (env : Environment)
    (request : WebviewRequest)
    (inv : p.currentTask ≠ none → p.conversationHistory ≠ []) :
    (handleMessage p env request).currentTask ≠ none →
      (handleMessage p env request).conversationHistory ≠ [] := by
  cases request with
  | sendMessage text => exact handleUserMessage_task_history p env text inv
  | newTask =>
    simp only [handleMessage, startNewTask]
    split
    · exact inv
    · simp [updateWebview, sendToWebview_currentTask]
  | approveEdit filePath content =>
    intro _
    simp only [handleMessage, applyFileEdit]
    split <;> simp [addMessage_conversationHistory]
  | rejectEdit filePath => exact inv
  | other type => exact inv

/-! ## Claims on the conversation of the chat provider -/

/-- Were `startNewTask` run on a provider without a view (the state the
constructor leaves, in which the handler that calls `startNewTask` is not yet
registered), it would clear the state and post no `fullUpdate`. -/
theorem startNewTask_without_view :
    startNewTask BecaProvider.initial (some (utf16 "Yes")) = BecaProvider.initial ∧
    (startNewTask BecaProvider.initial (some (utf16 "Yes"))).view = none ∧
    (startNewTask BecaProvider.initial (some (utf16 "Yes"))).posted = [] := by
  refine ⟨by decide, by decide, by decide⟩

/-- C23: in a state in which `startNewTask` is called (a view is attached, see
`handleMessages_view_attached`): when the conversation is not empty and the
answer is not `Yes`, `startNewTask` leaves the provider as it is, so that
`currentTask` and `conversationHistory` are unchanged and nothing is posted;
when the answer is `Yes`, or the conversation is empty, `currentTask` becomes
`null` and `conversationHistory` empty, and exactly one message more is posted
to the view, the `fullUpdate` with that empty state. -/
theorem startNewTask_reset (p : BecaProvider) (v : WebviewView) (answer : Option JString)
    (hv : p.view = some v) :
    (p.conversationHistory ≠ [] → answer ≠ some (utf16 "Yes") →
      startNewTask p answer = p ∧
      (startNewTask p answer).currentTask = p.currentTask ∧
      (startNewTask p answer).conversationHistory = p.conversationHistory ∧
      (startNewTask p answer).posted = v.posted) ∧
    (answer = some (utf16 "Yes") ∨ p.conversationHistory = [] →
      (startNewTask p answer).currentTask = none ∧
      (startNewTask p answer).conversationHistory = [] ∧
      (startNewTask p answer).posted =
        v.posted ++ [WebviewMessage.fullUpdate [] none []]) := by
  constructor
  · intro hh ha
    have : p.conversationHistory.length > 0 := List.length_pos.2 hh
    have e : startNewTask p answer = p := by simp [startNewTask, this, ha]
    rw [e]
    exact ⟨rfl, rfl, rfl, by simp [BecaProvider.posted, hv]⟩
  · intro h
    have hg : ¬ (p.conversationHistory.length > 0 ∧ answer ≠ some (utf16 "Yes")) := by
      rintro ⟨h1, h2⟩
      rcases h with h | h
      · exact h2 h
      · simp [h] at h1
    unfold startNewTask
    rw [if_neg hg]
    refine ⟨?_, ?_, ?_⟩
    · simp [updateWebview, sendToWebview_currentTask]
    · simp [updateWebview, sendToWebview_conversationHistory]
    · simp [updateWebview, sendToWebview, hv, BecaProvider.posted]

/-- C23, at the provider whose task is at step 3, with one entry in its
conversation: with the answer `No`, and with the warning dismissed, the
provider is left as it is; with the answer `Yes` the task and the conversation
are cleared and the one message posted is the empty `fullUpdate`; and at a
provider with a view and an empty conversation, where no answer is asked for,
the same. -/
theorem startNewTask_reset_witness :
    startNewTask { providerAtStep3 with
        conversationHistory := [⟨utf16 "1", Role.user, utf16 "fix it", utf16 "t"⟩] }
      (some (utf16 "No")) =
      { providerAtStep3 with
        conversationHistory := [⟨utf16 "1", Role.user, utf16 "fix it", utf16 "t"⟩] } ∧
    startNewTask { providerAtStep3 with
        conversationHistory := [⟨utf16 "1", Role.user, utf16 "fix it", utf16 "t"⟩] } none =
      { providerAtStep3 with
        conversationHistory := [⟨utf16 "1", Role.user, utf16 "fix it", utf16 "t"⟩] } ∧
    ((startNewTask { providerAtStep3 with
        conversationHistory := [⟨utf16 "1", Role.user, utf16 "fix it", utf16 "t"⟩] }
      (some (utf16 "Yes"))).currentTask = none ∧
    (startNewTask { providerAtStep3 with
        conversationHistory := [⟨utf16 "1", Role.user, utf16 "fix it", utf16 "t"⟩] }
      (some (utf16 "Yes"))).conversationHistory = [] ∧
    (startNewTask { providerAtStep3 with
        conversationHistory := [⟨utf16 "1", Role.user, utf16 "fix it", utf16 "t"⟩] }
      (some (utf16 "Yes"))).posted = [] ++ [WebviewMessage.fullUpdate [] none []]) ∧
    ((startNewTask ⟨some ⟨[]⟩, [], none⟩ none).currentTask = none ∧
    (startNewTask ⟨some ⟨[]⟩, [], none⟩ none).conversationHistory = [] ∧
    (startNewTask ⟨some ⟨[]⟩, [], none⟩ none).posted =
      [] ++ [WebviewMessage.fullUpdate [] none []]) :=
  ⟨((startNewTask_reset { providerAtStep3 with
      conversationHistory := [⟨utf16 "1", Role.user, utf16 "fix it", utf16 "t"⟩] } ⟨[]⟩
      (some (utf16 "No")) rfl).1 (by decide) (by decide)).1,
   ((startNewTask_reset { providerAtStep3 with
      conversationHistory := [⟨utf16 "1", Role.user, utf16 "fix it", utf16 "t"⟩] } ⟨[]⟩
      none rfl).1 (by decide) (by decide)).1,
   (startNewTask_reset { providerAtStep3 with
      conversationHistory := [⟨utf16 "1", Role.user, utf16 "fix it", utf16 "t"⟩] } ⟨[]⟩
      (some (utf16 "Yes")) rfl).2 (Or.inl rfl),
   (startNewTask_reset ⟨some ⟨[]⟩, [], none⟩ ⟨[]⟩ none rfl).2 (Or.inr rfl)⟩

/-- C24: `resolveWebviewView` keeps the state of the provider and posts to the
view, as the last message, the `fullUpdate` with `conversationHistory` and
`currentTask`; whatever the state of the webview and whatever was posted to
the view before, once the handler of the webview has processed the messages
posted, its message list is the `conversationHistory` of the provider and its
`currentTask` that of the provider. -/
theorem resolveWebviewView_resynchronises (p : BecaProvider) (webviewView : WebviewView)
    (w : AppState) :
    (resolveWebviewView p webviewView).conversationHistory = p.conversationHistory ∧
    (resolveWebviewView p webviewView).currentTask = p.currentTask ∧
    (resolveWebviewView p webviewView).posted =
      webviewView.posted ++
        [WebviewMessage.fullUpdate p.conversationHistory p.currentTask []] ∧
    (App.handleMessage w
      (WebviewMessage.fullUpdate p.conversationHistory p.currentTask [])).messages =
      p.conversationHistory ∧
    (App.handleMessage w
      (WebviewMessage.fullUpdate p.conversationHistory p.currentTask [])).currentTask =
      p.currentTask ∧
    ((resolveWebviewView p webviewView).posted.foldl App.handleMessage w).messages =
      (resolveWebviewView p webviewView).conversationHistory ∧
    ((resolveWebviewView p webviewView).posted.foldl App.handleMessage w).currentTask =
      (resolveWebviewView p webviewView).currentTask := by
  have hposted : (resolveWebviewView p webviewView).posted =
      webviewView.posted ++
        [WebviewMessage.fullUpdate p.conversationHistory p.currentTask []] := by
    simp [resolveWebviewView, updateWebview, sendToWebview, BecaProvider.posted]
  have hh : (resolveWebviewView p webviewView).conversationHistory = p.conversationHistory := by
    simp [resolveWebviewView, updateWebview, sendToWebview_conversationHistory]
  have ht : (resolveWebviewView p webviewView).currentTask = p.currentTask := by
    simp [resolveWebviewView, updateWebview, sendToWebview_currentTask]
  refine ⟨hh, ht, hposted, rfl, rfl, ?_, ?_⟩
  · rw [hposted, hh, List.foldl_append]
    rfl
  · rw [hposted, ht, List.foldl_append]
    rfl

/-- C25 fails on the code: for the message `hi` and a backend that resolves to
`{ success: true }` without a `response`, `handleUserMessage` appends three
entries: the entry of the user, the entry of the assistant with the fallback
text, and an entry of role `error` from the `catch` block, reached because
`updateTaskProgress(undefined)` throws at `toLowerCase`. -/
theorem handleUserMessage_missing_response :
    (handleUserMessage ⟨some ⟨[]⟩, [], none⟩ noResponseEnvironment
      (utf16 "hi")).conversationHistory.map (fun m => (m.role, m.content)) =
      [(Role.user, utf16 "hi"),
        (Role.assistant, utf16 "No response from BECA"),
        (Role.error, utf16
          "Error communicating with BECA: Cannot read properties of undefined (reading 'toLowerCase')")] := by
  decide

/-- C26 fails on the code: with `maxSuggestions` set to 11 and a response with
eleven fenced segments, the candidate of index 2 has the sortText `02` and
that of index 10 the sortText `010`, and `010` is the smaller of the two in
the order of strings. -/
theorem provideCompletionItems_sortText_eleven :
    ((provideCompletionItems CompletionProvider.initial 5000 (some 11) (utf16 "const x")
      (BackendReply.result true (some elevenSegments))).items.map
        (fun item => item.sortText)) =
      [utf16 "00", utf16 "01", utf16 "02", utf16 "03", utf16 "04", utf16 "05", utf16 "06",
        utf16 "07", utf16 "08", utf16 "09", utf16 "010"] ∧
    stringLess (utf16 "02") (utf16 "010") = false ∧
    stringLess (utf16 "010") (utf16 "02") = true := by
  refine ⟨by decide, by decide, by decide⟩

/-- C29: in every state reached from a provider with an empty conversation
and no task (a new provider, with or without a view) through a sequence of
`handleMessage` calls, whatever the messages and whatever each call meets, a
`currentTask` that is not `null` comes with a `conversationHistory` that is
not empty. -/
theorem handleMessages_task_history (view : Option WebviewView)
    (calls : List (Environment × WebviewRequest)) :
    (handleMessages ⟨view, [], none⟩ calls).currentTask ≠ none →
      (handleMessages ⟨view, [], none⟩ calls).conversationHistory ≠ [] := by
  have hfold : ∀ (calls : List (Environment × WebviewRequest)) (p : BecaProvider),
      (p.currentTask ≠ none → p.conversationHistory ≠ []) →
      (handleMessages p calls).currentTask ≠ none →
        (handleMessages p calls).conversationHistory ≠ [] := by
    intro calls
    induction calls with
    | nil => intro p inv; exact inv
    | cons call calls ih =>
      intro p inv
      simp only [handleMessages, List.foldl_cons] at ih ⊢
      exact ih _ (handleMessage_task_history p call.1 call.2 inv)
  exact hfold calls _ (fun h => absurd rfl h)

/-- C29, at a new provider after a message of the user and a refused request
for a new task. -/
theorem handleMessages_task_history_witness :
    (handleMessages ⟨none, [], none⟩
      [(noResponseEnvironment, WebviewRequest.sendMessage (utf16 "hi")),
        (noResponseEnvironment, WebviewRequest.newTask)]).currentTask ≠ none ∧
    (handleMessages ⟨none, [], none⟩
      [(noResponseEnvironment, WebviewRequest.sendMessage (utf16 "hi")),
        (noResponseEnvironment, WebviewRequest.newTask)]).conversationHistory ≠ [] :=
  ⟨by decide,
    handleMessages_task_history none
      [(noResponseEnvironment, WebviewRequest.sendMessage (utf16 "hi")),
        (noResponseEnvironment, WebviewRequest.newTask)] (by decide)⟩

/-! ## The fallback of `parseDiagnostics` -/

theorem severityOf_ne_hint (message : JString) :
    severityOf message ≠ DiagnosticSeverity.Hint := by
  unfold severityOf
  simp only
  split_ifs <;> simp

/-- C30: when `linePattern` has matches in the response but every matched line
number is out of range, and the response contains `improve`, `parseDiagnostics`
returns exactly the Hint at line 0; when at least one match is in range, no
diagnostic returned is a Hint. -/
theorem parseDiagnostics_fallback_on_diagnostics (response : JString) (document : TextDocument) :
    (lineMatches response ≠ [] →
      (∀ m ∈ lineMatches response, LineMatch.inRange document m = false) →
      includes response (utf16 "improve") = true →
      parseDiagnostics response document = [hintDiagnostic] ∧
        hintDiagnostic.severity = DiagnosticSeverity.Hint ∧
        hintDiagnostic.range = ⟨0, 0, 0, 0⟩) ∧
    ((∃ m ∈ lineMatches response, LineMatch.inRange document m = true) →
      ∀ d ∈ parseDiagnostics response document, d.severity ≠ DiagnosticSeverity.Hint) := by
  constructor
  · intro _ hout himprove
    have hnil : (lineMatches response).filter (LineMatch.inRange document) = [] := by
      rw [List.filter_eq_nil_iff]
      intro m hm
      simp [hout m hm]
    rw [parseDiagnostics_eq, if_pos ⟨hnil, himprove⟩]
    exact ⟨rfl, rfl, rfl⟩
  · rintro ⟨m, hm, hin⟩ d hd
    have hne : ¬ ((lineMatches response).filter (LineMatch.inRange document) = [] ∧
        includes response (utf16 "improve") = true) := by
      rintro ⟨h, -⟩
      have : m ∈ (lineMatches response).filter (LineMatch.inRange document) :=
        List.mem_filter.2 ⟨hm, hin⟩
      rw [h] at this
      simp at this
    rw [parseDiagnostics_eq, if_neg hne] at hd
    simp only [List.mem_map] at hd
    obtain ⟨m1, -, rfl⟩ := hd
    exact severityOf_ne_hint _

/-- C30, at the document of three lines and a response whose only match names
line 9. -/
theorem parseDiagnostics_fallback_on_diagnostics_witness :
    parseDiagnostics (utf16 "Line 9: please improve this") threeLineDocument =
      [hintDiagnostic] ∧
    hintDiagnostic.severity = DiagnosticSeverity.Hint ∧
    hintDiagnostic.range = ⟨0, 0, 0, 0⟩ :=
  (parseDiagnostics_fallback_on_diagnostics (utf16 "Line 9: please improve this")
    threeLineDocument).1 (by decide) (by decide) (by decide)

end Beca
